import Mathlib

/-!
# mjmech locomotion math core

A shallow embedding of the numeric core of `mjmech` (`base/quaternion.h`,
`base/saturate.h`, `mech/quadruped_util.h`, and the leg solver exercised by
`mech/test/mammal_ik_test.cc`) together with the properties its specification
states about it.

`double` is modelled by an ordered field `K`; the C math library is the class
`Libm K`.  Theorems are stated over `ℝ` with the real-analytic functions; every
definition stays generic in `K`, so that it can be evaluated over `ℚ`.
-/

namespace mjmech

/-- The functions of `<cmath>` the sources call, over the scalar type `K`. -/
class Libm (K : Type) where
  /-- Models `std::sqrt`. -/
  sqrt : K → K
  /-- Models `std::sin`. -/
  sin : K → K
  /-- Models `std::cos`. -/
  cos : K → K
  /-- Models `std::asin`. -/
  asin : K → K
  /-- Models `std::acos`. -/
  acos : K → K
  /-- Models `std::atan2 (y, x)`. -/
  atan2 : K → K → K
  /-- Models `M_PI`. -/
  pi : K

/-- The real-analytic reading of `<cmath>`: `atan2 y x` is the argument of
`x + y i`, in `(-π, π]`, with `atan2 0 0 = 0`.  Outside their real domains the
functions take the total values of Mathlib: the square root of a negative
number is `0`, `acos` and `asin` clamp their argument to `[-1, 1]`. -/
noncomputable instance realLibm : Libm ℝ where
  sqrt := Real.sqrt
  sin := Real.sin
  cos := Real.cos
  asin := Real.arcsin
  acos := Real.arccos
  atan2 := fun y x => Complex.arg ⟨x, y⟩
  pi := Real.pi

namespace base

/-- `base::Point3D`, an alias of `Eigen::Vector3d` (`base/point3d.h` is not
among the sources; the operations below are those of Eigen). -/
structure Point3D (K : Type) where
  x : K
  y : K
  z : K

namespace Point3D

variable {K : Type}

/-- `Eigen` vector addition. -/
def add [Add K] (a b : Point3D K) : Point3D K :=
  ⟨a.x + b.x, a.y + b.y, a.z + b.z⟩

/-- `Eigen` vector subtraction. -/
def sub [Sub K] (a b : Point3D K) : Point3D K :=
  ⟨a.x - b.x, a.y - b.y, a.z - b.z⟩

/-- `Eigen` product of a vector with a scalar. -/
def scale [Mul K] (a : Point3D K) (s : K) : Point3D K :=
  ⟨a.x * s, a.y * s, a.z * s⟩

/-- `Eigen` quotient of a vector by a scalar. -/
def divide [Div K] (a : Point3D K) (s : K) : Point3D K :=
  ⟨a.x / s, a.y / s, a.z / s⟩

/-- `Eigen` `squaredNorm()`. -/
def squaredNorm [Add K] [Mul K] (a : Point3D K) : K :=
  a.x * a.x + a.y * a.y + a.z * a.z

/-- `Eigen` `norm()`: the square root of `squaredNorm()`. -/
def norm [Add K] [Mul K] [Libm K] (a : Point3D K) : K :=
  Libm.sqrt (squaredNorm a)

/-- `Eigen` `normalized()`: the vector divided by its norm, and (as in Eigen
3.3 and later) the vector itself when its squared norm is not positive. -/
def normalized [LinearOrderedField K] [Libm K] (a : Point3D K) : Point3D K :=
  if 0 < squaredNorm a then divide a (Libm.sqrt (squaredNorm a)) else a

end Point3D

/-- `base::Quaternion`: the four private members `w_`, `x_`, `y_`, `z_`. -/
structure Quaternion (K : Type) where
  w : K
  x : K
  y : K
  z : K

namespace Quaternion

variable {K : Type}

/-- The default constructor `Quaternion()`. -/
def identity [Zero K] [One K] : Quaternion K := ⟨1, 0, 0, 0⟩

/-- `operator*(const Quaternion& lhs, const Quaternion& rhs)`. -/
def mul [Ring K] (lhs rhs : Quaternion K) : Quaternion K :=
  let a := lhs.w
  let b := lhs.x
  let c := lhs.y
  let d := lhs.z
  let e := rhs.w
  let f := rhs.x
  let g := rhs.y
  let h := rhs.z
  ⟨a * e - b * f - c * g - d * h,
   b * e + a * f + c * h - d * g,
   a * g - b * h + c * e + d * f,
   a * h + b * g - c * f + d * e⟩

/-- `Quaternion::conjugated()`. -/
def conjugated [Neg K] (q : Quaternion K) : Quaternion K :=
  ⟨q.w, -q.x, -q.y, -q.z⟩

/-- `Quaternion::Rotate(const Point3D&)`: `*this * p * conjugated()`. -/
def Rotate [Ring K] (q : Quaternion K) (vector3d : Point3D K) : Point3D K :=
  let p : Quaternion K := ⟨0, vector3d.x, vector3d.y, vector3d.z⟩
  let r := mul (mul q p) (conjugated q)
  ⟨r.x, r.y, r.z⟩

/-- `Quaternion::norm()`. -/
def norm [Add K] [Mul K] [Libm K] (q : Quaternion K) : K :=
  Libm.sqrt (q.w * q.w + q.x * q.x + q.y * q.y + q.z * q.z)

/-- `Quaternion::normalized()`. -/
def normalized [Add K] [Mul K] [Div K] [Libm K] (q : Quaternion K) : Quaternion K :=
  let n := norm q
  ⟨q.w / n, q.x / n, q.y / n, q.z / n⟩

/-- `Quaternion::matrix()`, the nine assignments `r(i, j) = ...`. -/
def matrix [Ring K] (q : Quaternion K) : Matrix (Fin 3) (Fin 3) K :=
  !![q.w * q.w + q.x * q.x - q.y * q.y - q.z * q.z,
     2 * (q.x * q.y - q.w * q.z),
     2 * (q.w * q.y + q.x * q.z);
     2 * (q.x * q.y + q.w * q.z),
     q.w * q.w - q.x * q.x + q.y * q.y - q.z * q.z,
     2 * (q.y * q.z - q.w * q.x);
     2 * (q.x * q.z - q.w * q.y),
     2 * (q.w * q.x + q.y * q.z),
     q.w * q.w - q.x * q.x - q.y * q.y + q.z * q.z]

end Quaternion

/-- Conversion of a floating point value to an integer type by `static_cast`:
the fractional part is discarded (truncation toward zero).  The value is exact
whenever the truncated value is representable in the destination type, which
is the only case in which `Saturate` performs the conversion. -/
def static_cast_int {K : Type} [LinearOrderedField K] [FloorRing K] (value : K) : Int :=
  if 0 ≤ value then Int.floor value else Int.ceil value

/-- `base::Saturate<T, InType>(value)` for an integer destination type `T`
whose `std::numeric_limits<T>::min()` and `max()` are `tmin` and `tmax`. -/
def Saturate {K : Type} [LinearOrderedField K] [FloorRing K] (tmin tmax : Int) (value : K) : Int :=
  if value ≥ (tmax : K) then tmax
  else if value ≤ (tmin : K) then tmin
  else static_cast_int value

/-- `std::numeric_limits<int16_t>::min()`. -/
def int16_min : Int := -32768

/-- `std::numeric_limits<int16_t>::max()`. -/
def int16_max : Int := 32767

/-- `base::Saturate<int16_t>(value)`, the instance used by `rf_command.cc`. -/
def Saturate_int16 {K : Type} [LinearOrderedField K] [FloorRing K] (value : K) : Int :=
  Saturate int16_min int16_max value

end base

namespace mech

open base

/-- `struct FilterCommandState` of `mech/quadruped_util.h`. -/
structure FilterCommandState (K : Type) where
  v : Point3D K
  w : Point3D K

namespace FilterCommand

variable {K : Type} [LinearOrderedField K] [Libm K]

/-- The local `delta` of `FilterCommand` (and, applied to `w` with
`alpha_rad_s2 * delta_s`, its local `delta_rad_s`): the raw difference when its
norm is below `max_delta`, else its `normalized()` times `max_delta`. -/
def delta (input_delta : Point3D K) (max_delta : K) : Point3D K :=
  if Point3D.norm input_delta < max_delta then input_delta
  else Point3D.scale (Point3D.normalized input_delta) max_delta

end FilterCommand

/-- `FilterCommand(current, desired, acceleration, alpha_rad_s2, delta_s)`. -/
def FilterCommand {K : Type} [LinearOrderedField K] [Libm K]
    (current desired : FilterCommandState K)
    (acceleration alpha_rad_s2 delta_s : K) : FilterCommandState K :=
  let input_delta := Point3D.sub desired.v current.v
  let max_delta := acceleration * delta_s
  let delta := FilterCommand.delta input_delta max_delta
  let v1 := Point3D.add current.v delta
  let v2 : Point3D K := ⟨v1.x, v1.y, 0⟩
  let input_delta_rad_s := Point3D.sub desired.w current.w
  let max_delta_rad_s := alpha_rad_s2 * delta_s
  let delta_rad_s := FilterCommand.delta input_delta_rad_s max_delta_rad_s
  let w1 := Point3D.add current.w delta_rad_s
  let w2 : Point3D K := ⟨0, 0, w1.z⟩
  ⟨v2, w2⟩

/-- Modelled from the spec: `base::Radians` of `base/common.h`, which is not
among the sources; angles are degrees at the component boundary and radians
internally. -/
def Radians {K : Type} [Mul K] [Div K] [OfNat K 180] [Libm K] (degrees : K) : K :=
  Libm.pi * degrees / 180

/-- Modelled from the spec: `base::Degrees` of `base/common.h`, which is not
among the sources; the inverse conversion of `Radians`. -/
def Degrees {K : Type} [Mul K] [Div K] [OfNat K 180] [Libm K] (radians : K) : K :=
  180 * radians / Libm.pi

/-- Modelled from the spec: the shoulder rotation of `mech/mammal_ik.h` (not
among the sources), by `angle_rad` about the fore-aft (x) axis, in the
sense fixed by `MammalPoseTest`: the shoulder at `+θ` sends `(0, 0, 1)` to
`(0, sin (-θ), cos (-θ))`. -/
def rotate_x {K : Type} [Ring K] [Libm K] (angle_rad : K) (p : Point3D K) : Point3D K :=
  ⟨p.x,
   p.y * Libm.cos angle_rad - p.z * Libm.sin angle_rad,
   p.y * Libm.sin angle_rad + p.z * Libm.cos angle_rad⟩

/-- Modelled from the spec: the femur and tibia rotation of
`mech/mammal_ik.h` (not among the sources), by `angle_rad` about the lateral (y) axis, in the
sense fixed by `MammalPoseTest`: the femur at `+θ` sends `(0, 0, 1)` to
`(sin θ, 0, cos θ)`. -/
def rotate_y {K : Type} [Ring K] [Libm K] (angle_rad : K) (p : Point3D K) : Point3D K :=
  ⟨p.x * Libm.cos angle_rad + p.z * Libm.sin angle_rad,
   p.y,
   p.z * Libm.cos angle_rad - p.x * Libm.sin angle_rad⟩

namespace IkSolver

/-- Modelled from the spec: one entry of `IkSolver::JointAngles` (declared in a
header that is not among the sources), as far as the pose analysis uses it:
the joint id and the commanded angle in degrees. -/
structure Joint (K : Type) where
  id : Int
  angle_deg : K

/-- Modelled from the spec: the joint set of one leg (`IkSolver::JointAngles`,
declared in a header that is not among the sources), its three entries
addressed by role as the test helpers `Shoulder`, `Femur`, `Tibia` do. -/
structure JointAngles (K : Type) where
  shoulder : Joint K
  femur : Joint K
  tibia : Joint K

end IkSolver

namespace MammalIk

/-- Modelled from the spec: one joint descriptor of `MammalIk::Config`
(`mech/mammal_ik.h` is not among the sources), the offset vector it owns and
its id, as the tests fill them in. -/
structure Joint (K : Type) where
  pose : Point3D K
  id : Int

/-- Modelled from the spec: the leg configuration `MammalIk::Config`
(`mech/mammal_ik.h` is not among the sources) as the tests fill it in: three
joint descriptors ordered shoulder, femur, tibia and the `invert` flag. -/
structure Config (K : Type) where
  shoulder : Joint K
  femur : Joint K
  tibia : Joint K
  invert : Bool

variable {K : Type}

/-- Modelled from the spec: the `pose` of the result of `MammalIk::Forward_G`
(`mech/mammal_ik.h` is not among the sources).  Each joint rotates its own
offset and everything distal to it: shoulder about the fore-aft axis, femur and
tibia about the lateral axis.  The nesting is the one the tests of
`mech/test/mammal_ik_test.cc` determine (`MammalPoseTest`: femur at 10 degrees
gives `(0.020 + 0.200 sin 10°, 0, 0.200 cos 10°)`, so the femur joint turns the
femur offset; `OldMammalTest`: target `(0, 0.040, 0.190)` with shoulder offset
`(0, 0.030, 0.040)` gives `-3.00`, `46.37`, `-87.52` degrees, and
`MammalInverseShoulderTest`: the z offset of the shoulder has no effect on the
shoulder angle, so the shoulder joint turns the shoulder offset).  The formula
displayed in the spec, `P1 + R_shoulder·(femur_offset + R_femur·R_tibia·tibia_offset)`,
does not reproduce these rows; the tests decide. -/
def Forward_G_pose [Ring K] [Div K] [OfNat K 180] [Libm K]
    (config : Config K) (joints : IkSolver.JointAngles K) : Point3D K :=
  let theta_shoulder := Radians joints.shoulder.angle_deg
  let theta_femur := Radians joints.femur.angle_deg
  let theta_tibia := Radians joints.tibia.angle_deg
  rotate_x theta_shoulder
    (Point3D.add config.shoulder.pose
      (rotate_y theta_femur
        (Point3D.add config.femur.pose (rotate_y theta_tibia config.tibia.pose))))

/-- Modelled from the spec: the femur link length `l2` used by
`MammalIk::Inverse`, the extent of the femur offset along the leg. -/
def l2 (config : Config K) : K := config.femur.pose.z

/-- Modelled from the spec: the tibia link length `l3` used by
`MammalIk::Inverse`, the extent of the tibia offset along the leg. -/
def l3 (config : Config K) : K := config.tibia.pose.z

/-- Modelled from the spec: the distance of the target below the shoulder axis
once the leg plane has been turned onto it, in step 1 of `MammalIk::Inverse`.
The radicand is negative for a target closer to the fore-aft axis than the
lateral offset of the hip. -/
def lower_leg_distance [Ring K] [Libm K] (config : Config K) (pose : Point3D K) : K :=
  Libm.sqrt (pose.y * pose.y + pose.z * pose.z
    - config.shoulder.pose.y * config.shoulder.pose.y)

/-- Modelled from the spec: the shoulder angle in radians of step 1 of
`MammalIk::Inverse`, a two-argument arctangent over the projection of the
target onto the plane perpendicular to the fore-aft axis, corrected by the
lateral offset of the hip. -/
def shoulder_rad [Ring K] [Libm K] (config : Config K) (pose : Point3D K) : K :=
  Libm.atan2 (-pose.y) pose.z
    - Libm.atan2 (-config.shoulder.pose.y) (lower_leg_distance config pose)

/-- Modelled from the spec: the fore-aft coordinate of the target relative to
the hip in the sagittal plane of the leg (step 2 of `MammalIk::Inverse`). -/
def planar_x [Ring K] (config : Config K) (pose : Point3D K) : K :=
  pose.x - config.shoulder.pose.x

/-- Modelled from the spec: the coordinate of the target along the leg relative
to the hip in the sagittal plane of the leg (step 2 of `MammalIk::Inverse`). -/
def planar_z [Ring K] [Libm K] (config : Config K) (pose : Point3D K) : K :=
  lower_leg_distance config pose - config.shoulder.pose.z

/-- Modelled from the spec: the planar radius `r` of the target from the hip
(steps 2 and 3 of `MammalIk::Inverse`). -/
def planar_radius [Ring K] [Libm K] (config : Config K) (pose : Point3D K) : K :=
  Libm.sqrt (planar_x config pose * planar_x config pose
    + planar_z config pose * planar_z config pose)

/-- Modelled from the spec: the knee angle in radians of step 4 of
`MammalIk::Inverse`, the law of cosines on `l2`, `l3` and `r`; negative unless
`invert` (the signs of `MammalInverseLowerTest`). -/
def tibia_rad [Ring K] [Div K] [Libm K] (config : Config K) (pose : Point3D K) : K :=
  let r := planar_radius config pose
  let l2 := l2 config
  let l3 := l3 config
  let tibia_abs_rad := Libm.acos ((r * r - l2 * l2 - l3 * l3) / (2 * l2 * l3))
  if config.invert then tibia_abs_rad else -tibia_abs_rad

/-- Modelled from the spec: the femur angle in radians of step 4 of
`MammalIk::Inverse`, the direction of the target in the sagittal plane plus
(minus, if `invert`) the law-of-cosines angle between femur and target. -/
def femur_rad [Ring K] [Div K] [Libm K] (config : Config K) (pose : Point3D K) : K :=
  let r := planar_radius config pose
  let l2 := l2 config
  let l3 := l3 config
  let femur_inner_rad := Libm.acos ((l2 * l2 + r * r - l3 * l3) / (2 * l2 * r))
  let target_rad := Libm.atan2 (planar_x config pose) (planar_z config pose)
  if config.invert then target_rad - femur_inner_rad else target_rad + femur_inner_rad

/-- Modelled from the spec: the joint angles of `MammalIk::Inverse(effector_G,
current)` (`mech/mammal_ik.h` is not among the sources).  Step 1 solves the
shoulder, step 2 reduces to the planar two-link problem, step 3 returns empty
when `r > l2 + l3` or `r < |l2 - l3|`, step 4 takes the law-of-cosines
solution selected by `invert`; `current` is accepted and not consulted. -/
def Inverse [LinearOrderedField K] [Libm K]
    (config : Config K) (effector_pose : Point3D K)
    (_current : Option (IkSolver.JointAngles K)) : Option (IkSolver.JointAngles K) :=
  let r := planar_radius config effector_pose
  if r > l2 config + l3 config ∨ r < |l2 config - l3 config| then none
  else
    some
      { shoulder := ⟨config.shoulder.id, Degrees (shoulder_rad config effector_pose)⟩
        femur := ⟨config.femur.id, Degrees (femur_rad config effector_pose)⟩
        tibia := ⟨config.tibia.id, Degrees (tibia_rad config effector_pose)⟩ }

/-- The leg of `Fixture` in `mech/test/mammal_ik_test.cc`: shoulder offset
`(0.020, 0, 0)` with id 1, femur `(0, 0, 0.100)` with id 2, tibia
`(0, 0, 0.100)` with id 3, `invert` left at its default. -/
def Fixture_config [DivisionRing K] : Config K :=
  { shoulder := ⟨⟨0.020, 0, 0⟩, 1⟩
    femur := ⟨⟨0, 0, 0.100⟩, 2⟩
    tibia := ⟨⟨0, 0, 0.100⟩, 3⟩
    invert := false }

/-- The leg of `OldMammalTest` in `mech/test/mammal_ik_test.cc`: shoulder
offset `(0, 0.030, 0.040)`, femur `(0, 0, 0.100)`, tibia `(0, 0, 0.110)`. -/
def OldMammalTest_config [DivisionRing K] : Config K :=
  { shoulder := ⟨⟨0, 0.030, 0.040⟩, 1⟩
    femur := ⟨⟨0, 0, 0.100⟩, 2⟩
    tibia := ⟨⟨0, 0, 0.110⟩, 3⟩
    invert := false }

end MammalIk

end mech

namespace base

/-- `base::Euler` (`base/euler.h` is not among the sources): the three members
`euler_rad()` assigns, in radians. -/
structure Euler (K : Type) where
  roll : K
  pitch : K
  yaw : K

namespace Quaternion

variable {K : Type}

/-- `struct Quaternion::AxisAngle`. -/
structure AxisAngle (K : Type) where
  angle_rad : K
  axis : Point3D K

/-- `Quaternion::FromAxisAngle(angle_rad, x, y, z)`. -/
def FromAxisAngle [Field K] [Libm K] (angle_rad x y z : K) : Quaternion K :=
  let c := Libm.cos (angle_rad / 2)
  let s := Libm.sin (angle_rad / 2)
  ⟨c, x * s, y * s, z * s⟩

/-- `Quaternion::FromEuler(roll_rad, pitch_rad, yaw_rad)`. -/
def FromEuler [Field K] [Libm K] (roll_rad pitch_rad yaw_rad : K) : Quaternion K :=
  mul (mul (FromAxisAngle yaw_rad 0 0 1) (FromAxisAngle pitch_rad 0 1 0))
    (FromAxisAngle roll_rad 1 0 0)

/-- `Quaternion::euler_rad()`; `M_PI_2` is `Libm.pi / 2`. -/
def euler_rad [LinearOrderedField K] [Libm K] (q : Quaternion K) : Euler K :=
  let sinp := 2 * (q.w * q.y - q.z * q.x)
  if sinp ≥ 1 - 1e-8 then
    { pitch := Libm.pi / 2
      roll := 0
      yaw := -2 * Libm.atan2 q.x q.w }
  else if sinp ≤ -1 + 1e-8 then
    { pitch := -(Libm.pi / 2)
      roll := 0
      yaw := 2 * Libm.atan2 q.x q.w }
  else
    let sinr_cosp := 2 * (q.w * q.x + q.y * q.z)
    let cosr_cosp := 1 - 2 * (q.x * q.x + q.y * q.y)
    let siny_cosp := 2 * (q.w * q.z + q.x * q.y)
    let cosy_cosp := 1 - 2 * (q.y * q.y + q.z * q.z)
    { pitch := Libm.asin sinp
      roll := Libm.atan2 sinr_cosp cosr_cosp
      yaw := Libm.atan2 siny_cosp cosy_cosp }

/-- The local `denom` of `Quaternion::axis_angle()`. -/
def axis_angle_denom [Field K] [Libm K] (q : Quaternion K) : K :=
  Libm.sqrt (1 - q.w * q.w)

/-- `Quaternion::axis_angle()`.  The source contains no check and no
assertion: every call returns an `AxisAngle`. -/
def axis_angle [Field K] [Libm K] (q : Quaternion K) : AxisAngle K :=
  let denom := axis_angle_denom q
  { angle_rad := 2 * Libm.acos q.w
    axis := ⟨q.x / denom, q.y / denom, q.z / denom⟩ }

/-- The constant `kMaxIntegrationAngle` of `IntegrateRotationRate`. -/
def kMaxIntegrationAngle [DivisionRing K] : K := 0.5

/-- `Quaternion::IntegrateRotationRate(rate_rps, dt_s)`.  A `BOOST_VERIFY`
whose condition is false aborts the call (in a build with assertions
enabled), which is the result `none`; the three conditions are the one-sided
comparisons of the source. -/
def IntegrateRotationRate [LinearOrderedField K] [Libm K]
    (rate_rps : Point3D K) (dt_s : K) : Option (Quaternion K) :=
  if rate_rps.x * dt_s < kMaxIntegrationAngle then
    if rate_rps.y * dt_s < kMaxIntegrationAngle then
      if rate_rps.z * dt_s < kMaxIntegrationAngle then
        some (normalized
          ⟨1, 0.5 * rate_rps.x * dt_s, 0.5 * rate_rps.y * dt_s, 0.5 * rate_rps.z * dt_s⟩)
      else none
    else none
  else none

end Quaternion

/-- `Eigen` `cross()`: the vector product. -/
def Point3D.cross {K : Type} [Ring K] (a b : Point3D K) : Point3D K :=
  ⟨a.y * b.z - a.z * b.y, a.z * b.x - a.x * b.z, a.x * b.y - a.y * b.x⟩

/-- `Eigen` `dot()`: the scalar product. -/
def Point3D.dot {K : Type} [Ring K] (a b : Point3D K) : K :=
  a.x * b.x + a.y * b.y + a.z * b.z

end base

namespace mech

open base

namespace IkSolver

/-- Modelled from the spec: one scalar per joint of a leg, by role; the
`velocity_dps` members (degrees per second) or the `torque_Nm` members
(newton metres) of an `IkSolver::JointAngles`, which is declared in a header
that is not among the sources. -/
structure JointValues (K : Type) where
  shoulder : K
  femur : K
  tibia : K

/-- Modelled from the spec: `IkSolver::Effector` (declared in a header that is
not among the sources), the members `pose`, `velocity` and `force_N` that the
tests read and write. -/
structure Effector (K : Type) where
  pose : Point3D K
  velocity : Point3D K
  force_N : Point3D K

end IkSolver

namespace MammalIk

variable {K : Type}

/-- Modelled from the spec: the rotation axis of the shoulder, the body
fore-aft axis. -/
def shoulder_axis [Zero K] [One K] : Point3D K := ⟨1, 0, 0⟩

/-- Modelled from the spec: the rotation axis of femur and tibia, the lateral
axis turned by the shoulder joint (the one joint proximal to them that moves
it). -/
def lateral_axis [Ring K] [Div K] [OfNat K 180] [Libm K]
    (joints : IkSolver.JointAngles K) : Point3D K :=
  rotate_x (Radians joints.shoulder.angle_deg) ⟨0, 1, 0⟩

/-- Modelled from the spec: the position `p_1` of the shoulder joint.  The
shoulder turns its own offset, so its axis passes through the origin of the
leg frame (`MammalInverseForceTest`: with shoulder offset `(0, 0.030, 0)`,
target `(0, 0.030, 0.170)` and force `(0, 0, 10)` the shoulder torque is
`0.30`). -/
def shoulder_position [Zero K] : Point3D K := ⟨0, 0, 0⟩

/-- Modelled from the spec: the position `p_2` of the femur joint, the hip at
the end of the shoulder offset. -/
def femur_position [Ring K] [Div K] [OfNat K 180] [Libm K]
    (config : Config K) (joints : IkSolver.JointAngles K) : Point3D K :=
  rotate_x (Radians joints.shoulder.angle_deg) config.shoulder.pose

/-- Modelled from the spec: the position `p_3` of the tibia joint, the knee at
the end of the femur link. -/
def tibia_position [Ring K] [Div K] [OfNat K 180] [Libm K]
    (config : Config K) (joints : IkSolver.JointAngles K) : Point3D K :=
  rotate_x (Radians joints.shoulder.angle_deg)
    (Point3D.add config.shoulder.pose
      (rotate_y (Radians joints.femur.angle_deg) config.femur.pose))

/-- Modelled from the spec: the column of the geometric Jacobian of the
shoulder, `a_1 × (tip - p_1)`. -/
def jacobian_shoulder [Ring K] [Div K] [OfNat K 180] [Libm K]
    (config : Config K) (joints : IkSolver.JointAngles K) : Point3D K :=
  Point3D.cross shoulder_axis (Point3D.sub (Forward_G_pose config joints) shoulder_position)

/-- Modelled from the spec: the column of the geometric Jacobian of the femur,
`a_2 × (tip - p_2)`. -/
def jacobian_femur [Ring K] [Div K] [OfNat K 180] [Libm K]
    (config : Config K) (joints : IkSolver.JointAngles K) : Point3D K :=
  Point3D.cross (lateral_axis joints)
    (Point3D.sub (Forward_G_pose config joints) (femur_position config joints))

/-- Modelled from the spec: the column of the geometric Jacobian of the tibia,
`a_3 × (tip - p_3)`. -/
def jacobian_tibia [Ring K] [Div K] [OfNat K 180] [Libm K]
    (config : Config K) (joints : IkSolver.JointAngles K) : Point3D K :=
  Point3D.cross (lateral_axis joints)
    (Point3D.sub (Forward_G_pose config joints) (tibia_position config joints))

/-- Modelled from the spec: the `velocity` of the result of
`MammalIk::Forward_G` (`mech/mammal_ik.h` is not among the sources), the sum
over the three joints of the joint rate in radians per second times the
Jacobian column `a_i × (tip - p_i)`. -/
def Forward_G_velocity [Ring K] [Div K] [OfNat K 180] [Libm K]
    (config : Config K) (joints : IkSolver.JointAngles K)
    (velocity_dps : IkSolver.JointValues K) : Point3D K :=
  Point3D.add
    (Point3D.add
      (Point3D.scale (jacobian_shoulder config joints) (Radians velocity_dps.shoulder))
      (Point3D.scale (jacobian_femur config joints) (Radians velocity_dps.femur)))
    (Point3D.scale (jacobian_tibia config joints) (Radians velocity_dps.tibia))

/-- Modelled from the spec: the `force_N` of the result of
`MammalIk::Forward_G` (`mech/mammal_ik.h` is not among the sources), the force
`f` of the virtual-work equations `torque_i = a_i · ((tip - p_i) × f)`, that is
`c_i · f = torque_i` for the Jacobian columns `c_i`, in closed form:
`(τ_1 c_2 × c_3 + τ_2 c_3 × c_1 + τ_3 c_1 × c_2) / (c_1 · (c_2 × c_3))`.  At a
singular pose (a straight leg, as in the first row of `MammalForceTest`) the
equations do not determine the force and the spec does not say which solution
the source takes; the closed form there divides by a zero determinant, so
it does not give the `(0, -5, 0)` that row expects.  It is relied on only
where the determinant is not zero or all torques are zero. -/
def Forward_G_force [Field K] [Libm K]
    (config : Config K) (joints : IkSolver.JointAngles K)
    (torque_Nm : IkSolver.JointValues K) : Point3D K :=
  let c1 := jacobian_shoulder config joints
  let c2 := jacobian_femur config joints
  let c3 := jacobian_tibia config joints
  Point3D.divide
    (Point3D.add
      (Point3D.add
        (Point3D.scale (Point3D.cross c2 c3) torque_Nm.shoulder)
        (Point3D.scale (Point3D.cross c3 c1) torque_Nm.femur))
      (Point3D.scale (Point3D.cross c1 c2) torque_Nm.tibia))
    (Point3D.dot c1 (Point3D.cross c2 c3))

/-- Modelled from the spec: `MammalIk::Forward_G(joints)` (`mech/mammal_ik.h`
is not among the sources); the angles, rates and torques of the joint set are
passed by role. -/
def Forward_G [Field K] [Libm K]
    (config : Config K) (joints : IkSolver.JointAngles K)
    (velocity_dps torque_Nm : IkSolver.JointValues K) : IkSolver.Effector K :=
  { pose := Forward_G_pose config joints
    velocity := Forward_G_velocity config joints velocity_dps
    force_N := Forward_G_force config joints torque_Nm }

/-- Modelled from the spec: the pose formula displayed in section 4.2, word for word:
`P1 + R_shoulder·(femur_offset + R_femur·R_tibia·tibia_offset)`, with `P1` the
shoulder offset in the body frame, not turned by the shoulder joint. -/
def spec_pose_formula [Ring K] [Div K] [OfNat K 180] [Libm K]
    (config : Config K) (joints : IkSolver.JointAngles K) : Point3D K :=
  Point3D.add config.shoulder.pose
    (rotate_x (Radians joints.shoulder.angle_deg)
      (Point3D.add config.femur.pose
        (rotate_y (Radians joints.femur.angle_deg)
          (rotate_y (Radians joints.tibia.angle_deg) config.tibia.pose))))

end MammalIk

end mech

namespace mech

namespace QuadrupedCommand

/-- `QuadrupedCommand::Leg` (`mech/quadruped_command.h` is not among the
sources): the member `leg_id` that `GetLeg_R` reads, and the remaining members
as one value of a type the lookup never inspects. -/
structure Leg (Other : Type) where
  leg_id : Int
  other : Other

end QuadrupedCommand

/-- `GetLeg_R(legs_R, id)`: the range-for loop returns the first element whose
`leg_id` is `id`; falling out of the loop reaches
`mjlib::base::AssertNotReached()`, which aborts and is the result `none`. -/
def GetLeg_R {Other : Type} :
    List (QuadrupedCommand.Leg Other) → Int → Option (QuadrupedCommand.Leg Other)
  | [], _ => none
  | leg_R :: rest, id => if leg_R.leg_id = id then some leg_R else GetLeg_R rest id

namespace rf_command

/-- Conversion of an `int` to `int16_t`, the assignment to
`turret_fire_sequence`: the value modulo `2^16` in `[-32768, 32767]`. -/
def to_int16 (value : Int) : Int :=
  (value + 32768) % 65536 - 32768

/-- The initial value of `turret_fire_sequence` in `do_main`:
`int16_t turret_fire_sequence = 0;`. -/
def turret_fire_sequence_initial : Int := 0

/-- The update of `turret_fire_sequence` in one pass of the command loop of
`do_main`, with `pressed` the value of
`trigger_pressed[GLFW_GAMEPAD_AXIS_RIGHT_TRIGGER]`: the sum and `std::max` are
computed in `int`, the result is converted to `int16_t` on assignment. -/
def turret_fire_sequence_update (pressed : Bool) (turret_fire_sequence : Int) : Int :=
  if pressed then
    let assigned := to_int16 (max 1024 (turret_fire_sequence + 1))
    if assigned > 2048 then 1024 else assigned
  else turret_fire_sequence

/-- The value of `turret_fire_sequence` after the passes of the command loop
listed in `passes` (one entry per pass: whether the right trigger was pressed),
starting from the initial value. -/
def turret_fire_sequence_after (passes : List Bool) : Int :=
  passes.foldl (fun turret_fire_sequence pressed =>
    turret_fire_sequence_update pressed turret_fire_sequence) turret_fire_sequence_initial

end rf_command

end mech

namespace mech

open base

namespace MammalIk

variable {K : Type}

/-- Modelled from the spec: the `velocity_dps` members of the result of
`MammalIk::Inverse` (`mech/mammal_ik.h` is not among the sources), step 5 of
section 4.2: the closed-form inverse of the Jacobian built in `Forward_G`
(columns `c_i = a_i × (tip - p_i)` at the solved pose) applied to the target
velocity, in degrees per second:
`rate_1 = (c_2 × c_3) · v / det`, `rate_2 = (c_3 × c_1) · v / det`,
`rate_3 = (c_1 × c_2) · v / det` with `det = c_1 · (c_2 × c_3)`.  At a
singular pose the spec does not say what the source returns; the closed form
there divides by a zero determinant. -/
def Inverse_velocity_dps [Field K] [Libm K]
    (config : Config K) (joints : IkSolver.JointAngles K) (velocity : Point3D K) :
    IkSolver.JointValues K :=
  let c1 := jacobian_shoulder config joints
  let c2 := jacobian_femur config joints
  let c3 := jacobian_tibia config joints
  let det := Point3D.dot c1 (Point3D.cross c2 c3)
  { shoulder := Degrees (Point3D.dot (Point3D.cross c2 c3) velocity / det)
    femur := Degrees (Point3D.dot (Point3D.cross c3 c1) velocity / det)
    tibia := Degrees (Point3D.dot (Point3D.cross c1 c2) velocity / det) }

/-- Modelled from the spec: the `torque_Nm` members of the result of
`MammalIk::Inverse` (`mech/mammal_ik.h` is not among the sources), step 5 of
section 4.2: the transpose of the Jacobian built in `Forward_G` applied to the
target force, `torque_i = c_i · f`. -/
def Inverse_torque_Nm [Field K] [Libm K]
    (config : Config K) (joints : IkSolver.JointAngles K) (force_N : Point3D K) :
    IkSolver.JointValues K :=
  { shoulder := Point3D.dot (jacobian_shoulder config joints) force_N
    femur := Point3D.dot (jacobian_femur config joints) force_N
    tibia := Point3D.dot (jacobian_tibia config joints) force_N }

/-- Modelled from the spec: `MammalIk::Inverse(effector_G, current)` with all
that it returns (`mech/mammal_ik.h` is not among the sources): the joint
angles of `Inverse` for the target pose and, at that solved pose, the joint
rates for the target velocity and the joint torques for the target force,
passed by role; empty when the pose is out of reach. -/
def Inverse_effector [LinearOrderedField K] [Libm K]
    (config : Config K) (effector_G : IkSolver.Effector K)
    (current : Option (IkSolver.JointAngles K)) :
    Option (IkSolver.JointAngles K × IkSolver.JointValues K × IkSolver.JointValues K) :=
  match Inverse config effector_G.pose current with
  | none => none
  | some joints =>
    some (joints, Inverse_velocity_dps config joints effector_G.velocity,
      Inverse_torque_Nm config joints effector_G.force_N)

/-- The leg of `MammalInverseVelocityTest` (and of the rows of
`MammalInverseForceTest` with `sy = 0`) in `mech/test/mammal_ik_test.cc`: zero
shoulder offset, femur `(0, 0, 0.100)`, tibia `(0, 0, 0.100)`. -/
def InverseVelocityTest_config [DivisionRing K] : Config K :=
  { shoulder := ⟨⟨0, 0, 0⟩, 1⟩
    femur := ⟨⟨0, 0, 0.100⟩, 2⟩
    tibia := ⟨⟨0, 0, 0.100⟩, 3⟩
    invert := false }

/-- The leg of `MammalInverseShoulderTest` in `mech/test/mammal_ik_test.cc`
with shoulder offset `(0, shoulder_y, shoulder_z)`. -/
def InverseShoulderTest_config [DivisionRing K] (shoulder_y shoulder_z : K) : Config K :=
  { shoulder := ⟨⟨0, shoulder_y, shoulder_z⟩, 1⟩
    femur := ⟨⟨0, 0, 0.100⟩, 2⟩
    tibia := ⟨⟨0, 0, 0.100⟩, 3⟩
    invert := false }

end MammalIk

end mech

/-! ## Theorems -/

namespace base

namespace Quaternion

/-- A quaternion over `ℝ` has norm one exactly when its squared norm is one. -/
theorem norm_eq_one_iff (q : Quaternion ℝ) :
    q.norm = 1 ↔ q.w * q.w + q.x * q.x + q.y * q.y + q.z * q.z = 1 := by
  unfold norm
  exact Real.sqrt_eq_one

/-- Rotating by `q` and then by its conjugate scales each coordinate by the
square of the squared norm. -/
theorem conjugated_Rotate_Rotate {K : Type} [CommRing K] (q : Quaternion K) (v : Point3D K) :
    q.conjugated.Rotate (q.Rotate v) =
      Point3D.scale v ((q.w * q.w + q.x * q.x + q.y * q.y + q.z * q.z) ^ 2) := by
  simp only [Rotate, mul, conjugated, Point3D.scale, Point3D.mk.injEq]
  refine ⟨?_, ?_, ?_⟩ <;> ring

/-- C1: for a unit-norm quaternion `q` and any vector `v`, rotating `v` by `q`
and then by `q.conjugated()` returns `v`. -/
theorem C1_rotate_conjugated_round_trip (q : Quaternion ℝ) (v : Point3D ℝ)
    (hq : q.norm = 1) : q.conjugated.Rotate (q.Rotate v) = v := by
  rw [conjugated_Rotate_Rotate, (norm_eq_one_iff q).1 hq]
  simp [Point3D.scale]

/-- C1 at the quaternion `(0, 1, 0, 0)` (a half turn about x) and the vector
`(1, 2, 3)`. -/
theorem C1_rotate_conjugated_round_trip_witness :
    (⟨0, 1, 0, 0⟩ : Quaternion ℝ).norm = 1 ∧
      (⟨0, 1, 0, 0⟩ : Quaternion ℝ).conjugated.Rotate
        ((⟨0, 1, 0, 0⟩ : Quaternion ℝ).Rotate ⟨1, 2, 3⟩) = ⟨1, 2, 3⟩ :=
  ⟨by simp [norm, Libm.sqrt],
   C1_rotate_conjugated_round_trip ⟨0, 1, 0, 0⟩ ⟨1, 2, 3⟩ (by simp [norm, Libm.sqrt])⟩

/-- The matrix of `q` times its transpose is the squared squared-norm times
the identity, and its determinant is the cube of the squared norm. -/
theorem matrix_transpose_mul_and_det {K : Type} [CommRing K] (q : Quaternion K) :
    (q.matrix).transpose * q.matrix =
        ((q.w * q.w + q.x * q.x + q.y * q.y + q.z * q.z) ^ 2) • (1 : Matrix (Fin 3) (Fin 3) K) ∧
      (q.matrix).det = (q.w * q.w + q.x * q.x + q.y * q.y + q.z * q.z) ^ 3 := by
  constructor
  · ext i j
    fin_cases i <;> fin_cases j <;>
      simp only [matrix, Matrix.mul_apply, Fin.sum_univ_three, Matrix.transpose_apply,
        Matrix.smul_apply, Matrix.one_apply, Matrix.of_apply, Matrix.cons_val',
        Matrix.cons_val_zero, Matrix.cons_val_one, Matrix.head_cons, Matrix.cons_val_two,
        Matrix.tail_cons, Matrix.empty_val', Matrix.cons_val_fin_one, Fin.zero_eta, Fin.mk_one,
        Fin.reduceFinMk, Fin.isValue, smul_eq_mul, if_true, if_false, Fin.reduceEq,
        Matrix.head_fin_const, mul_one, mul_zero, reduceIte] <;>
      ring
  · rw [Matrix.det_fin_three]
    simp only [matrix, Matrix.of_apply, Matrix.cons_val', Matrix.cons_val_zero,
      Matrix.cons_val_one, Matrix.head_cons, Matrix.cons_val_two, Matrix.tail_cons,
      Matrix.empty_val', Matrix.cons_val_fin_one, Matrix.head_fin_const]
    ring

/-- C2: for a unit-norm quaternion the matrix returned by `matrix()` is
orthonormal (its transpose times itself is the identity) with determinant
`+1`. -/
theorem C2_matrix_orthonormal_det_one (q : Quaternion ℝ) (hq : q.norm = 1) :
    (q.matrix).transpose * q.matrix = 1 ∧ (q.matrix).det = 1 := by
  have h := matrix_transpose_mul_and_det q
  rw [(norm_eq_one_iff q).1 hq] at h
  simpa using h

/-- C2 at the unit quaternion `(0, 0, 1, 0)`. -/
theorem C2_matrix_orthonormal_det_one_witness :
    (⟨0, 0, 1, 0⟩ : Quaternion ℝ).norm = 1 ∧
      ((⟨0, 0, 1, 0⟩ : Quaternion ℝ).matrix).transpose * (⟨0, 0, 1, 0⟩ : Quaternion ℝ).matrix = 1 ∧
      ((⟨0, 0, 1, 0⟩ : Quaternion ℝ).matrix).det = 1 :=
  ⟨by simp [norm, Libm.sqrt],
   C2_matrix_orthonormal_det_one ⟨0, 0, 1, 0⟩ (by simp [norm, Libm.sqrt])⟩

/-- C3: for a quaternion whose norm is nonzero, `normalized()` (all four
components divided by `norm()`) has norm one. -/
theorem C3_normalized_norm_eq_one (q : Quaternion ℝ) (hq : q.norm ≠ 0) :
    q.normalized.norm = 1 := by
  have hS : 0 < q.w * q.w + q.x * q.x + q.y * q.y + q.z * q.z :=
    Real.sqrt_ne_zero'.1 hq
  have hn : q.norm * q.norm = q.w * q.w + q.x * q.x + q.y * q.y + q.z * q.z :=
    Real.mul_self_sqrt hS.le
  rw [norm_eq_one_iff]
  simp only [normalized]
  field_simp
  linear_combination -hn

/-- C3 at the quaternion `(3, 0, 4, 0)` of norm five. -/
theorem C3_normalized_norm_eq_one_witness :
    (⟨3, 0, 4, 0⟩ : Quaternion ℝ).norm ≠ 0 ∧
      (⟨3, 0, 4, 0⟩ : Quaternion ℝ).normalized.norm = 1 :=
  ⟨by simp [norm, Libm.sqrt]; norm_num,
   C3_normalized_norm_eq_one ⟨3, 0, 4, 0⟩ (by simp [norm, Libm.sqrt]; norm_num)⟩

end Quaternion

/-- Truncation toward zero never increases the magnitude and moves the value
by less than one. -/
theorem static_cast_int_spec (value : ℝ) :
    |((static_cast_int value : Int) : ℝ)| ≤ |value| ∧
      |((static_cast_int value : Int) : ℝ) - value| < 1 := by
  unfold static_cast_int
  split_ifs with h
  · have h1 := Int.floor_le value
    have h2 := Int.lt_floor_add_one value
    have h3 : (0 : ℝ) ≤ ((Int.floor value : Int) : ℝ) := by exact_mod_cast Int.floor_nonneg.2 h
    refine ⟨?_, ?_⟩
    · rw [abs_of_nonneg h3, abs_of_nonneg h]; exact h1
    · rw [abs_lt]; constructor <;> linarith
  · have hneg : value < 0 := not_le.1 h
    have h1 := Int.le_ceil value
    have h2 := Int.ceil_lt_add_one value
    have h3 : ((Int.ceil value : Int) : ℝ) ≤ 0 := by
      exact_mod_cast Int.ceil_le.2 (by simpa using hneg.le)
    refine ⟨?_, ?_⟩
    · rw [abs_of_nonpos h3, abs_of_neg hneg]; linarith
    · rw [abs_lt]; constructor <;> linarith

/-- C10: `Saturate<int16_t>` is a two-sided clamp: `32767` from `32767`
upwards, `-32768` from `-32768` downwards, and strictly in between the input
truncated toward zero (no scaling), so the result always lies in
`[-32768, 32767]` and differs from an in-range input by less than one. -/
theorem C10_Saturate_int16_clamp (value : ℝ) :
    (32767 ≤ value → Saturate_int16 value = 32767) ∧
    (value ≤ -32768 → Saturate_int16 value = -32768) ∧
    (-32768 < value → value < 32767 →
      Saturate_int16 value = static_cast_int value ∧
      |((Saturate_int16 value : Int) : ℝ)| ≤ |value|) ∧
    (-32768 ≤ Saturate_int16 value ∧ Saturate_int16 value ≤ 32767) ∧
    (-32768 ≤ value → value ≤ 32767 → |((Saturate_int16 value : Int) : ℝ) - value| < 1) := by
  have hmax : ((int16_max : Int) : ℝ) = 32767 := by norm_num [int16_max]
  have hmin : ((int16_min : Int) : ℝ) = -32768 := by norm_num [int16_min]
  have hmid : -32768 < value → value < 32767 →
      Saturate_int16 value = static_cast_int value := by
    intro h1 h2
    unfold Saturate_int16 Saturate
    rw [hmax, hmin, if_neg (not_le.2 h2), if_neg (not_le.2 h1)]
  have hhi : 32767 ≤ value → Saturate_int16 value = 32767 := by
    intro h
    unfold Saturate_int16 Saturate
    rw [hmax, if_pos h]; rfl
  have hlo : value ≤ -32768 → Saturate_int16 value = -32768 := by
    intro h
    unfold Saturate_int16 Saturate
    rw [hmax, hmin, if_neg (by push_neg; linarith), if_pos h]; rfl
  have hbound : -32768 < value → value < 32767 →
      -32768 ≤ static_cast_int value ∧ static_cast_int value ≤ 32767 := by
    intro h1 h2
    have h := (static_cast_int_spec value).1
    have hv : |value| ≤ 32768 := abs_le.2 ⟨h1.le, by linarith⟩
    have h3 := abs_le.1 (h.trans hv)
    constructor
    · have : ((-32768 : Int) : ℝ) ≤ ((static_cast_int value : Int) : ℝ) := by
        push_cast; exact h3.1
      exact_mod_cast this
    · by_contra hc
      push_neg at hc
      have h4 : (32768 : ℝ) ≤ ((static_cast_int value : Int) : ℝ) := by
        exact_mod_cast hc
      have h5 : |((static_cast_int value : Int) : ℝ)| ≤ |value| := h
      rw [abs_of_nonneg (by linarith)] at h5
      have h6 : |value| < 32768 := abs_lt.2 ⟨h1, by linarith⟩
      linarith
  refine ⟨hhi, hlo, ?_, ?_, ?_⟩
  · intro h1 h2
    refine ⟨hmid h1 h2, ?_⟩
    rw [hmid h1 h2]
    exact (static_cast_int_spec value).1
  · rcases le_or_lt 32767 value with h | h
    · rw [hhi h]; decide
    · rcases le_or_lt value (-32768) with h1 | h1
      · rw [hlo h1]; decide
      · rw [hmid h1 h]; exact hbound h1 h
  · intro h1 h2
    rcases eq_or_lt_of_le h2 with h | h
    · rw [hhi h.ge, h]; norm_num
    · rcases eq_or_lt_of_le h1 with h3 | h3
      · rw [hlo h3.symm.le, ← h3]; norm_num
      · rw [hmid h3 h]
        exact (static_cast_int_spec value).2

/-- C10 at the inputs `40000.5`, `-40000.5` and `-2.75`. -/
theorem C10_Saturate_int16_clamp_witness :
    Saturate_int16 (40000.5 : ℝ) = 32767 ∧ Saturate_int16 (-40000.5 : ℝ) = -32768 ∧
      |((Saturate_int16 (-2.75 : ℝ) : Int) : ℝ) - (-2.75)| < 1 :=
  ⟨(C10_Saturate_int16_clamp 40000.5).1 (by norm_num),
   (C10_Saturate_int16_clamp (-40000.5)).2.1 (by norm_num),
   (C10_Saturate_int16_clamp (-2.75)).2.2.2.2 (by norm_num) (by norm_num)⟩

/-- The norm of a real vector is not negative. -/
theorem Point3D.norm_nonneg (a : Point3D ℝ) : 0 ≤ a.norm :=
  Real.sqrt_nonneg _

/-- The squared norm of a real vector is not negative. -/
theorem Point3D.squaredNorm_nonneg (a : Point3D ℝ) : 0 ≤ a.squaredNorm := by
  unfold Point3D.squaredNorm
  nlinarith [mul_self_nonneg a.x, mul_self_nonneg a.y, mul_self_nonneg a.z]

/-- A real vector whose squared norm is not positive is the zero vector. -/
theorem Point3D.eq_zero_of_squaredNorm_nonpos (a : Point3D ℝ) (h : ¬ 0 < a.squaredNorm) :
    a = ⟨0, 0, 0⟩ := by
  unfold Point3D.squaredNorm at h
  have hx : a.x = 0 := by nlinarith [mul_self_nonneg a.x, mul_self_nonneg a.y, mul_self_nonneg a.z]
  have hy : a.y = 0 := by nlinarith [mul_self_nonneg a.x, mul_self_nonneg a.y, mul_self_nonneg a.z]
  have hz : a.z = 0 := by nlinarith [mul_self_nonneg a.x, mul_self_nonneg a.y, mul_self_nonneg a.z]
  cases a
  simp_all

/-- The norm of a real vector squares to its squared norm. -/
theorem Point3D.norm_mul_self (a : Point3D ℝ) : a.norm * a.norm = a.squaredNorm :=
  Real.mul_self_sqrt a.squaredNorm_nonneg

end base

namespace mech

open base

/-- In the rescaling branch the blended delta is the raw delta divided by its
norm and multiplied by the cap (with `0 / 0 = 0` for a zero raw delta). -/
theorem FilterCommand.delta_of_not_lt (d : Point3D ℝ) (cap : ℝ) (h : ¬ d.norm < cap) :
    FilterCommand.delta d cap = ⟨d.x / d.norm * cap, d.y / d.norm * cap, d.z / d.norm * cap⟩ := by
  unfold FilterCommand.delta
  rw [if_neg h]
  unfold Point3D.normalized
  split_ifs with h2
  · rfl
  · rw [Point3D.eq_zero_of_squaredNorm_nonpos d h2]
    simp [Point3D.scale]

/-- In the rescaling branch the squared norm of the blended delta is the
square of the cap, unless the raw delta is zero, in which case it is zero. -/
theorem FilterCommand.delta_squaredNorm_of_not_lt (d : Point3D ℝ) (cap : ℝ)
    (h : ¬ d.norm < cap) :
    (FilterCommand.delta d cap).squaredNorm = if 0 < d.squaredNorm then cap * cap else 0 := by
  rw [FilterCommand.delta_of_not_lt d cap h]
  split_ifs with h2
  · have hn : d.norm ≠ 0 := by
      intro h0
      have := d.norm_mul_self
      rw [h0] at this
      linarith
    have hs := d.norm_mul_self
    unfold Point3D.squaredNorm at hs ⊢
    simp only
    field_simp
    linear_combination (cap * cap) * hs.symm
  · rw [Point3D.eq_zero_of_squaredNorm_nonpos d h2]
    simp [Point3D.squaredNorm]

/-- The squared norm of the blended delta is at most the square of the cap. -/
theorem FilterCommand.delta_squaredNorm_le (d : Point3D ℝ) (cap : ℝ) :
    (FilterCommand.delta d cap).squaredNorm ≤ cap * cap := by
  by_cases h : d.norm < cap
  · unfold FilterCommand.delta
    rw [if_pos h, ← d.norm_mul_self]
    exact mul_self_le_mul_self d.norm_nonneg h.le
  · rw [FilterCommand.delta_squaredNorm_of_not_lt d cap h]
    split_ifs
    · exact le_refl _
    · exact mul_self_nonneg cap

/-- C7: whatever the inputs, the state returned by `FilterCommand` has a
linear velocity with zero z component and an angular velocity with zero x and
y components. -/
theorem C7_FilterCommand_planar {K : Type} [LinearOrderedField K] [Libm K]
    (current desired : FilterCommandState K) (acceleration alpha_rad_s2 delta_s : K) :
    (FilterCommand current desired acceleration alpha_rad_s2 delta_s).v.z = 0 ∧
    (FilterCommand current desired acceleration alpha_rad_s2 delta_s).w.x = 0 ∧
    (FilterCommand current desired acceleration alpha_rad_s2 delta_s).w.y = 0 :=
  ⟨rfl, rfl, rfl⟩

/-- The norm of a real vector is at most a non-negative bound as soon as its
squared norm is at most the square of the bound. -/
theorem norm_le_of_squaredNorm_le (a : Point3D ℝ) (cap : ℝ) (hcap : 0 ≤ cap)
    (h : a.squaredNorm ≤ cap * cap) : a.norm ≤ cap := by
  unfold Point3D.norm
  rw [show Libm.sqrt a.squaredNorm = Real.sqrt a.squaredNorm from rfl, Real.sqrt_le_iff]
  exact ⟨hcap, by rw [sq]; exact h⟩

/-- C8 fails as stated: with `current.v = desired.v = (0, 0, 1)`, limits `1`
and a tick of `1/2` the result's linear velocity is `(0, 0, 0)`, at distance
`1 > 1/2` from `current.v`. -/
theorem C8_FilterCommand_step_bound_counterexample :
    (0 : ℝ) ≤ 1 ∧ (0 : ℝ) ≤ 1 / 2 ∧
    (FilterCommand (⟨⟨0, 0, 1⟩, ⟨0, 0, 0⟩⟩ : FilterCommandState ℝ)
        ⟨⟨0, 0, 1⟩, ⟨0, 0, 0⟩⟩ 1 1 (1 / 2)).v = ⟨0, 0, 0⟩ ∧
    ¬ (Point3D.norm (Point3D.sub
        (FilterCommand (⟨⟨0, 0, 1⟩, ⟨0, 0, 0⟩⟩ : FilterCommandState ℝ)
          ⟨⟨0, 0, 1⟩, ⟨0, 0, 0⟩⟩ 1 1 (1 / 2)).v
        (⟨0, 0, 1⟩ : Point3D ℝ)) ≤ 1 * (1 / 2)) := by
  have hv : (FilterCommand (⟨⟨0, 0, 1⟩, ⟨0, 0, 0⟩⟩ : FilterCommandState ℝ)
        ⟨⟨0, 0, 1⟩, ⟨0, 0, 0⟩⟩ 1 1 (1 / 2)).v = ⟨0, 0, 0⟩ := by
    simp [FilterCommand, FilterCommand.delta, Point3D.norm, Point3D.squaredNorm, Point3D.sub,
      Point3D.add, Libm.sqrt]
  refine ⟨by norm_num, by norm_num, hv, ?_⟩
  rw [hv]
  simp [Point3D.norm, Point3D.squaredNorm, Point3D.sub, Libm.sqrt]
  norm_num

/-- C8 (amended): when the current state is planar (`v.z = 0`, `w.x = 0`,
`w.y = 0`) and the limits and the tick are non-negative, the result differs
from the current state by at most `acceleration * delta_s` in linear velocity
and at most `alpha_rad_s2 * delta_s` in angular velocity (Euclidean norm). -/
theorem C8_FilterCommand_step_bound (current desired : FilterCommandState ℝ)
    (acceleration alpha_rad_s2 delta_s : ℝ)
    (hacc : 0 ≤ acceleration) (halpha : 0 ≤ alpha_rad_s2) (hdt : 0 ≤ delta_s)
    (hvz : current.v.z = 0) (hwx : current.w.x = 0) (hwy : current.w.y = 0) :
    Point3D.norm (Point3D.sub
        (FilterCommand current desired acceleration alpha_rad_s2 delta_s).v current.v)
      ≤ acceleration * delta_s ∧
    Point3D.norm (Point3D.sub
        (FilterCommand current desired acceleration alpha_rad_s2 delta_s).w current.w)
      ≤ alpha_rad_s2 * delta_s := by
  constructor
  · apply norm_le_of_squaredNorm_le _ _ (mul_nonneg hacc hdt)
    have h := FilterCommand.delta_squaredNorm_le (Point3D.sub desired.v current.v)
      (acceleration * delta_s)
    refine le_trans ?_ h
    simp only [FilterCommand, Point3D.squaredNorm, Point3D.sub, Point3D.add, hvz]
    nlinarith [mul_self_nonneg
      (FilterCommand.delta (Point3D.sub desired.v current.v) (acceleration * delta_s)).z]
  · apply norm_le_of_squaredNorm_le _ _ (mul_nonneg halpha hdt)
    have h := FilterCommand.delta_squaredNorm_le (Point3D.sub desired.w current.w)
      (alpha_rad_s2 * delta_s)
    refine le_trans ?_ h
    simp only [FilterCommand, Point3D.squaredNorm, Point3D.sub, Point3D.add, hwx, hwy]
    nlinarith [mul_self_nonneg
        (FilterCommand.delta (Point3D.sub desired.w current.w) (alpha_rad_s2 * delta_s)).x,
      mul_self_nonneg
        (FilterCommand.delta (Point3D.sub desired.w current.w) (alpha_rad_s2 * delta_s)).y]

/-- C8 (amended) at the planar state `v = (1, 2, 0)`, `w = (0, 0, 3)`, the
desired state `v = (4, 6, 5)`, `w = (1, 1, 1)`, limits `1` and `2`, tick `1/2`. -/
theorem C8_FilterCommand_step_bound_witness :
    Point3D.norm (Point3D.sub
        (FilterCommand (⟨⟨1, 2, 0⟩, ⟨0, 0, 3⟩⟩ : FilterCommandState ℝ)
          ⟨⟨4, 6, 5⟩, ⟨1, 1, 1⟩⟩ 1 2 (1 / 2)).v (⟨1, 2, 0⟩ : Point3D ℝ))
      ≤ 1 * (1 / 2) ∧
    Point3D.norm (Point3D.sub
        (FilterCommand (⟨⟨1, 2, 0⟩, ⟨0, 0, 3⟩⟩ : FilterCommandState ℝ)
          ⟨⟨4, 6, 5⟩, ⟨1, 1, 1⟩⟩ 1 2 (1 / 2)).w (⟨0, 0, 3⟩ : Point3D ℝ))
      ≤ 2 * (1 / 2) :=
  C8_FilterCommand_step_bound ⟨⟨1, 2, 0⟩, ⟨0, 0, 3⟩⟩ ⟨⟨4, 6, 5⟩, ⟨1, 1, 1⟩⟩ 1 2 (1 / 2)
    (by norm_num) (by norm_num) (by norm_num) rfl rfl rfl

/-- In the rescaling branch with a non-negative cap the blended delta has norm
exactly the cap. -/
theorem FilterCommand.delta_norm_of_not_lt (d : Point3D ℝ) (cap : ℝ) (h : ¬ d.norm < cap)
    (hcap : 0 ≤ cap) : (FilterCommand.delta d cap).norm = cap := by
  unfold Point3D.norm
  rw [FilterCommand.delta_squaredNorm_of_not_lt d cap h]
  split_ifs with h2
  · exact Real.sqrt_mul_self hcap
  · have hd : d.norm = 0 := by
      rw [Point3D.eq_zero_of_squaredNorm_nonpos d h2]
      simp [Point3D.norm, Point3D.squaredNorm, Libm.sqrt]
    rw [hd] at h
    have hc : cap = 0 := le_antisymm (not_lt.1 h) hcap
    rw [hc]
    exact Real.sqrt_zero

/-- C9 fails as stated for a negative cap: with raw delta `(1, 0, 0)` and cap
`(-1) * 1` the rescaling branch is taken and the blended delta is
`(-1, 0, 0)`, opposite to the raw delta and of norm `1`, not `-1`; the filter
then moves from `(0, 0, 0)` to `(-1, 0, 0)`, away from the desired `(1, 0, 0)`. -/
theorem C9_FilterCommand_blend_counterexample :
    ¬ (Point3D.norm (⟨1, 0, 0⟩ : Point3D ℝ) < (-1) * 1) ∧
    FilterCommand.delta (⟨1, 0, 0⟩ : Point3D ℝ) ((-1) * 1) = ⟨-1, 0, 0⟩ ∧
    Point3D.norm (FilterCommand.delta (⟨1, 0, 0⟩ : Point3D ℝ) ((-1) * 1)) ≠ (-1) * 1 ∧
    (FilterCommand (⟨⟨0, 0, 0⟩, ⟨0, 0, 0⟩⟩ : FilterCommandState ℝ)
        ⟨⟨1, 0, 0⟩, ⟨0, 0, 0⟩⟩ (-1) 1 1).v = ⟨-1, 0, 0⟩ := by
  have hn : Point3D.norm (⟨1, 0, 0⟩ : Point3D ℝ) = 1 := by
    simp [Point3D.norm, Point3D.squaredNorm, Libm.sqrt]
  have hlt : ¬ (Point3D.norm (⟨1, 0, 0⟩ : Point3D ℝ) < (-1) * 1) := by
    rw [hn]; norm_num
  have hd : FilterCommand.delta (⟨1, 0, 0⟩ : Point3D ℝ) ((-1) * 1) = ⟨-1, 0, 0⟩ := by
    rw [FilterCommand.delta_of_not_lt _ _ hlt, hn]
    norm_num
  refine ⟨hlt, hd, ?_, ?_⟩
  · rw [hd]
    simp [Point3D.norm, Point3D.squaredNorm, Libm.sqrt]
    norm_num
  · have hsub : Point3D.sub (⟨1, 0, 0⟩ : Point3D ℝ) ⟨0, 0, 0⟩ = ⟨1, 0, 0⟩ := by
      simp [Point3D.sub]
    simp only [FilterCommand, hsub, hd, Point3D.add]
    norm_num

/-- C9 (amended): the blended delta is the raw delta `d` when `|d| < cap` and
otherwise `d / |d| * cap` (componentwise, zero for a zero `d`); for a cap that
is not negative the rescaled delta has norm exactly `cap` and is a
non-negative multiple of `d`.  The result's linear velocity is `current.v`
plus the blend of `desired.v - current.v` under `acceleration * delta_s` with
z zeroed, its angular velocity is `current.w` plus the blend of
`desired.w - current.w` under `alpha_rad_s2 * delta_s` with x and y zeroed,
and when `|desired.v - current.v| < acceleration * delta_s` the result's x and
y linear velocity are those of `desired.v`. -/
theorem C9_FilterCommand_blend (current desired : FilterCommandState ℝ)
    (acceleration alpha_rad_s2 delta_s : ℝ) :
    (∀ (d : Point3D ℝ) (cap : ℝ),
      (d.norm < cap → FilterCommand.delta d cap = d) ∧
      (¬ d.norm < cap →
        FilterCommand.delta d cap =
          ⟨d.x / d.norm * cap, d.y / d.norm * cap, d.z / d.norm * cap⟩ ∧
        (0 ≤ cap →
          (FilterCommand.delta d cap).norm = cap ∧ 0 ≤ cap / d.norm ∧
          FilterCommand.delta d cap = Point3D.scale d (cap / d.norm)))) ∧
    (FilterCommand current desired acceleration alpha_rad_s2 delta_s).v =
      ⟨current.v.x +
          (FilterCommand.delta (Point3D.sub desired.v current.v) (acceleration * delta_s)).x,
        current.v.y +
          (FilterCommand.delta (Point3D.sub desired.v current.v) (acceleration * delta_s)).y,
        0⟩ ∧
    (FilterCommand current desired acceleration alpha_rad_s2 delta_s).w =
      ⟨0, 0, current.w.z +
          (FilterCommand.delta (Point3D.sub desired.w current.w) (alpha_rad_s2 * delta_s)).z⟩ ∧
    (Point3D.norm (Point3D.sub desired.v current.v) < acceleration * delta_s →
      (FilterCommand current desired acceleration alpha_rad_s2 delta_s).v.x = desired.v.x ∧
      (FilterCommand current desired acceleration alpha_rad_s2 delta_s).v.y = desired.v.y) := by
  refine ⟨?_, rfl, rfl, ?_⟩
  · intro d cap
    refine ⟨fun h => by unfold FilterCommand.delta; rw [if_pos h], fun h => ?_⟩
    refine ⟨FilterCommand.delta_of_not_lt d cap h, fun hcap => ?_⟩
    refine ⟨FilterCommand.delta_norm_of_not_lt d cap h hcap,
      div_nonneg hcap d.norm_nonneg, ?_⟩
    rw [FilterCommand.delta_of_not_lt d cap h]
    simp only [Point3D.scale, Point3D.mk.injEq]
    refine ⟨?_, ?_, ?_⟩ <;> ring
  · intro h
    have hd : FilterCommand.delta (Point3D.sub desired.v current.v) (acceleration * delta_s) =
        Point3D.sub desired.v current.v := by
      unfold FilterCommand.delta
      rw [if_pos h]
    constructor
    · show current.v.x +
        (FilterCommand.delta (Point3D.sub desired.v current.v) (acceleration * delta_s)).x =
          desired.v.x
      rw [hd]
      simp [Point3D.sub]
    · show current.v.y +
        (FilterCommand.delta (Point3D.sub desired.v current.v) (acceleration * delta_s)).y =
          desired.v.y
      rw [hd]
      simp [Point3D.sub]

/-- C9 (amended) at `current.v = (1, 2, 0)`, `desired.v = (1, 2, 0)` with limits
`1`, `2` and tick `1/2`: the raw delta is zero, below the cap `1/2`, and the
result keeps the desired x and y. -/
theorem C9_FilterCommand_blend_witness :
    (FilterCommand (⟨⟨1, 2, 0⟩, ⟨0, 0, 3⟩⟩ : FilterCommandState ℝ)
        ⟨⟨1, 2, 0⟩, ⟨0, 0, 3⟩⟩ 1 2 (1 / 2)).v.x = 1 ∧
    (FilterCommand (⟨⟨1, 2, 0⟩, ⟨0, 0, 3⟩⟩ : FilterCommandState ℝ)
        ⟨⟨1, 2, 0⟩, ⟨0, 0, 3⟩⟩ 1 2 (1 / 2)).v.y = 2 :=
  (C9_FilterCommand_blend ⟨⟨1, 2, 0⟩, ⟨0, 0, 3⟩⟩ ⟨⟨1, 2, 0⟩, ⟨0, 0, 3⟩⟩ 1 2 (1 / 2)).2.2.2
    (by simp [Point3D.norm, Point3D.squaredNorm, Point3D.sub, Libm.sqrt])

end mech

namespace mech

open base

/-- The polar form behind `atan2`: the radius times the cosine (sine) of
`atan2 b a` is `a` (`b`), also at the origin. -/
theorem atan2_polar (a b : ℝ) :
    Real.sqrt (a * a + b * b) * Real.cos (Libm.atan2 b a) = a ∧
      Real.sqrt (a * a + b * b) * Real.sin (Libm.atan2 b a) = b := by
  have habs : Complex.abs ⟨a, b⟩ = Real.sqrt (a * a + b * b) := by
    rw [Complex.abs_apply, Complex.normSq_mk]
  have hc := Complex.abs_mul_cos_arg ⟨a, b⟩
  have hs := Complex.abs_mul_sin_arg ⟨a, b⟩
  rw [habs] at hc hs
  exact ⟨hc, hs⟩

/-- Converting radians to degrees and back is the identity. -/
theorem Radians_Degrees (x : ℝ) : Radians (Degrees x) = x := by
  have hpi : (Libm.pi : ℝ) ≠ 0 := Real.pi_ne_zero
  unfold Radians Degrees
  field_simp

namespace MammalIk

/-- A successful reachability check bounds the planar radius and makes both
link lengths non-negative. -/
theorem reach_bounds (l2 l3 r : ℝ) (h : ¬ (r > l2 + l3 ∨ r < |l2 - l3|)) :
    r ≤ l2 + l3 ∧ l2 - l3 ≤ r ∧ l3 - l2 ≤ r ∧ 0 ≤ l2 ∧ 0 ≤ l3 := by
  push_neg at h
  obtain ⟨h1, h2⟩ := h
  have h3 := abs_le.1 h2
  refine ⟨h1, ?_, ?_, ?_, ?_⟩ <;> linarith [h3.1, h3.2]

/-- The law-of-cosines argument of the tibia angle lies in `[-1, 1]` for a
reachable target. -/
theorem tibia_cos_range (l2 l3 r : ℝ) (hr : 0 ≤ r) (h : ¬ (r > l2 + l3 ∨ r < |l2 - l3|)) :
    -1 ≤ (r * r - l2 * l2 - l3 * l3) / (2 * l2 * l3) ∧
      (r * r - l2 * l2 - l3 * l3) / (2 * l2 * l3) ≤ 1 := by
  obtain ⟨h1, h2, h3, h4, h5⟩ := reach_bounds l2 l3 r h
  rcases eq_or_lt_of_le h4 with h0 | hpos2
  · rw [← h0]; norm_num
  rcases eq_or_lt_of_le h5 with h0 | hpos3
  · rw [← h0]; norm_num
  have hd : 0 < 2 * l2 * l3 := by positivity
  constructor
  · rw [le_div_iff₀ hd]
    nlinarith [mul_nonneg (sub_nonneg.2 h2) (sub_nonneg.2 h3), mul_nonneg hr hr]
  · rw [div_le_one hd]
    nlinarith [mul_nonneg (sub_nonneg.2 h1) (add_nonneg hr (add_nonneg h4 h5))]

/-- The law-of-cosines argument of the inner femur angle lies in `[-1, 1]` for
a reachable target. -/
theorem femur_cos_range (l2 l3 r : ℝ) (hr : 0 ≤ r) (h : ¬ (r > l2 + l3 ∨ r < |l2 - l3|)) :
    -1 ≤ (l2 * l2 + r * r - l3 * l3) / (2 * l2 * r) ∧
      (l2 * l2 + r * r - l3 * l3) / (2 * l2 * r) ≤ 1 := by
  obtain ⟨h1, h2, h3, h4, h5⟩ := reach_bounds l2 l3 r h
  rcases eq_or_lt_of_le h4 with h0 | hpos2
  · rw [← h0]; norm_num
  rcases eq_or_lt_of_le hr with h0 | hposr
  · rw [← h0]; norm_num
  have hd : 0 < 2 * l2 * r := by positivity
  constructor
  · rw [le_div_iff₀ hd]
    nlinarith [mul_nonneg (sub_nonneg.2 h3) (add_nonneg (add_nonneg h4 hr) h5)]
  · rw [div_le_one hd]
    nlinarith [mul_nonneg (sub_nonneg.2 h1) (sub_nonneg.2 h2)]

/-- Law of cosines, projection on the femur: the femur length plus the tibia
length times the cosine of the knee angle is the planar radius times the
cosine of the inner femur angle. -/
theorem two_link_cos (l2 l3 r : ℝ) (hr : 0 ≤ r) (h : ¬ (r > l2 + l3 ∨ r < |l2 - l3|)) :
    l2 + l3 * ((r * r - l2 * l2 - l3 * l3) / (2 * l2 * l3)) =
      r * ((l2 * l2 + r * r - l3 * l3) / (2 * l2 * r)) := by
  obtain ⟨h1, h2, h3, h4, h5⟩ := reach_bounds l2 l3 r h
  rcases eq_or_lt_of_le h4 with h0 | hpos2
  · rw [← h0]; norm_num
  rcases eq_or_lt_of_le h5 with h0 | hpos3
  · have hrl : r = l2 := by linarith
    have hone : (l2 * l2 + l2 * l2 - 0 * 0) / (2 * l2 * l2) = 1 := by
      field_simp
      ring
    rw [← h0, hrl, hone]
    norm_num
  rcases eq_or_lt_of_le hr with h0 | hposr
  · have hl : l2 = l3 := by linarith
    rw [← h0, hl]
    field_simp
    ring
  field_simp
  ring

/-- Law of sines in squared form: the planar radius and the inner femur angle
span the same height as the tibia and the knee angle. -/
theorem two_link_sin_sq (l2 l3 r : ℝ) (hr : 0 ≤ r) (h : ¬ (r > l2 + l3 ∨ r < |l2 - l3|)) :
    r * r * (1 - ((l2 * l2 + r * r - l3 * l3) / (2 * l2 * r)) ^ 2) =
      l3 * l3 * (1 - ((r * r - l2 * l2 - l3 * l3) / (2 * l2 * l3)) ^ 2) := by
  obtain ⟨h1, h2, h3, h4, h5⟩ := reach_bounds l2 l3 r h
  rcases eq_or_lt_of_le h4 with h0 | hpos2
  · have hrl : r = l3 := by linarith
    rw [← h0, hrl]; norm_num
  rcases eq_or_lt_of_le h5 with h0 | hpos3
  · have hrl : r = l2 := by linarith
    have hone : (l2 * l2 + l2 * l2 - 0 * 0) / (2 * l2 * l2) = 1 := by
      field_simp
      ring
    rw [← h0, hrl, hone]
    norm_num
  rcases eq_or_lt_of_le hr with h0 | hposr
  · have hl : l2 = l3 := by linarith
    rw [← h0, hl]
    field_simp
    ring
  field_simp
  ring

/-- Law of sines: with `θ` the knee angle and `α` the inner femur angle of a
reachable target, `r sin α = l3 sin θ`. -/
theorem two_link_sin (l2 l3 r : ℝ) (hr : 0 ≤ r) (h : ¬ (r > l2 + l3 ∨ r < |l2 - l3|)) :
    r * Real.sin (Real.arccos ((l2 * l2 + r * r - l3 * l3) / (2 * l2 * r))) =
      l3 * Real.sin (Real.arccos ((r * r - l2 * l2 - l3 * l3) / (2 * l2 * l3))) := by
  obtain ⟨h1, h2, h3, h4, h5⟩ := reach_bounds l2 l3 r h
  rw [Real.sin_arccos, Real.sin_arccos]
  have e1 : r * Real.sqrt (1 - ((l2 * l2 + r * r - l3 * l3) / (2 * l2 * r)) ^ 2) =
      Real.sqrt (r * r * (1 - ((l2 * l2 + r * r - l3 * l3) / (2 * l2 * r)) ^ 2)) := by
    rw [Real.sqrt_mul (mul_self_nonneg r), Real.sqrt_mul_self hr]
  have e2 : l3 * Real.sqrt (1 - ((r * r - l2 * l2 - l3 * l3) / (2 * l2 * l3)) ^ 2) =
      Real.sqrt (l3 * l3 * (1 - ((r * r - l2 * l2 - l3 * l3) / (2 * l2 * l3)) ^ 2)) := by
    rw [Real.sqrt_mul (mul_self_nonneg l3), Real.sqrt_mul_self h5]
  rw [e1, e2, two_link_sin_sq l2 l3 r hr h]

/-- The planar two-link solution reaches the target: turning the tibia by the
knee angle and the whole lower leg by the femur angle carries the straight
leg onto the point `(px, pz)` of the sagittal plane, for either branch. -/
theorem planar_round_trip (l2 l3 px pz : ℝ) (invert : Bool)
    (h : ¬ (Real.sqrt (px * px + pz * pz) > l2 + l3 ∨
      Real.sqrt (px * px + pz * pz) < |l2 - l3|)) :
    rotate_y
        (if invert then
          Libm.atan2 px pz - Real.arccos
            ((l2 * l2 + Real.sqrt (px * px + pz * pz) * Real.sqrt (px * px + pz * pz) - l3 * l3)
              / (2 * l2 * Real.sqrt (px * px + pz * pz)))
        else
          Libm.atan2 px pz + Real.arccos
            ((l2 * l2 + Real.sqrt (px * px + pz * pz) * Real.sqrt (px * px + pz * pz) - l3 * l3)
              / (2 * l2 * Real.sqrt (px * px + pz * pz))))
        (Point3D.add ⟨0, 0, l2⟩
          (rotate_y
            (if invert then
              Real.arccos
                ((Real.sqrt (px * px + pz * pz) * Real.sqrt (px * px + pz * pz)
                  - l2 * l2 - l3 * l3) / (2 * l2 * l3))
            else
              -Real.arccos
                ((Real.sqrt (px * px + pz * pz) * Real.sqrt (px * px + pz * pz)
                  - l2 * l2 - l3 * l3) / (2 * l2 * l3)))
            ⟨0, 0, l3⟩)) = ⟨px, 0, pz⟩ := by
  have hr : 0 ≤ Real.sqrt (px * px + pz * pz) := Real.sqrt_nonneg _
  have hpol := atan2_polar pz px
  rw [add_comm (pz * pz) (px * px)] at hpol
  obtain ⟨e3, e4⟩ := hpol
  have e1 := two_link_sin l2 l3 _ hr h
  have e2 := two_link_cos l2 l3 _ hr h
  have hct := tibia_cos_range l2 l3 _ hr h
  have hca := femur_cos_range l2 l3 _ hr h
  rw [← Real.cos_arccos hct.1 hct.2, ← Real.cos_arccos hca.1 hca.2] at e2
  generalize Real.sqrt (px * px + pz * pz) = r at *
  generalize Real.arccos ((l2 * l2 + r * r - l3 * l3) / (2 * l2 * r)) = α at *
  generalize Real.arccos ((r * r - l2 * l2 - l3 * l3) / (2 * l2 * l3)) = θ at *
  generalize (Libm.atan2 px pz : ℝ) = β at *
  have e5 := Real.sin_sq_add_cos_sq α
  cases invert
  · simp only [Bool.false_eq_true, if_false, rotate_y, Point3D.add, Libm.cos, Libm.sin,
      Real.cos_add, Real.sin_add, Real.cos_neg, Real.sin_neg, Point3D.mk.injEq]
    refine ⟨?_, ?_, ?_⟩
    · linear_combination (Real.cos β * Real.cos α - Real.sin β * Real.sin α) * e1
        + (Real.sin β * Real.cos α + Real.cos β * Real.sin α) * e2
        + (r * Real.sin β) * e5 + e4
    · ring
    · linear_combination (Real.cos β * Real.cos α - Real.sin β * Real.sin α) * e2
        - (Real.sin β * Real.cos α + Real.cos β * Real.sin α) * e1
        + (r * Real.cos β) * e5 + e3
  · simp only [if_true, rotate_y, Point3D.add, Libm.cos, Libm.sin,
      Real.cos_sub, Real.sin_sub, Point3D.mk.injEq]
    refine ⟨?_, ?_, ?_⟩
    · linear_combination -(Real.cos β * Real.cos α + Real.sin β * Real.sin α) * e1
        + (Real.sin β * Real.cos α - Real.cos β * Real.sin α) * e2
        + (r * Real.sin β) * e5 + e4
    · ring
    · linear_combination (Real.cos β * Real.cos α + Real.sin β * Real.sin α) * e2
        + (Real.sin β * Real.cos α - Real.cos β * Real.sin α) * e1
        + (r * Real.cos β) * e5 + e3

/-- The shoulder solution reaches the target: for a target at least as far
from the fore-aft axis as the hip's lateral offset `sy`, turning the point
`(X, sy, h)` of the leg plane by the shoulder angle gives `(X, y, z)`. -/
theorem shoulder_round_trip (sy X y z : ℝ) (hlat : sy * sy ≤ y * y + z * z) :
    rotate_x
        (Libm.atan2 (-y) z - Libm.atan2 (-sy) (Real.sqrt (y * y + z * z - sy * sy)))
        ⟨X, sy, Real.sqrt (y * y + z * z - sy * sy)⟩ = ⟨X, y, z⟩ := by
  have hh : Real.sqrt (y * y + z * z - sy * sy) * Real.sqrt (y * y + z * z - sy * sy) =
      y * y + z * z - sy * sy := Real.mul_self_sqrt (by linarith)
  have hφ := atan2_polar z (-y)
  have hψ := atan2_polar (Real.sqrt (y * y + z * z - sy * sy)) (-sy)
  have hrad : Real.sqrt (y * y + z * z - sy * sy) * Real.sqrt (y * y + z * z - sy * sy)
      + -sy * -sy = z * z + -y * -y := by
    rw [hh]; ring
  rw [hrad] at hψ
  obtain ⟨e1, e2⟩ := hφ
  obtain ⟨e3, e4⟩ := hψ
  generalize Real.sqrt (y * y + z * z - sy * sy) = hd at *
  generalize Real.sqrt (z * z + -y * -y) = ρ at *
  generalize (Libm.atan2 (-y) z : ℝ) = φ at *
  generalize (Libm.atan2 (-sy) hd : ℝ) = ψ at *
  have e6 := Real.sin_sq_add_cos_sq ψ
  simp only [rotate_x, Libm.cos, Libm.sin, Real.cos_sub, Real.sin_sub, Point3D.mk.injEq,
    true_and]
  constructor
  · linear_combination (Real.cos φ * Real.cos ψ + Real.sin φ * Real.sin ψ) * e4
      + (Real.sin φ * Real.cos ψ - Real.cos φ * Real.sin ψ) * e3
      - (ρ * Real.sin φ) * e6 - e2
  · linear_combination (Real.sin φ * Real.cos ψ - Real.cos φ * Real.sin ψ) * e4
      - (Real.cos φ * Real.cos ψ + Real.sin φ * Real.sin ψ) * e3
      + (ρ * Real.cos φ) * e6 + e1

/-- The reachability check of `Inverse`: the result is empty exactly when the
planar radius is above `l2 + l3` or below `|l2 - l3|`. -/
theorem Inverse_eq_none_iff (config : Config ℝ) (target : Point3D ℝ)
    (current : Option (IkSolver.JointAngles ℝ)) :
    Inverse config target current = none ↔
      (planar_radius config target > l2 config + l3 config ∨
        planar_radius config target < |l2 config - l3 config|) := by
  unfold Inverse
  simp only
  by_cases h : planar_radius config target > l2 config + l3 config ∨
      planar_radius config target < |l2 config - l3 config|
  · rw [if_pos h]; simp [h]
  · rw [if_neg h]; simp [h]

/-- The joint set `Inverse` returns for a reachable target. -/
theorem Inverse_of_reach (config : Config ℝ) (target : Point3D ℝ)
    (current : Option (IkSolver.JointAngles ℝ))
    (h : ¬ (planar_radius config target > l2 config + l3 config ∨
        planar_radius config target < |l2 config - l3 config|)) :
    Inverse config target current = some
      { shoulder := ⟨config.shoulder.id, Degrees (shoulder_rad config target)⟩
        femur := ⟨config.femur.id, Degrees (femur_rad config target)⟩
        tibia := ⟨config.tibia.id, Degrees (tibia_rad config target)⟩ } := by
  unfold Inverse
  simp only
  rw [if_neg h]

/-- The lower leg of a reachable target, in terms of the configuration. -/
theorem lower_leg_round_trip (config : Config ℝ) (target : Point3D ℝ)
    (h : ¬ (planar_radius config target > l2 config + l3 config ∨
        planar_radius config target < |l2 config - l3 config|)) :
    rotate_y (femur_rad config target)
        (Point3D.add ⟨0, 0, l2 config⟩ (rotate_y (tibia_rad config target) ⟨0, 0, l3 config⟩)) =
      ⟨planar_x config target, 0, planar_z config target⟩ :=
  planar_round_trip (l2 config) (l3 config) (planar_x config target) (planar_z config target)
    config.invert h

/-- The shoulder of a target outside the hip's lateral offset, in terms of the
configuration. -/
theorem shoulder_config_round_trip (config : Config ℝ) (target : Point3D ℝ)
    (hlat : config.shoulder.pose.y * config.shoulder.pose.y ≤
      target.y * target.y + target.z * target.z) :
    rotate_x (shoulder_rad config target)
        ⟨target.x, config.shoulder.pose.y, lower_leg_distance config target⟩ = target :=
  shoulder_round_trip config.shoulder.pose.y target.x target.y target.z hlat

/-- The pose of the joint set `Inverse` computes for a reachable target, for a
leg with links along the leg axis and a target outside the hip's lateral
offset: it is the target. -/
theorem Forward_G_pose_solved (config : Config ℝ) (target : Point3D ℝ)
    (hfx : config.femur.pose.x = 0) (hfy : config.femur.pose.y = 0)
    (htx : config.tibia.pose.x = 0) (hty : config.tibia.pose.y = 0)
    (hlat : config.shoulder.pose.y * config.shoulder.pose.y ≤
      target.y * target.y + target.z * target.z)
    (hreach : ¬ (planar_radius config target > l2 config + l3 config ∨
      planar_radius config target < |l2 config - l3 config|)) :
    Forward_G_pose config
      { shoulder := ⟨config.shoulder.id, Degrees (shoulder_rad config target)⟩
        femur := ⟨config.femur.id, Degrees (femur_rad config target)⟩
        tibia := ⟨config.tibia.id, Degrees (tibia_rad config target)⟩ } = target := by
  have hF : config.femur.pose = ⟨0, 0, l2 config⟩ :=
    calc config.femur.pose
        = ⟨config.femur.pose.x, config.femur.pose.y, config.femur.pose.z⟩ := rfl
      _ = ⟨0, 0, l2 config⟩ := by rw [hfx, hfy]; rfl
  have hT : config.tibia.pose = ⟨0, 0, l3 config⟩ :=
    calc config.tibia.pose
        = ⟨config.tibia.pose.x, config.tibia.pose.y, config.tibia.pose.z⟩ := rfl
      _ = ⟨0, 0, l3 config⟩ := by rw [htx, hty]; rfl
  have hP : Point3D.add config.shoulder.pose
      ⟨planar_x config target, 0, planar_z config target⟩ =
      ⟨target.x, config.shoulder.pose.y, lower_leg_distance config target⟩ := by
    simp [Point3D.add, planar_x, planar_z]
  unfold Forward_G_pose
  simp only [Radians_Degrees]
  rw [hF, hT, lower_leg_round_trip config target hreach, hP]
  exact shoulder_config_round_trip config target hlat

/-- At the full-extension row of `OldMammalTest` the planar radius is `0.210`. -/
theorem old_leg_full_extension :
    planar_radius (OldMammalTest_config : Config ℝ) ⟨0.210, 0.030, 0.040⟩ = 0.210 := by
  have h1 : Real.sqrt ((0.030 : ℝ) * 0.030 + 0.040 * 0.040 - 0.030 * 0.030) = 0.040 := by
    rw [show (0.030 : ℝ) * 0.030 + 0.040 * 0.040 - 0.030 * 0.030 = 0.040 * 0.040 by ring]
    exact Real.sqrt_mul_self (by norm_num)
  simp only [planar_radius, planar_x, planar_z, lower_leg_distance, Libm.sqrt,
    OldMammalTest_config, h1]
  rw [show ((0.210 : ℝ) - 0) * (0.210 - 0) + (0.040 - 0.040) * (0.040 - 0.040) = 0.210 * 0.210
    by ring]
  exact Real.sqrt_mul_self (by norm_num)

/-- The full-extension row of `OldMammalTest` passes the reachability check. -/
theorem old_leg_full_extension_reach :
    ¬ (planar_radius (OldMammalTest_config : Config ℝ) ⟨0.210, 0.030, 0.040⟩ >
        l2 (OldMammalTest_config : Config ℝ) + l3 (OldMammalTest_config : Config ℝ) ∨
      planar_radius (OldMammalTest_config : Config ℝ) ⟨0.210, 0.030, 0.040⟩ <
        |l2 (OldMammalTest_config : Config ℝ) - l3 (OldMammalTest_config : Config ℝ)|) := by
  have hl2 : l2 (OldMammalTest_config : Config ℝ) = 0.100 := rfl
  have hl3 : l3 (OldMammalTest_config : Config ℝ) = 0.110 := rfl
  rw [old_leg_full_extension, hl2, hl3]
  norm_num
  rw [abs_le]
  constructor <;> norm_num

/-- C5: `Inverse` returns an empty result exactly when the planar radius `r`
of the target from the hip lies outside the closed interval
`[|l2 - l3|, l2 + l3]`; at full extension `r = l2 + l3` (target
`(0.210, 0.030, 0.040)`, `l2 = 0.100`, `l3 = 0.110`, shoulder offset
`(0, 0.030, 0.040)`) it returns a joint set whose tibia angle is `0`. -/
theorem C5_Inverse_empty_iff_out_of_reach :
    (∀ (config : Config ℝ) (target : Point3D ℝ) (current : Option (IkSolver.JointAngles ℝ)),
      Inverse config target current = none ↔
        ¬ (|l2 config - l3 config| ≤ planar_radius config target ∧
          planar_radius config target ≤ l2 config + l3 config)) ∧
    planar_radius (OldMammalTest_config : Config ℝ) ⟨0.210, 0.030, 0.040⟩ =
      l2 (OldMammalTest_config : Config ℝ) + l3 (OldMammalTest_config : Config ℝ) ∧
    (Inverse (OldMammalTest_config : Config ℝ) ⟨0.210, 0.030, 0.040⟩ none).map
      (fun joints => joints.tibia.angle_deg) = some 0 := by
  have hl2 : l2 (OldMammalTest_config : Config ℝ) = 0.100 := rfl
  have hl3 : l3 (OldMammalTest_config : Config ℝ) = 0.110 := rfl
  refine ⟨?_, ?_, ?_⟩
  · intro config target current
    rw [Inverse_eq_none_iff, not_and_or, not_le, not_le, or_comm]
  · rw [old_leg_full_extension, hl2, hl3]
    norm_num
  · have hreach := old_leg_full_extension_reach
    rw [Inverse_of_reach _ _ _ hreach]
    simp only [Option.map_some', Option.some.injEq]
    unfold tibia_rad
    simp only [old_leg_full_extension, hl2, hl3]
    norm_num [Degrees, Libm.acos, OldMammalTest_config]

/-- The two-argument arctangent of a point on the positive x axis is zero. -/
theorem atan2_zero_of_nonneg (a : ℝ) (h : 0 ≤ a) : (Libm.atan2 0 a : ℝ) = 0 :=
  Complex.arg_ofReal_of_nonneg h

/-- Conversion to degrees keeps the sign of a non-negative angle. -/
theorem Degrees_nonneg (x : ℝ) (h : 0 ≤ x) : 0 ≤ Degrees x := by
  unfold Degrees
  exact div_nonneg (mul_nonneg (by norm_num) h) Real.pi_pos.le

/-- Conversion to degrees commutes with negation. -/
theorem Degrees_neg (x : ℝ) : Degrees (-x) = -Degrees x := by
  unfold Degrees
  ring

/-- C6: the branch `Inverse` returns is decided by `invert` alone.  Two calls
that differ only in the previous joint angles return the same result; the
returned tibia angle is `<= 0` when `invert` is false and `>= 0` when it is
true; and the leg with the flag flipped succeeds on the same targets with the
same shoulder angle and the opposite tibia angle. -/
theorem C6_Inverse_branch_by_invert (config : Config ℝ) (target : Point3D ℝ)
    (current1 current2 : Option (IkSolver.JointAngles ℝ)) :
    Inverse config target current1 = Inverse config target current2 ∧
    (∀ joints : IkSolver.JointAngles ℝ, Inverse config target current1 = some joints →
      (config.invert = false → joints.tibia.angle_deg ≤ 0) ∧
      (config.invert = true → 0 ≤ joints.tibia.angle_deg)) ∧
    ((Inverse ⟨config.shoulder, config.femur, config.tibia, !config.invert⟩ target current2 = none ↔
      Inverse config target current1 = none) ∧
     ∀ joints mirrored : IkSolver.JointAngles ℝ,
      Inverse config target current1 = some joints →
      Inverse ⟨config.shoulder, config.femur, config.tibia, !config.invert⟩ target current2
        = some mirrored →
      mirrored.tibia.angle_deg = -joints.tibia.angle_deg ∧
      mirrored.shoulder.angle_deg = joints.shoulder.angle_deg) := by
  have hacos : ∀ x : ℝ, 0 ≤ (Libm.acos x : ℝ) := Real.arccos_nonneg
  refine ⟨rfl, ?_, ?_, ?_⟩
  · intro joints hj
    have hreach : ¬ (planar_radius config target > l2 config + l3 config ∨
        planar_radius config target < |l2 config - l3 config|) := by
      intro hc
      rw [(Inverse_eq_none_iff config target current1).2 hc] at hj
      exact Option.noConfusion hj
    rw [Inverse_of_reach config target current1 hreach] at hj
    rw [← Option.some.inj hj]
    constructor
    · intro hinv
      show Degrees (tibia_rad config target) ≤ 0
      unfold tibia_rad
      simp only [hinv, Bool.false_eq_true, if_false]
      rw [Degrees_neg]
      exact neg_nonpos.2 (Degrees_nonneg _ (hacos _))
    · intro hinv
      show 0 ≤ Degrees (tibia_rad config target)
      unfold tibia_rad
      simp only [hinv, if_true]
      exact Degrees_nonneg _ (hacos _)
  · rw [Inverse_eq_none_iff, Inverse_eq_none_iff]
    rfl
  · intro joints mirrored hj hm
    have hreach : ¬ (planar_radius config target > l2 config + l3 config ∨
        planar_radius config target < |l2 config - l3 config|) := by
      intro hc
      rw [(Inverse_eq_none_iff config target current1).2 hc] at hj
      exact Option.noConfusion hj
    rw [Inverse_of_reach config target current1 hreach] at hj
    rw [Inverse_of_reach ⟨config.shoulder, config.femur, config.tibia, !config.invert⟩
      target current2 hreach] at hm
    rw [← Option.some.inj hj, ← Option.some.inj hm]
    refine ⟨?_, rfl⟩
    show Degrees (tibia_rad ⟨config.shoulder, config.femur, config.tibia, !config.invert⟩ target)
      = -Degrees (tibia_rad config target)
    rw [← Degrees_neg]
    congr 1
    unfold tibia_rad
    cases hinv : config.invert <;> simp [l2, l3, planar_radius, planar_x, planar_z,
      lower_leg_distance]

/-- C6 at the `OldMammalTest` leg (`invert` false) and the target
`(0.210, 0.030, 0.040)`: the tibia angle of the returned joint set is not
positive. -/
theorem C6_Inverse_branch_by_invert_witness :
    Degrees (tibia_rad (OldMammalTest_config : Config ℝ) ⟨0.210, 0.030, 0.040⟩) ≤ 0 :=
  ((C6_Inverse_branch_by_invert OldMammalTest_config ⟨0.210, 0.030, 0.040⟩ none none).2.1
    _ (Inverse_of_reach _ _ none old_leg_full_extension_reach)).1 rfl

end MammalIk

end mech

namespace base

namespace Quaternion

/-- The product of the source is the Hamilton product: squared norms multiply. -/
theorem mul_squaredNorm {K : Type} [CommRing K] (a b : Quaternion K) :
    (mul a b).w * (mul a b).w + (mul a b).x * (mul a b).x + (mul a b).y * (mul a b).y
        + (mul a b).z * (mul a b).z =
      (a.w * a.w + a.x * a.x + a.y * a.y + a.z * a.z)
        * (b.w * b.w + b.x * b.x + b.y * b.y + b.z * b.z) := by
  simp only [mul]
  ring

/-- Rotation by a product is the composition of the rotations, right factor
first (helper shared by the claims on composition and on Euler angles). -/
theorem Rotate_mul {K : Type} [CommRing K] (q1 q2 : Quaternion K) (v : Point3D K) :
    (mul q1 q2).Rotate v = q1.Rotate (q2.Rotate v) := by
  simp only [Rotate, mul, conjugated, Point3D.mk.injEq]
  refine ⟨?_, ?_, ?_⟩ <;> ring

/-- The squared norm of `FromAxisAngle` is the squared length of the axis
blended by the half angle. -/
theorem FromAxisAngle_squaredNorm (angle x y z : ℝ) :
    (FromAxisAngle angle x y z).w * (FromAxisAngle angle x y z).w
        + (FromAxisAngle angle x y z).x * (FromAxisAngle angle x y z).x
        + (FromAxisAngle angle x y z).y * (FromAxisAngle angle x y z).y
        + (FromAxisAngle angle x y z).z * (FromAxisAngle angle x y z).z =
      Real.cos (angle / 2) ^ 2 + (x * x + y * y + z * z) * Real.sin (angle / 2) ^ 2 := by
  simp only [FromAxisAngle, Libm.cos, Libm.sin]
  ring

/-- The cosine of an angle from the cosine and sine of its half. -/
theorem cos_eq_half (a : ℝ) : Real.cos a = Real.cos (a / 2) ^ 2 - Real.sin (a / 2) ^ 2 := by
  have h := Real.cos_two_mul (a / 2)
  rw [show 2 * (a / 2) = a by ring] at h
  rw [h, Real.cos_sq' (a / 2)]
  ring

/-- The sine of an angle from the cosine and sine of its half. -/
theorem sin_eq_half (a : ℝ) : Real.sin a = 2 * Real.sin (a / 2) * Real.cos (a / 2) := by
  have h := Real.sin_two_mul (a / 2)
  rw [show 2 * (a / 2) = a by ring] at h
  exact h

/-- C13: rotation composes in reverse multiplication order: rotating by
`q1 * q2` applies `q2` first and then `q1`, for all quaternions and vectors. -/
theorem C13_Rotate_product_applies_right_first {K : Type} [CommRing K]
    (q1 q2 : Quaternion K) (v : Point3D K) :
    (mul q1 q2).Rotate v = q1.Rotate (q2.Rotate v) := by
  simp only [Rotate, mul, conjugated, Point3D.mk.injEq]
  refine ⟨?_, ?_, ?_⟩ <;> ring

/-- Rotating by `FromAxisAngle a 1 0 0` is the rotation by `a` about x. -/
theorem Rotate_FromAxisAngle_x (a : ℝ) (u : Point3D ℝ) :
    (FromAxisAngle a 1 0 0).Rotate u =
      ⟨u.x, u.y * Real.cos a - u.z * Real.sin a, u.y * Real.sin a + u.z * Real.cos a⟩ := by
  have h := Real.sin_sq_add_cos_sq (a / 2)
  simp only [Rotate, mul, conjugated, FromAxisAngle, Libm.cos, Libm.sin, cos_eq_half a,
    sin_eq_half a, Point3D.mk.injEq]
  refine ⟨?_, ?_, ?_⟩
  · linear_combination u.x * h
  · ring
  · ring

/-- Rotating by `FromAxisAngle a 0 1 0` is the rotation by `a` about y. -/
theorem Rotate_FromAxisAngle_y (a : ℝ) (u : Point3D ℝ) :
    (FromAxisAngle a 0 1 0).Rotate u =
      ⟨u.x * Real.cos a + u.z * Real.sin a, u.y, u.z * Real.cos a - u.x * Real.sin a⟩ := by
  have h := Real.sin_sq_add_cos_sq (a / 2)
  simp only [Rotate, mul, conjugated, FromAxisAngle, Libm.cos, Libm.sin, cos_eq_half a,
    sin_eq_half a, Point3D.mk.injEq]
  refine ⟨?_, ?_, ?_⟩
  · ring
  · linear_combination u.y * h
  · ring

/-- Rotating by `FromAxisAngle a 0 0 1` is the rotation by `a` about z. -/
theorem Rotate_FromAxisAngle_z (a : ℝ) (u : Point3D ℝ) :
    (FromAxisAngle a 0 0 1).Rotate u =
      ⟨u.x * Real.cos a - u.y * Real.sin a, u.x * Real.sin a + u.y * Real.cos a, u.z⟩ := by
  have h := Real.sin_sq_add_cos_sq (a / 2)
  simp only [Rotate, mul, conjugated, FromAxisAngle, Libm.cos, Libm.sin, cos_eq_half a,
    sin_eq_half a, Point3D.mk.injEq]
  refine ⟨?_, ?_, ?_⟩
  · ring
  · ring
  · linear_combination u.z * h

/-- The norm of `FromEuler` is one. -/
theorem FromEuler_norm (roll pitch yaw : ℝ) : (FromEuler roll pitch yaw).norm = 1 := by
  rw [norm_eq_one_iff]
  unfold FromEuler
  rw [mul_squaredNorm, mul_squaredNorm, FromAxisAngle_squaredNorm, FromAxisAngle_squaredNorm,
    FromAxisAngle_squaredNorm]
  have h1 := Real.sin_sq_add_cos_sq (roll / 2)
  have h2 := Real.sin_sq_add_cos_sq (pitch / 2)
  have h3 := Real.sin_sq_add_cos_sq (yaw / 2)
  have e1 : Real.cos (roll / 2) ^ 2 + ((1 : ℝ) * 1 + 0 * 0 + 0 * 0) * Real.sin (roll / 2) ^ 2
      = 1 := by linarith
  have e2 : Real.cos (pitch / 2) ^ 2 + ((0 : ℝ) * 0 + 1 * 1 + 0 * 0) * Real.sin (pitch / 2) ^ 2
      = 1 := by linarith
  have e3 : Real.cos (yaw / 2) ^ 2 + ((0 : ℝ) * 0 + 0 * 0 + 1 * 1) * Real.sin (yaw / 2) ^ 2
      = 1 := by linarith
  rw [e1, e2, e3]
  norm_num

/-- C14: `FromEuler(roll, pitch, yaw)` is the product
`FromAxisAngle(yaw, 0,0,1) * FromAxisAngle(pitch, 0,1,0) * FromAxisAngle(roll, 1,0,0)`,
it has unit norm, and rotating a vector by it applies the rotation by `roll`
about x first, then the rotation by `pitch` about y, then the rotation by
`yaw` about z (each given in coordinates). -/
theorem C14_FromEuler_yaw_pitch_roll (roll pitch yaw : ℝ) (v : Point3D ℝ) :
    FromEuler roll pitch yaw =
      mul (mul (FromAxisAngle yaw 0 0 1) (FromAxisAngle pitch 0 1 0))
        (FromAxisAngle roll 1 0 0) ∧
    (FromEuler roll pitch yaw).norm = 1 ∧
    (FromEuler roll pitch yaw).Rotate v =
      (FromAxisAngle yaw 0 0 1).Rotate
        ((FromAxisAngle pitch 0 1 0).Rotate ((FromAxisAngle roll 1 0 0).Rotate v)) ∧
    (∀ (a : ℝ) (u : Point3D ℝ), (FromAxisAngle a 1 0 0).Rotate u =
      ⟨u.x, u.y * Real.cos a - u.z * Real.sin a, u.y * Real.sin a + u.z * Real.cos a⟩) ∧
    (∀ (a : ℝ) (u : Point3D ℝ), (FromAxisAngle a 0 1 0).Rotate u =
      ⟨u.x * Real.cos a + u.z * Real.sin a, u.y, u.z * Real.cos a - u.x * Real.sin a⟩) ∧
    (∀ (a : ℝ) (u : Point3D ℝ), (FromAxisAngle a 0 0 1).Rotate u =
      ⟨u.x * Real.cos a - u.y * Real.sin a, u.x * Real.sin a + u.y * Real.cos a, u.z⟩) := by
  refine ⟨rfl, FromEuler_norm roll pitch yaw, ?_, Rotate_FromAxisAngle_x,
    Rotate_FromAxisAngle_y, Rotate_FromAxisAngle_z⟩
  unfold FromEuler
  rw [Rotate_mul, Rotate_mul]

/-- C15: `axis_angle()` inverts `FromAxisAngle`: for a unit axis `a` and an
angle strictly between `0` and `2π` the quaternion built is
`(cos (angle/2), a sin (angle/2))`, of unit norm, and `axis_angle()` returns
that angle and that axis. -/
theorem C15_axis_angle_FromAxisAngle (angle : ℝ) (a : Point3D ℝ)
    (h0 : 0 < angle) (h1 : angle < 2 * Real.pi) (ha : a.norm = 1) :
    FromAxisAngle angle a.x a.y a.z =
      ⟨Real.cos (angle / 2), a.x * Real.sin (angle / 2), a.y * Real.sin (angle / 2),
        a.z * Real.sin (angle / 2)⟩ ∧
    (FromAxisAngle angle a.x a.y a.z).norm = 1 ∧
    (FromAxisAngle angle a.x a.y a.z).axis_angle = ⟨angle, a⟩ := by
  have hhalf0 : 0 < angle / 2 := by linarith
  have hhalf1 : angle / 2 < Real.pi := by linarith
  have hsin : 0 < Real.sin (angle / 2) := Real.sin_pos_of_pos_of_lt_pi hhalf0 hhalf1
  have hsq := Real.sin_sq_add_cos_sq (angle / 2)
  have haxis : a.x * a.x + a.y * a.y + a.z * a.z = 1 := Real.sqrt_eq_one.1 ha
  have hdenom : axis_angle_denom (FromAxisAngle angle a.x a.y a.z) = Real.sin (angle / 2) := by
    simp only [axis_angle_denom, FromAxisAngle, Libm.sqrt, Libm.cos]
    rw [show 1 - Real.cos (angle / 2) * Real.cos (angle / 2) = Real.sin (angle / 2) ^ 2 by
      linear_combination -hsq]
    exact Real.sqrt_sq hsin.le
  refine ⟨rfl, ?_, ?_⟩
  · rw [norm_eq_one_iff, FromAxisAngle_squaredNorm, haxis]
    linear_combination hsq
  · have hangle : 2 * Real.arccos (Real.cos (angle / 2)) = angle := by
      rw [Real.arccos_cos hhalf0.le hhalf1.le]
      ring
    unfold axis_angle
    simp only [hdenom]
    simp only [FromAxisAngle, Libm.acos, Libm.cos, Libm.sin, hangle]
    rw [mul_div_assoc, mul_div_assoc, mul_div_assoc, div_self hsin.ne']
    simp

/-- C15 at the axis `(0, 0, 1)` and the angle `π`. -/
theorem C15_axis_angle_FromAxisAngle_witness :
    (FromAxisAngle Real.pi (0 : ℝ) 0 1).axis_angle = ⟨Real.pi, ⟨0, 0, 1⟩⟩ :=
  (C15_axis_angle_FromAxisAngle Real.pi ⟨0, 0, 1⟩ Real.pi_pos
    (by linarith [Real.pi_pos]) (by simp [Point3D.norm, Point3D.squaredNorm, Libm.sqrt])).2.2

/-- C16: with `s = 2 (w y - z x)`, `euler_rad()` returns pitch `π/2`, roll `0`
and yaw `-2 atan2 (x, w)` whenever `s >= 1 - 1e-8`, pitch `-π/2`, roll `0` and
yaw `2 atan2 (x, w)` whenever `s <= -1 + 1e-8`, and only strictly inside the
band pitch `asin s` with roll and yaw from the two `atan2` formulas, where `s`
then lies strictly between `-1` and `1`. -/
theorem C16_euler_rad_gimbal_lock (q : Quaternion ℝ) :
    (2 * (q.w * q.y - q.z * q.x) ≥ 1 - 1e-8 →
      q.euler_rad = ⟨0, Real.pi / 2, -2 * Libm.atan2 q.x q.w⟩) ∧
    (2 * (q.w * q.y - q.z * q.x) ≤ -1 + 1e-8 →
      q.euler_rad = ⟨0, -(Real.pi / 2), 2 * Libm.atan2 q.x q.w⟩) ∧
    (-1 + 1e-8 < 2 * (q.w * q.y - q.z * q.x) → 2 * (q.w * q.y - q.z * q.x) < 1 - 1e-8 →
      q.euler_rad =
        ⟨Libm.atan2 (2 * (q.w * q.x + q.y * q.z)) (1 - 2 * (q.x * q.x + q.y * q.y)),
          Real.arcsin (2 * (q.w * q.y - q.z * q.x)),
          Libm.atan2 (2 * (q.w * q.z + q.x * q.y)) (1 - 2 * (q.y * q.y + q.z * q.z))⟩ ∧
      -1 < 2 * (q.w * q.y - q.z * q.x) ∧ 2 * (q.w * q.y - q.z * q.x) < 1) := by
  refine ⟨fun h => ?_, fun h => ?_, fun h1 h2 => ⟨?_, ?_, ?_⟩⟩
  · unfold euler_rad
    simp only
    rw [if_pos h]
    rfl
  · have hn : ¬ (2 * (q.w * q.y - q.z * q.x) ≥ 1 - 1e-8) := by
      intro hc
      have : (-1 : ℝ) + 1e-8 < 1 - 1e-8 := by norm_num
      linarith
    unfold euler_rad
    simp only
    rw [if_neg hn, if_pos h]
    rfl
  · unfold euler_rad
    simp only
    rw [if_neg (not_le.2 h2), if_neg (not_le.2 h1)]
    rfl
  · have : (0 : ℝ) < 1e-8 := by norm_num
    linarith
  · have : (0 : ℝ) < 1e-8 := by norm_num
    linarith

/-- C16 at the quaternion `(1, 0, 1/2, 0)`, for which `s = 1` (first branch),
and at the identity quaternion, for which `s = 0` (inside the band). -/
theorem C16_euler_rad_gimbal_lock_witness :
    (⟨1, 0, 1 / 2, 0⟩ : Quaternion ℝ).euler_rad =
      ⟨0, Real.pi / 2, -2 * Libm.atan2 (0 : ℝ) 1⟩ ∧
    (-1 : ℝ) < 2 * (1 * 0 - 0 * 0) ∧ (2 : ℝ) * (1 * 0 - 0 * 0) < 1 :=
  ⟨(C16_euler_rad_gimbal_lock ⟨1, 0, 1 / 2, 0⟩).1 (by norm_num),
   ((C16_euler_rad_gimbal_lock ⟨1, 0, 0, 0⟩).2.2 (by norm_num) (by norm_num)).2⟩

/-- What `IntegrateRotationRate` does: it returns a value exactly when each of
the three products `rate * dt` is below `0.5`, without regard to their
magnitude on the negative side. -/
theorem IntegrateRotationRate_eq_some_iff (rate_rps : Point3D ℝ) (dt_s : ℝ) :
    (rate_rps.x * dt_s < 0.5 ∧ rate_rps.y * dt_s < 0.5 ∧ rate_rps.z * dt_s < 0.5 →
      IntegrateRotationRate rate_rps dt_s = some (normalized
        ⟨1, 0.5 * rate_rps.x * dt_s, 0.5 * rate_rps.y * dt_s, 0.5 * rate_rps.z * dt_s⟩)) ∧
    (¬ (rate_rps.x * dt_s < 0.5 ∧ rate_rps.y * dt_s < 0.5 ∧ rate_rps.z * dt_s < 0.5) →
      IntegrateRotationRate rate_rps dt_s = none) := by
  unfold IntegrateRotationRate kMaxIntegrationAngle
  constructor
  · rintro ⟨hx, hy, hz⟩
    rw [if_pos hx, if_pos hy, if_pos hz]
  · intro h
    by_cases hx : rate_rps.x * dt_s < 0.5
    · by_cases hy : rate_rps.y * dt_s < 0.5
      · have hz : ¬ rate_rps.z * dt_s < 0.5 := fun hz => h ⟨hx, hy, hz⟩
        rw [if_pos hx, if_pos hy, if_neg hz]
      · rw [if_pos hx, if_neg hy]
    · rw [if_neg hx]

/-- C11, the code at the failing input: for the rate `(-2, 0, 0)` rad/s and the
step `1` s the product `rate.x * dt` has magnitude `2 >= 0.5`, yet all three
`BOOST_VERIFY` conditions hold and `IntegrateRotationRate` returns the
normalised quaternion of `(1, -1, 0, 0)` instead of failing. -/
theorem C11_IntegrateRotationRate_negative_not_rejected :
    (0.5 : ℝ) ≤ |(-2 : ℝ) * 1| ∧
    IntegrateRotationRate (⟨-2, 0, 0⟩ : Point3D ℝ) 1 =
      some (normalized ⟨1, 0.5 * (-2) * 1, 0.5 * 0 * 1, 0.5 * 0 * 1⟩) := by
  constructor
  · rw [abs_of_neg (by norm_num)]
    norm_num
  · exact (IntegrateRotationRate_eq_some_iff ⟨-2, 0, 0⟩ 1).1
      ⟨by norm_num, by norm_num, by norm_num⟩

/-- C12 fails as stated: at the identity quaternion, where `|w| = 1`,
`axis_angle()` returns a value, with angle `0` and an axis whose divisor
`sqrt (1 - w * w)` is `0`. -/
theorem C12_axis_angle_fail_fast_counterexample :
    |(identity : Quaternion ℝ).w| = 1 ∧
    (identity : Quaternion ℝ).axis_angle.angle_rad = 0 ∧
    axis_angle_denom (identity : Quaternion ℝ) = 0 ∧
    (identity : Quaternion ℝ).axis_angle.axis =
      ⟨(0 : ℝ) / axis_angle_denom (identity : Quaternion ℝ),
        0 / axis_angle_denom (identity : Quaternion ℝ),
        0 / axis_angle_denom (identity : Quaternion ℝ)⟩ := by
  refine ⟨by simp [identity], ?_, ?_, rfl⟩
  · simp [axis_angle, identity, Libm.acos]
  · simp [axis_angle_denom, identity, Libm.sqrt]

/-- C12 (amended): `axis_angle()` has no fail-fast path; for every quaternion
it returns the angle `2 acos w` and the vector part divided by
`sqrt (1 - w * w)`.  That divisor is zero when `|w| = 1`; when `|w| < 1` it is
positive and the returned axis times the divisor is the vector part. -/
theorem C12_axis_angle_unguarded (q : Quaternion ℝ) :
    q.axis_angle.angle_rad = 2 * Real.arccos q.w ∧
    q.axis_angle.axis = Point3D.divide ⟨q.x, q.y, q.z⟩ (Real.sqrt (1 - q.w * q.w)) ∧
    (|q.w| = 1 → Real.sqrt (1 - q.w * q.w) = 0) ∧
    (|q.w| < 1 → 0 < Real.sqrt (1 - q.w * q.w) ∧
      Point3D.scale q.axis_angle.axis (Real.sqrt (1 - q.w * q.w)) = ⟨q.x, q.y, q.z⟩) := by
  refine ⟨rfl, rfl, fun h => ?_, fun h => ?_⟩
  · have hw : q.w * q.w = 1 := by
      rw [← abs_mul_abs_self, h]; norm_num
    rw [hw]
    simp
  · have hw : q.w * q.w < 1 := by
      rw [← abs_mul_abs_self]
      nlinarith [abs_nonneg q.w]
    have hpos : 0 < Real.sqrt (1 - q.w * q.w) := Real.sqrt_pos.2 (by linarith)
    refine ⟨hpos, ?_⟩
    simp only [axis_angle, axis_angle_denom, Libm.sqrt, Point3D.scale, Point3D.mk.injEq]
    refine ⟨?_, ?_, ?_⟩ <;> field_simp

/-- C12 (amended) at the quaternion `(0, 1, 0, 0)`, a half turn about x. -/
theorem C12_axis_angle_unguarded_witness :
    0 < Real.sqrt (1 - (0 : ℝ) * 0) ∧
    Point3D.scale (⟨0, 1, 0, 0⟩ : Quaternion ℝ).axis_angle.axis (Real.sqrt (1 - (0 : ℝ) * 0)) =
      ⟨1, 0, 0⟩ :=
  (C12_axis_angle_unguarded ⟨0, 1, 0, 0⟩).2.2.2 (by simp)

/-- A quaternion of positive norm is normalised to norm one (helper for the
rate integration). -/
theorem normalized_norm_of_pos (q : Quaternion ℝ) (hq : 0 < q.norm) :
    q.normalized.norm = 1 := by
  have hS : 0 < q.w * q.w + q.x * q.x + q.y * q.y + q.z * q.z :=
    Real.sqrt_pos.1 hq
  have hn : q.norm * q.norm = q.w * q.w + q.x * q.x + q.y * q.y + q.z * q.z :=
    Real.mul_self_sqrt hS.le
  have hne : q.norm ≠ 0 := hq.ne'
  rw [norm_eq_one_iff]
  simp only [normalized]
  field_simp
  linear_combination -hn

/-- C17: when every `|rate * dt|` is below `0.5`, `IntegrateRotationRate`
returns the quaternion `(1, rate.x dt / 2, rate.y dt / 2, rate.z dt / 2)`
divided by its norm; that norm is at least one, the result has unit norm and
positive `w`, and it is the identity quaternion when `rate * dt` is zero. -/
theorem C17_IntegrateRotationRate_value (rate_rps : Point3D ℝ) (dt_s : ℝ)
    (hx : |rate_rps.x * dt_s| < 0.5) (hy : |rate_rps.y * dt_s| < 0.5)
    (hz : |rate_rps.z * dt_s| < 0.5) :
    IntegrateRotationRate rate_rps dt_s = some (normalized
      ⟨1, rate_rps.x * dt_s / 2, rate_rps.y * dt_s / 2, rate_rps.z * dt_s / 2⟩) ∧
    1 ≤ (⟨1, rate_rps.x * dt_s / 2, rate_rps.y * dt_s / 2, rate_rps.z * dt_s / 2⟩ :
      Quaternion ℝ).norm ∧
    (normalized (⟨1, rate_rps.x * dt_s / 2, rate_rps.y * dt_s / 2, rate_rps.z * dt_s / 2⟩ :
      Quaternion ℝ)).norm = 1 ∧
    0 < (normalized (⟨1, rate_rps.x * dt_s / 2, rate_rps.y * dt_s / 2, rate_rps.z * dt_s / 2⟩ :
      Quaternion ℝ)).w ∧
    (rate_rps.x * dt_s = 0 → rate_rps.y * dt_s = 0 → rate_rps.z * dt_s = 0 →
      IntegrateRotationRate rate_rps dt_s = some identity) := by
  have hsome := (IntegrateRotationRate_eq_some_iff rate_rps dt_s).1
    ⟨(abs_lt.1 hx).2, (abs_lt.1 hy).2, (abs_lt.1 hz).2⟩
  have hq : (⟨1, 0.5 * rate_rps.x * dt_s, 0.5 * rate_rps.y * dt_s, 0.5 * rate_rps.z * dt_s⟩ :
      Quaternion ℝ) =
      ⟨1, rate_rps.x * dt_s / 2, rate_rps.y * dt_s / 2, rate_rps.z * dt_s / 2⟩ := by
    simp only [Quaternion.mk.injEq, true_and]
    refine ⟨?_, ?_, ?_⟩ <;> ring
  rw [hq] at hsome
  have hnorm : 1 ≤ (⟨1, rate_rps.x * dt_s / 2, rate_rps.y * dt_s / 2, rate_rps.z * dt_s / 2⟩ :
      Quaternion ℝ).norm := by
    unfold norm
    rw [show (Libm.sqrt : ℝ → ℝ) = Real.sqrt from rfl, Real.one_le_sqrt]
    nlinarith [mul_self_nonneg (rate_rps.x * dt_s / 2), mul_self_nonneg (rate_rps.y * dt_s / 2),
      mul_self_nonneg (rate_rps.z * dt_s / 2)]
  refine ⟨hsome, hnorm, ?_, ?_, ?_⟩
  · exact normalized_norm_of_pos _ (by linarith)
  · simp only [normalized]
    exact div_pos one_pos (by linarith)
  · intro h1 h2 h3
    rw [hsome, h1, h2, h3]
    simp [normalized, norm, identity, Libm.sqrt]

/-- C17 at the rate `(0.1, -0.2, 0.3)` rad/s and the step `1` s. -/
theorem C17_IntegrateRotationRate_value_witness :
    IntegrateRotationRate (⟨0.1, -0.2, 0.3⟩ : Point3D ℝ) 1 = some (normalized
      ⟨1, 0.1 * 1 / 2, -0.2 * 1 / 2, 0.3 * 1 / 2⟩) :=
  (C17_IntegrateRotationRate_value ⟨0.1, -0.2, 0.3⟩ 1
    (by rw [abs_lt]; constructor <;> norm_num)
    (by rw [abs_lt]; constructor <;> norm_num)
    (by rw [abs_lt]; constructor <;> norm_num)).1

end Quaternion

end base

namespace mech

open base

namespace MammalIk

/-- The radian value of a zero angle in degrees is zero. -/
theorem Radians_zero : Radians (0 : ℝ) = 0 := by
  simp [Radians]

/-- Conversion to radians is additive. -/
theorem Radians_add (a b : ℝ) : Radians (a + b) = Radians a + Radians b := by
  unfold Radians
  ring

/-- Conversion to radians commutes with scaling. -/
theorem Radians_mul (k a : ℝ) : Radians (k * a) = k * Radians a := by
  unfold Radians
  ring

/-- The pose of the `Fixture` leg in coordinates, for any joint angles given in
radians through `Radians`. -/
theorem Fixture_pose (s f t : ℝ) :
    Forward_G_pose (Fixture_config : Config ℝ) ⟨⟨1, s⟩, ⟨2, f⟩, ⟨3, t⟩⟩ =
      ⟨0.020 + ((0.100 * Real.sin (Radians t)) * Real.cos (Radians f)
          + (0.100 + 0.100 * Real.cos (Radians t)) * Real.sin (Radians f)),
        - (((0.100 + 0.100 * Real.cos (Radians t)) * Real.cos (Radians f)
          - (0.100 * Real.sin (Radians t)) * Real.sin (Radians f)) * Real.sin (Radians s)),
        ((0.100 + 0.100 * Real.cos (Radians t)) * Real.cos (Radians f)
          - (0.100 * Real.sin (Radians t)) * Real.sin (Radians f)) * Real.cos (Radians s)⟩ := by
  simp only [Forward_G_pose, rotate_x, rotate_y, Point3D.add, Fixture_config, Libm.cos,
    Libm.sin, Point3D.mk.injEq]
  refine ⟨?_, ?_, ?_⟩ <;> ring

/-- With all rates zero the velocity is zero. -/
theorem Forward_G_velocity_zero (config : Config ℝ) (joints : IkSolver.JointAngles ℝ) :
    Forward_G_velocity config joints ⟨0, 0, 0⟩ = ⟨0, 0, 0⟩ := by
  simp [Forward_G_velocity, Radians_zero, Point3D.scale, Point3D.add]

/-- With all torques zero the force is zero. -/
theorem Forward_G_force_zero (config : Config ℝ) (joints : IkSolver.JointAngles ℝ) :
    Forward_G_force config joints ⟨0, 0, 0⟩ = ⟨0, 0, 0⟩ := by
  simp [Forward_G_force, Point3D.scale, Point3D.add, Point3D.divide]

/-- C18: forward pose of the test leg (shoulder offset `(0.020, 0, 0)`, femur
and tibia offsets `(0, 0, 0.100)`) for single-joint motion, the angle `θ` being
given in degrees and entering the formulas in radians: all angles zero give
`(0.020, 0, 0.200)`; the shoulder alone at `θ` gives
`(0.020, 0.200 sin (-θ), 0.200 cos (-θ))`; the femur alone at `θ` gives
`(0.020 + 0.200 sin θ, 0, 0.200 cos θ)`; the tibia alone at `θ` gives
`(0.020 + 0.100 sin θ, 0, 0.100 + 0.100 cos θ)`; and for every leg and every
joint angles, zero rates and zero torques give zero velocity and zero force. -/
theorem C18_Forward_single_joint_pose (θ : ℝ) :
    (Forward_G (Fixture_config : Config ℝ) ⟨⟨1, 0⟩, ⟨2, 0⟩, ⟨3, 0⟩⟩ ⟨0, 0, 0⟩ ⟨0, 0, 0⟩).pose =
      ⟨0.020, 0, 0.200⟩ ∧
    (Forward_G (Fixture_config : Config ℝ) ⟨⟨1, θ⟩, ⟨2, 0⟩, ⟨3, 0⟩⟩ ⟨0, 0, 0⟩ ⟨0, 0, 0⟩).pose =
      ⟨0.020, 0.200 * Real.sin (-Radians θ), 0.200 * Real.cos (-Radians θ)⟩ ∧
    (Forward_G (Fixture_config : Config ℝ) ⟨⟨1, 0⟩, ⟨2, θ⟩, ⟨3, 0⟩⟩ ⟨0, 0, 0⟩ ⟨0, 0, 0⟩).pose =
      ⟨0.020 + 0.200 * Real.sin (Radians θ), 0, 0.200 * Real.cos (Radians θ)⟩ ∧
    (Forward_G (Fixture_config : Config ℝ) ⟨⟨1, 0⟩, ⟨2, 0⟩, ⟨3, θ⟩⟩ ⟨0, 0, 0⟩ ⟨0, 0, 0⟩).pose =
      ⟨0.020 + 0.100 * Real.sin (Radians θ), 0, 0.100 + 0.100 * Real.cos (Radians θ)⟩ ∧
    (∀ (config : Config ℝ) (joints : IkSolver.JointAngles ℝ),
      (Forward_G config joints ⟨0, 0, 0⟩ ⟨0, 0, 0⟩).velocity = ⟨0, 0, 0⟩ ∧
      (Forward_G config joints ⟨0, 0, 0⟩ ⟨0, 0, 0⟩).force_N = ⟨0, 0, 0⟩) := by
  refine ⟨?_, ?_, ?_, ?_, fun config joints =>
    ⟨Forward_G_velocity_zero config joints, Forward_G_force_zero config joints⟩⟩
  · show Forward_G_pose _ _ = _
    rw [Fixture_pose]
    simp only [Radians_zero, Real.sin_zero, Real.cos_zero, Point3D.mk.injEq]
    refine ⟨?_, ?_, ?_⟩ <;> norm_num
  · show Forward_G_pose _ _ = _
    rw [Fixture_pose]
    simp only [Radians_zero, Real.sin_zero, Real.cos_zero, Real.sin_neg, Real.cos_neg,
      Point3D.mk.injEq]
    refine ⟨?_, ?_, ?_⟩ <;> ring
  · show Forward_G_pose _ _ = _
    rw [Fixture_pose]
    simp only [Radians_zero, Real.sin_zero, Real.cos_zero, Point3D.mk.injEq]
    refine ⟨?_, ?_, ?_⟩ <;> ring
  · show Forward_G_pose _ _ = _
    rw [Fixture_pose]
    simp only [Radians_zero, Real.sin_zero, Real.cos_zero, Point3D.mk.injEq]
    refine ⟨?_, ?_, ?_⟩ <;> ring

/-- Turning about the lateral axis twice is turning by the sum of the angles. -/
theorem rotate_y_rotate_y (a b : ℝ) (p : Point3D ℝ) :
    rotate_y a (rotate_y b p) = rotate_y (a + b) p := by
  simp only [rotate_y, Libm.cos, Libm.sin, Real.cos_add, Real.sin_add, Point3D.mk.injEq]
  exact ⟨by ring, trivial, by ring⟩

/-- Turning about the lateral axis is additive in the vector. -/
theorem rotate_y_add (a : ℝ) (p q : Point3D ℝ) :
    rotate_y a (Point3D.add p q) = Point3D.add (rotate_y a p) (rotate_y a q) := by
  simp only [rotate_y, Point3D.add, Point3D.mk.injEq]
  exact ⟨by ring, trivial, by ring⟩

/-- Turning about the fore-aft axis keeps lengths. -/
theorem rotate_x_squaredNorm (a : ℝ) (p : Point3D ℝ) :
    (rotate_x a p).squaredNorm = p.squaredNorm := by
  have h := Real.sin_sq_add_cos_sq a
  simp only [rotate_x, Point3D.squaredNorm, Libm.cos, Libm.sin]
  linear_combination (p.y * p.y + p.z * p.z) * h

/-- Turning about the lateral axis keeps lengths. -/
theorem rotate_y_squaredNorm (a : ℝ) (p : Point3D ℝ) :
    (rotate_y a p).squaredNorm = p.squaredNorm := by
  have h := Real.sin_sq_add_cos_sq a
  simp only [rotate_y, Point3D.squaredNorm, Libm.cos, Libm.sin]
  linear_combination (p.x * p.x + p.z * p.z) * h

/-- The radian value of ten degrees lies strictly between `0` and `π`. -/
theorem Radians_ten_pos : 0 < Real.sin (Radians (10 : ℝ)) := by
  have hpi := Real.pi_pos
  apply Real.sin_pos_of_pos_of_lt_pi
  · show 0 < Real.pi * 10 / 180
    positivity
  · show Real.pi * 10 / 180 < Real.pi
    linarith

/-- The radian value of ninety degrees is a quarter turn. -/
theorem Radians_ninety : Radians (90 : ℝ) = Real.pi / 2 := by
  show Real.pi * 90 / 180 = Real.pi / 2
  ring

/-- C19 fails as stated.  (1) For the `Fixture` leg with the femur at 10
degrees (a row of `MammalPoseTest`) `Forward_G` returns
`(0.020 + 0.200 sin 10°, 0, 0.200 cos 10°)`, the value the test expects, while
the formula of the claim gives `(0.020 + 0.100 sin 10°, 0, 0.100 + 0.100 cos 10°)`:
the femur joint turns the femur offset too.  (2) For the `OldMammalTest` leg
with the shoulder at 90 degrees `Forward_G` returns `(0, -0.250, 0.030)` while
the formula gives `(0, -0.180, 0.040)`: the shoulder joint turns the shoulder
offset too. -/
theorem C19_Forward_pose_formula_counterexample :
    (Forward_G_pose (Fixture_config : Config ℝ) ⟨⟨1, 0⟩, ⟨2, 10⟩, ⟨3, 0⟩⟩ =
        ⟨0.020 + 0.200 * Real.sin (Radians 10), 0, 0.200 * Real.cos (Radians 10)⟩ ∧
      spec_pose_formula (Fixture_config : Config ℝ) ⟨⟨1, 0⟩, ⟨2, 10⟩, ⟨3, 0⟩⟩ =
        ⟨0.020 + 0.100 * Real.sin (Radians 10), 0, 0.100 + 0.100 * Real.cos (Radians 10)⟩ ∧
      Forward_G_pose (Fixture_config : Config ℝ) ⟨⟨1, 0⟩, ⟨2, 10⟩, ⟨3, 0⟩⟩ ≠
        spec_pose_formula (Fixture_config : Config ℝ) ⟨⟨1, 0⟩, ⟨2, 10⟩, ⟨3, 0⟩⟩) ∧
    (Forward_G_pose (OldMammalTest_config : Config ℝ) ⟨⟨1, 90⟩, ⟨2, 0⟩, ⟨3, 0⟩⟩ =
        ⟨0, -0.250, 0.030⟩ ∧
      spec_pose_formula (OldMammalTest_config : Config ℝ) ⟨⟨1, 90⟩, ⟨2, 0⟩, ⟨3, 0⟩⟩ =
        ⟨0, -0.180, 0.040⟩ ∧
      Forward_G_pose (OldMammalTest_config : Config ℝ) ⟨⟨1, 90⟩, ⟨2, 0⟩, ⟨3, 0⟩⟩ ≠
        spec_pose_formula (OldMammalTest_config : Config ℝ) ⟨⟨1, 90⟩, ⟨2, 0⟩, ⟨3, 0⟩⟩) := by
  have h1 : Forward_G_pose (Fixture_config : Config ℝ) ⟨⟨1, 0⟩, ⟨2, 10⟩, ⟨3, 0⟩⟩ =
      ⟨0.020 + 0.200 * Real.sin (Radians 10), 0, 0.200 * Real.cos (Radians 10)⟩ := by
    rw [Fixture_pose]
    simp only [Radians_zero, Real.sin_zero, Real.cos_zero, Point3D.mk.injEq]
    refine ⟨?_, ?_, ?_⟩ <;> ring
  have h2 : spec_pose_formula (Fixture_config : Config ℝ) ⟨⟨1, 0⟩, ⟨2, 10⟩, ⟨3, 0⟩⟩ =
      ⟨0.020 + 0.100 * Real.sin (Radians 10), 0, 0.100 + 0.100 * Real.cos (Radians 10)⟩ := by
    simp only [spec_pose_formula, rotate_x, rotate_y, Point3D.add, Fixture_config, Libm.cos,
      Libm.sin, Radians_zero, Real.sin_zero, Real.cos_zero, Point3D.mk.injEq]
    refine ⟨?_, ?_, ?_⟩ <;> ring
  have h3 : Forward_G_pose (OldMammalTest_config : Config ℝ) ⟨⟨1, 90⟩, ⟨2, 0⟩, ⟨3, 0⟩⟩ =
      ⟨0, -0.250, 0.030⟩ := by
    simp only [Forward_G_pose, rotate_x, rotate_y, Point3D.add, OldMammalTest_config, Libm.cos,
      Libm.sin, Radians_zero, Radians_ninety, Real.sin_zero, Real.cos_zero, Real.sin_pi_div_two,
      Real.cos_pi_div_two, Point3D.mk.injEq]
    refine ⟨?_, ?_, ?_⟩ <;> norm_num
  have h4 : spec_pose_formula (OldMammalTest_config : Config ℝ) ⟨⟨1, 90⟩, ⟨2, 0⟩, ⟨3, 0⟩⟩ =
      ⟨0, -0.180, 0.040⟩ := by
    simp only [spec_pose_formula, rotate_x, rotate_y, Point3D.add, OldMammalTest_config,
      Libm.cos, Libm.sin, Radians_zero, Radians_ninety, Real.sin_zero, Real.cos_zero,
      Real.sin_pi_div_two, Real.cos_pi_div_two, Point3D.mk.injEq]
    refine ⟨?_, ?_, ?_⟩ <;> norm_num
  refine ⟨⟨h1, h2, ?_⟩, h3, h4, ?_⟩
  · rw [h1, h2]
    intro h
    have hx := congrArg Point3D.x h
    simp only at hx
    have hpos := Radians_ten_pos
    linarith
  · rw [h3, h4]
    intro h
    have hz := congrArg Point3D.z h
    norm_num at hz

/-- C19 (amended): for every leg configuration and all joint angles the pose
returned by `Forward_G` is `R_shoulder·(P1 + R_femur·femur_offset +
R_femur·R_tibia·tibia_offset)`: every joint turns its own offset and all that
is distal to it, the tibia offset being turned about the lateral axis by the
sum of the femur and tibia angles.  `R_shoulder` keeps the fore-aft axis and
all lengths, `R_femur` and `R_tibia` keep the lateral axis and all lengths. -/
theorem C19_Forward_pose_chain (config : Config ℝ) (joints : IkSolver.JointAngles ℝ) :
    Forward_G_pose config joints =
      rotate_x (Radians joints.shoulder.angle_deg)
        (Point3D.add
          (Point3D.add config.shoulder.pose
            (rotate_y (Radians joints.femur.angle_deg) config.femur.pose))
          (rotate_y (Radians joints.femur.angle_deg + Radians joints.tibia.angle_deg)
            config.tibia.pose)) ∧
    (∀ (a t : ℝ) (p : Point3D ℝ), rotate_x a ⟨t, 0, 0⟩ = ⟨t, 0, 0⟩ ∧
      (rotate_x a p).squaredNorm = p.squaredNorm) ∧
    (∀ (a t : ℝ) (p : Point3D ℝ), rotate_y a ⟨0, t, 0⟩ = ⟨0, t, 0⟩ ∧
      (rotate_y a p).squaredNorm = p.squaredNorm) := by
  refine ⟨?_, fun a t p => ⟨?_, rotate_x_squaredNorm a p⟩,
    fun a t p => ⟨?_, rotate_y_squaredNorm a p⟩⟩
  · unfold Forward_G_pose
    simp only
    rw [rotate_y_add, rotate_y_rotate_y]
    congr 1
    simp only [Point3D.add, Point3D.mk.injEq]
    refine ⟨?_, ?_, ?_⟩ <;> ring
  · simp [rotate_x]
  · simp [rotate_y]

/-- The Jacobian columns of the `Fixture` leg at the zero pose. -/
theorem Fixture_zero_pose_jacobian :
    jacobian_shoulder (Fixture_config : Config ℝ) ⟨⟨1, 0⟩, ⟨2, 0⟩, ⟨3, 0⟩⟩ = ⟨0, -0.200, 0⟩ ∧
    jacobian_femur (Fixture_config : Config ℝ) ⟨⟨1, 0⟩, ⟨2, 0⟩, ⟨3, 0⟩⟩ = ⟨0.200, 0, 0⟩ ∧
    jacobian_tibia (Fixture_config : Config ℝ) ⟨⟨1, 0⟩, ⟨2, 0⟩, ⟨3, 0⟩⟩ = ⟨0.100, 0, 0⟩ := by
  have hp : Forward_G_pose (Fixture_config : Config ℝ) ⟨⟨1, 0⟩, ⟨2, 0⟩, ⟨3, 0⟩⟩ =
      ⟨0.020, 0, 0.200⟩ := by
    rw [Fixture_pose]
    simp only [Radians_zero, Real.sin_zero, Real.cos_zero, Point3D.mk.injEq]
    refine ⟨?_, ?_, ?_⟩ <;> norm_num
  refine ⟨?_, ?_, ?_⟩
  · unfold jacobian_shoulder
    rw [hp]
    simp only [shoulder_axis, shoulder_position, Point3D.cross, Point3D.sub, Point3D.mk.injEq]
    refine ⟨?_, ?_, ?_⟩ <;> norm_num
  · unfold jacobian_femur
    rw [hp]
    simp only [lateral_axis, femur_position, rotate_x, Fixture_config, Radians_zero, Libm.cos,
      Libm.sin, Real.sin_zero, Real.cos_zero, Point3D.cross, Point3D.sub, Point3D.mk.injEq]
    refine ⟨?_, ?_, ?_⟩ <;> norm_num
  · unfold jacobian_tibia
    rw [hp]
    simp only [lateral_axis, tibia_position, rotate_x, rotate_y, Fixture_config, Radians_zero,
      Libm.cos, Libm.sin, Real.sin_zero, Real.cos_zero, Point3D.cross, Point3D.sub, Point3D.add,
      Point3D.mk.injEq]
    refine ⟨?_, ?_, ?_⟩ <;> norm_num

/-- C20: the velocity returned by `Forward_G` is the geometric-Jacobian sum
`Σ rate_i (a_i × (tip - p_i))` with the rates converted to radians per second;
it is additive and homogeneous in the joint rates; for the test leg at the zero
pose a shoulder rate `ω` alone gives `(0, -0.200 ω, 0)`, a femur rate alone
`(0.200 ω, 0, 0)` and a tibia rate alone `(0.100 ω, 0, 0)`; the pose does not
depend on the rates. -/
theorem C20_Forward_velocity_jacobian_sum (config : Config ℝ)
    (joints : IkSolver.JointAngles ℝ) (rates other torques : IkSolver.JointValues ℝ)
    (k ω_dps : ℝ) :
    (Forward_G config joints rates torques).velocity =
      Point3D.add
        (Point3D.add
          (Point3D.scale
            (Point3D.cross shoulder_axis
              (Point3D.sub (Forward_G config joints rates torques).pose shoulder_position))
            (Radians rates.shoulder))
          (Point3D.scale
            (Point3D.cross (lateral_axis joints)
              (Point3D.sub (Forward_G config joints rates torques).pose
                (femur_position config joints)))
            (Radians rates.femur)))
        (Point3D.scale
          (Point3D.cross (lateral_axis joints)
            (Point3D.sub (Forward_G config joints rates torques).pose
              (tibia_position config joints)))
          (Radians rates.tibia)) ∧
    (Forward_G config joints
        ⟨rates.shoulder + other.shoulder, rates.femur + other.femur, rates.tibia + other.tibia⟩
        torques).velocity =
      Point3D.add (Forward_G config joints rates torques).velocity
        (Forward_G config joints other torques).velocity ∧
    (Forward_G config joints ⟨k * rates.shoulder, k * rates.femur, k * rates.tibia⟩
        torques).velocity =
      Point3D.scale (Forward_G config joints rates torques).velocity k ∧
    (Forward_G (Fixture_config : Config ℝ) ⟨⟨1, 0⟩, ⟨2, 0⟩, ⟨3, 0⟩⟩ ⟨ω_dps, 0, 0⟩
        torques).velocity = ⟨0, -0.200 * Radians ω_dps, 0⟩ ∧
    (Forward_G (Fixture_config : Config ℝ) ⟨⟨1, 0⟩, ⟨2, 0⟩, ⟨3, 0⟩⟩ ⟨0, ω_dps, 0⟩
        torques).velocity = ⟨0.200 * Radians ω_dps, 0, 0⟩ ∧
    (Forward_G (Fixture_config : Config ℝ) ⟨⟨1, 0⟩, ⟨2, 0⟩, ⟨3, 0⟩⟩ ⟨0, 0, ω_dps⟩
        torques).velocity = ⟨0.100 * Radians ω_dps, 0, 0⟩ ∧
    (Forward_G config joints rates torques).pose =
      (Forward_G config joints ⟨0, 0, 0⟩ torques).pose := by
  obtain ⟨h1, h2, h3⟩ := Fixture_zero_pose_jacobian
  refine ⟨rfl, ?_, ?_, ?_, ?_, ?_, rfl⟩
  · simp only [Forward_G, Forward_G_velocity, Radians_add, Point3D.add, Point3D.scale,
      Point3D.mk.injEq]
    refine ⟨?_, ?_, ?_⟩ <;> ring
  · simp only [Forward_G, Forward_G_velocity, Radians_mul, Point3D.add, Point3D.scale,
      Point3D.mk.injEq]
    refine ⟨?_, ?_, ?_⟩ <;> ring
  · simp only [Forward_G, Forward_G_velocity, h1, h2, h3, Radians_zero, Point3D.add,
      Point3D.scale, Point3D.mk.injEq]
    refine ⟨?_, ?_, ?_⟩ <;> ring
  · simp only [Forward_G, Forward_G_velocity, h1, h2, h3, Radians_zero, Point3D.add,
      Point3D.scale, Point3D.mk.injEq]
    refine ⟨?_, ?_, ?_⟩ <;> ring
  · simp only [Forward_G, Forward_G_velocity, h1, h2, h3, Radians_zero, Point3D.add,
      Point3D.scale, Point3D.mk.injEq]
    refine ⟨?_, ?_, ?_⟩ <;> ring

/-- The derivative of `t ↦ c + a cos t + b sin t`. -/
theorem hasDerivAt_trig (a b c θ : ℝ) :
    HasDerivAt (fun t => c + a * Real.cos t + b * Real.sin t)
      (b * Real.cos θ - a * Real.sin θ) θ := by
  have h := (((hasDerivAt_const θ c).add ((Real.hasDerivAt_cos θ).const_mul a)).add
    ((Real.hasDerivAt_sin θ).const_mul b))
  convert h using 1
  ring

/-- The shoulder column of the Jacobian is the derivative of the pose with
respect to the shoulder angle (in radians), coordinate by coordinate. -/
theorem jacobian_shoulder_hasDerivAt (config : Config ℝ) (i : Int)
    (femur tibia : IkSolver.Joint ℝ) (θ : ℝ) :
    HasDerivAt (fun t => (Forward_G_pose config ⟨⟨i, Degrees t⟩, femur, tibia⟩).x)
      (jacobian_shoulder config ⟨⟨i, Degrees θ⟩, femur, tibia⟩).x θ ∧
    HasDerivAt (fun t => (Forward_G_pose config ⟨⟨i, Degrees t⟩, femur, tibia⟩).y)
      (jacobian_shoulder config ⟨⟨i, Degrees θ⟩, femur, tibia⟩).y θ ∧
    HasDerivAt (fun t => (Forward_G_pose config ⟨⟨i, Degrees t⟩, femur, tibia⟩).z)
      (jacobian_shoulder config ⟨⟨i, Degrees θ⟩, femur, tibia⟩).z θ := by
  simp only [jacobian_shoulder, Forward_G_pose, Radians_Degrees]
  generalize (rotate_y (Radians femur.angle_deg)
    (Point3D.add config.femur.pose (rotate_y (Radians tibia.angle_deg) config.tibia.pose))) = q
  simp only [rotate_x, shoulder_axis, shoulder_position, Point3D.cross, Point3D.sub,
    Point3D.add, Libm.cos, Libm.sin]
  refine ⟨?_, ?_, ?_⟩
  · convert hasDerivAt_const θ (config.shoulder.pose.x + q.x) using 1
    ring
  · convert hasDerivAt_trig (config.shoulder.pose.y + q.y) (-(config.shoulder.pose.z + q.z)) 0 θ
      using 1
    · funext t; ring
    · ring
  · convert hasDerivAt_trig (config.shoulder.pose.z + q.z) (config.shoulder.pose.y + q.y) 0 θ
      using 1
    · funext t; ring
    · ring

/-- The femur column of the Jacobian is the derivative of the pose with
respect to the femur angle (in radians), coordinate by coordinate. -/
theorem jacobian_femur_hasDerivAt (config : Config ℝ) (i : Int)
    (shoulder tibia : IkSolver.Joint ℝ) (θ : ℝ) :
    HasDerivAt (fun t => (Forward_G_pose config ⟨shoulder, ⟨i, Degrees t⟩, tibia⟩).x)
      (jacobian_femur config ⟨shoulder, ⟨i, Degrees θ⟩, tibia⟩).x θ ∧
    HasDerivAt (fun t => (Forward_G_pose config ⟨shoulder, ⟨i, Degrees t⟩, tibia⟩).y)
      (jacobian_femur config ⟨shoulder, ⟨i, Degrees θ⟩, tibia⟩).y θ ∧
    HasDerivAt (fun t => (Forward_G_pose config ⟨shoulder, ⟨i, Degrees t⟩, tibia⟩).z)
      (jacobian_femur config ⟨shoulder, ⟨i, Degrees θ⟩, tibia⟩).z θ := by
  simp only [jacobian_femur, femur_position, lateral_axis, Forward_G_pose, Radians_Degrees]
  generalize (Point3D.add config.femur.pose
    (rotate_y (Radians tibia.angle_deg) config.tibia.pose)) = w
  generalize Radians shoulder.angle_deg = σ
  have hσ := Real.sin_sq_add_cos_sq σ
  simp only [rotate_x, rotate_y, Point3D.cross, Point3D.sub, Point3D.add, Libm.cos, Libm.sin]
  refine ⟨?_, ?_, ?_⟩
  · convert hasDerivAt_trig w.x w.z config.shoulder.pose.x θ using 1
    · funext t; ring
    · linear_combination (w.z * Real.cos θ - w.x * Real.sin θ) * hσ
  · convert hasDerivAt_trig (-(w.z * Real.sin σ)) (w.x * Real.sin σ)
      ((config.shoulder.pose.y + w.y) * Real.cos σ - config.shoulder.pose.z * Real.sin σ) θ
      using 1
    · funext t; ring
    · ring
  · convert hasDerivAt_trig (w.z * Real.cos σ) (-(w.x * Real.cos σ))
      ((config.shoulder.pose.y + w.y) * Real.sin σ + config.shoulder.pose.z * Real.cos σ) θ
      using 1
    · funext t; ring
    · ring

/-- The tibia column of the Jacobian is the derivative of the pose with
respect to the tibia angle (in radians), coordinate by coordinate. -/
theorem jacobian_tibia_hasDerivAt (config : Config ℝ) (i : Int)
    (shoulder femur : IkSolver.Joint ℝ) (θ : ℝ) :
    HasDerivAt (fun t => (Forward_G_pose config ⟨shoulder, femur, ⟨i, Degrees t⟩⟩).x)
      (jacobian_tibia config ⟨shoulder, femur, ⟨i, Degrees θ⟩⟩).x θ ∧
    HasDerivAt (fun t => (Forward_G_pose config ⟨shoulder, femur, ⟨i, Degrees t⟩⟩).y)
      (jacobian_tibia config ⟨shoulder, femur, ⟨i, Degrees θ⟩⟩).y θ ∧
    HasDerivAt (fun t => (Forward_G_pose config ⟨shoulder, femur, ⟨i, Degrees t⟩⟩).z)
      (jacobian_tibia config ⟨shoulder, femur, ⟨i, Degrees θ⟩⟩).z θ := by
  simp only [jacobian_tibia, tibia_position, lateral_axis, Forward_G_pose, Radians_Degrees]
  generalize Radians shoulder.angle_deg = σ
  generalize Radians femur.angle_deg = φ
  have hσ := Real.sin_sq_add_cos_sq σ
  simp only [rotate_x, rotate_y, Point3D.cross, Point3D.sub, Point3D.add, Libm.cos, Libm.sin]
  refine ⟨?_, ?_, ?_⟩
  · convert hasDerivAt_trig
      (config.tibia.pose.x * Real.cos φ + config.tibia.pose.z * Real.sin φ)
      (config.tibia.pose.z * Real.cos φ - config.tibia.pose.x * Real.sin φ)
      (config.shoulder.pose.x + config.femur.pose.x * Real.cos φ
        + config.femur.pose.z * Real.sin φ) θ using 1
    · funext t; ring
    · linear_combination
        ((config.tibia.pose.z * Real.cos θ - config.tibia.pose.x * Real.sin θ) * Real.cos φ
          - (config.tibia.pose.x * Real.cos θ + config.tibia.pose.z * Real.sin θ) * Real.sin φ)
          * hσ
  · convert hasDerivAt_trig
      (-((config.tibia.pose.z * Real.cos φ - config.tibia.pose.x * Real.sin φ) * Real.sin σ))
      ((config.tibia.pose.x * Real.cos φ + config.tibia.pose.z * Real.sin φ) * Real.sin σ)
      ((config.shoulder.pose.y + (config.femur.pose.y + config.tibia.pose.y)) * Real.cos σ
        - (config.shoulder.pose.z + (config.femur.pose.z * Real.cos φ
          - config.femur.pose.x * Real.sin φ)) * Real.sin σ) θ using 1
    · funext t; ring
    · ring
  · convert hasDerivAt_trig
      ((config.tibia.pose.z * Real.cos φ - config.tibia.pose.x * Real.sin φ) * Real.cos σ)
      (-((config.tibia.pose.x * Real.cos φ + config.tibia.pose.z * Real.sin φ) * Real.cos σ))
      ((config.shoulder.pose.y + (config.femur.pose.y + config.tibia.pose.y)) * Real.sin σ
        + (config.shoulder.pose.z + (config.femur.pose.z * Real.cos φ
          - config.femur.pose.x * Real.sin φ)) * Real.cos σ) θ using 1
    · funext t; ring
    · ring

end MammalIk

end mech

namespace base

namespace Quaternion

/-- The rotation `q p q*` written out: it is the matrix of `matrix()` applied
to the vector, whatever the norm of `q`. -/
theorem Rotate_eq_matrix_entries {K : Type} [CommRing K] (q : Quaternion K) (v : Point3D K) :
    q.Rotate v =
      ⟨(q.w * q.w + q.x * q.x - q.y * q.y - q.z * q.z) * v.x
          + 2 * (q.x * q.y - q.w * q.z) * v.y + 2 * (q.w * q.y + q.x * q.z) * v.z,
        2 * (q.x * q.y + q.w * q.z) * v.x
          + (q.w * q.w - q.x * q.x + q.y * q.y - q.z * q.z) * v.y
          + 2 * (q.y * q.z - q.w * q.x) * v.z,
        2 * (q.x * q.z - q.w * q.y) * v.x + 2 * (q.w * q.x + q.y * q.z) * v.y
          + (q.w * q.w - q.x * q.x - q.y * q.y + q.z * q.z) * v.z⟩ := by
  simp only [Rotate, mul, conjugated, Point3D.mk.injEq]
  refine ⟨?_, ?_, ?_⟩ <;> ring

/-- C25: `Rotate` agrees with `matrix()`: for every quaternion `q`, of unit
norm or not, and every vector `v`, the coordinates of `q.Rotate(v)` are the
matrix-vector product `q.matrix() · v`. -/
theorem C25_Rotate_eq_matrix_mulVec (q : Quaternion ℝ) (v : Point3D ℝ) :
    ![(q.Rotate v).x, (q.Rotate v).y, (q.Rotate v).z] =
      (matrix q).mulVec ![v.x, v.y, v.z] := by
  rw [Rotate_eq_matrix_entries]
  funext i
  fin_cases i <;>
    simp [matrix, Matrix.mulVec, Matrix.dotProduct, Fin.sum_univ_three]

/-- C29: the quaternion product is norm-multiplicative,
`(a * b).norm() = a.norm() · b.norm()`; the product of unit quaternions is a
unit quaternion, every `FromEuler` result is a unit quaternion, and the
default-constructed quaternion `(1, 0, 0, 0)` is a two-sided identity. -/
theorem C29_mul_norm (a b : Quaternion ℝ) :
    (mul a b).norm = a.norm * b.norm ∧
    (a.norm = 1 → b.norm = 1 → (mul a b).norm = 1) ∧
    (∀ roll pitch yaw : ℝ, (FromEuler roll pitch yaw).norm = 1) ∧
    (identity : Quaternion ℝ) = ⟨1, 0, 0, 0⟩ ∧
    mul identity a = a ∧ mul a identity = a := by
  have hmul : (mul a b).norm = a.norm * b.norm := by
    unfold norm
    rw [mul_squaredNorm]
    exact Real.sqrt_mul
      (add_nonneg (add_nonneg (add_nonneg (mul_self_nonneg _) (mul_self_nonneg _))
        (mul_self_nonneg _)) (mul_self_nonneg _)) _
  refine ⟨hmul, fun ha hb => ?_, FromEuler_norm, rfl, ?_, ?_⟩
  · rw [hmul, ha, hb, one_mul]
  · simp [mul, identity]
  · simp [mul, identity]

/-- C29 at the unit quaternions `(0, 1, 0, 0)` and `(0, 0, 1, 0)`. -/
theorem C29_mul_norm_witness :
    (mul (⟨0, 1, 0, 0⟩ : Quaternion ℝ) ⟨0, 0, 1, 0⟩).norm = 1 :=
  (C29_mul_norm ⟨0, 1, 0, 0⟩ ⟨0, 0, 1, 0⟩).2.1
    (by simp [norm, Libm.sqrt]) (by simp [norm, Libm.sqrt])

end Quaternion

end base

namespace base

namespace Quaternion

/-- The entries of the rotation matrix of `FromEuler` that `euler_rad()` reads
back, in terms of the three angles. -/
theorem FromEuler_euler_terms (roll pitch yaw : ℝ) :
    2 * ((FromEuler roll pitch yaw).w * (FromEuler roll pitch yaw).y
      - (FromEuler roll pitch yaw).z * (FromEuler roll pitch yaw).x) = Real.sin pitch ∧
    2 * ((FromEuler roll pitch yaw).w * (FromEuler roll pitch yaw).x
      + (FromEuler roll pitch yaw).y * (FromEuler roll pitch yaw).z) =
        Real.sin roll * Real.cos pitch ∧
    1 - 2 * ((FromEuler roll pitch yaw).x * (FromEuler roll pitch yaw).x
      + (FromEuler roll pitch yaw).y * (FromEuler roll pitch yaw).y) =
        Real.cos roll * Real.cos pitch ∧
    2 * ((FromEuler roll pitch yaw).w * (FromEuler roll pitch yaw).z
      + (FromEuler roll pitch yaw).x * (FromEuler roll pitch yaw).y) =
        Real.sin yaw * Real.cos pitch ∧
    1 - 2 * ((FromEuler roll pitch yaw).y * (FromEuler roll pitch yaw).y
      + (FromEuler roll pitch yaw).z * (FromEuler roll pitch yaw).z) =
        Real.cos yaw * Real.cos pitch := by
  have hR : ∀ v : Point3D ℝ, (FromEuler roll pitch yaw).Rotate v =
      (FromAxisAngle yaw 0 0 1).Rotate
        ((FromAxisAngle pitch 0 1 0).Rotate ((FromAxisAngle roll 1 0 0).Rotate v)) := by
    intro v
    unfold FromEuler
    rw [Rotate_mul, Rotate_mul]
  have hn := (norm_eq_one_iff (FromEuler roll pitch yaw)).1 (FromEuler_norm roll pitch yaw)
  have e1 := hR ⟨1, 0, 0⟩
  have e2 := hR ⟨0, 1, 0⟩
  have e3 := hR ⟨0, 0, 1⟩
  rw [Rotate_FromAxisAngle_x, Rotate_FromAxisAngle_y, Rotate_FromAxisAngle_z] at e1 e2 e3
  generalize FromEuler roll pitch yaw = q at *
  simp only [Rotate, mul, conjugated, Point3D.mk.injEq] at e1 e2 e3
  obtain ⟨e1x, e1y, e1z⟩ := e1
  obtain ⟨e2x, e2y, e2z⟩ := e2
  obtain ⟨e3x, e3y, e3z⟩ := e3
  refine ⟨?_, ?_, ?_, ?_, ?_⟩
  · linear_combination -e1z
  · linear_combination e2z
  · linear_combination e3z - hn
  · linear_combination e1y
  · linear_combination e1x - hn

/-- The argument of a point at polar angle `θ` in `(-π, π]` and positive
radius is `θ`. -/
theorem atan2_of_polar (ρ θ : ℝ) (hρ : 0 < ρ) (h1 : -Real.pi < θ) (h2 : θ ≤ Real.pi) :
    (Libm.atan2 (Real.sin θ * ρ) (Real.cos θ * ρ) : ℝ) = θ := by
  have h := Complex.arg_mul_cos_add_sin_mul_I hρ (Set.mem_Ioc.2 ⟨h1, h2⟩)
  have e : (⟨Real.cos θ * ρ, Real.sin θ * ρ⟩ : ℂ) =
      (ρ : ℂ) * (Complex.cos θ + Complex.sin θ * Complex.I) := by
    apply Complex.ext
    · simp [← Complex.ofReal_cos, ← Complex.ofReal_sin, mul_comm]
    · simp [← Complex.ofReal_cos, ← Complex.ofReal_sin, mul_comm]
  show Complex.arg ⟨Real.cos θ * ρ, Real.sin θ * ρ⟩ = θ
  rw [e]
  exact h

/-- C26: Euler round trip away from gimbal lock: for roll and yaw in
`(-π, π]` and pitch in `(-π/2, π/2)` with `|sin pitch| < 1 - 1e-8`,
`FromEuler(roll, pitch, yaw).euler_rad()` returns exactly
`(roll, pitch, yaw)`. -/
theorem C26_euler_round_trip (roll pitch yaw : ℝ)
    (hr1 : -Real.pi < roll) (hr2 : roll ≤ Real.pi)
    (hy1 : -Real.pi < yaw) (hy2 : yaw ≤ Real.pi)
    (hp1 : -(Real.pi / 2) < pitch) (hp2 : pitch < Real.pi / 2)
    (hband : |Real.sin pitch| < 1 - 1e-8) :
    (FromEuler roll pitch yaw).euler_rad = ⟨roll, pitch, yaw⟩ := by
  obtain ⟨t1, t2, t3, t4, t5⟩ := FromEuler_euler_terms roll pitch yaw
  have hb := abs_lt.1 hband
  have hcos : 0 < Real.cos pitch := Real.cos_pos_of_mem_Ioo ⟨hp1, hp2⟩
  unfold euler_rad
  simp only
  rw [t1, t2, t3, t4, t5]
  rw [if_neg (not_le.2 hb.2), if_neg (not_le.2 (by linarith [hb.1]))]
  rw [atan2_of_polar (Real.cos pitch) roll hcos hr1 hr2,
    atan2_of_polar (Real.cos pitch) yaw hcos hy1 hy2]
  show (⟨roll, Real.arcsin (Real.sin pitch), yaw⟩ : Euler ℝ) = ⟨roll, pitch, yaw⟩
  rw [Real.arcsin_sin hp1.le hp2.le]

/-- C26 at roll `π`, pitch `0` and yaw `π`, the closed ends of the roll and
yaw intervals. -/
theorem C26_euler_round_trip_witness :
    (FromEuler Real.pi 0 Real.pi : Quaternion ℝ).euler_rad = ⟨Real.pi, 0, Real.pi⟩ :=
  C26_euler_round_trip Real.pi 0 Real.pi (by linarith [Real.pi_pos]) le_rfl
    (by linarith [Real.pi_pos]) le_rfl (by linarith [Real.pi_pos]) (by linarith [Real.pi_pos])
    (by rw [Real.sin_zero, abs_zero]; norm_num)

/-- On the circle of radius `√2/2` the point `(w, x)` is `√2/2` times the
cosine and sine of `atan2 (x, w)`. -/
theorem gimbal_polar (w x : ℝ) (h : w * w + x * x = 1 / 2) :
    Real.cos (Real.pi / 4) * Real.cos (Libm.atan2 x w) = w ∧
      Real.cos (Real.pi / 4) * Real.sin (Libm.atan2 x w) = x := by
  have hs : Real.sqrt (w * w + x * x) = Real.cos (Real.pi / 4) := by
    rw [h, Real.cos_pi_div_four]
    have h2 : Real.sqrt 2 * Real.sqrt 2 = 2 := Real.mul_self_sqrt (by norm_num)
    rw [show (1 / 2 : ℝ) = (Real.sqrt 2 / 2) * (Real.sqrt 2 / 2) by
      linear_combination -(1 / 4 : ℝ) * h2]
    exact Real.sqrt_mul_self (by positivity)
  have hp := mech.atan2_polar w x
  rw [hs] at hp
  exact hp

/-- C27: the gimbal-lock branch of `euler_rad()` still reconstructs the
attitude: for every unit quaternion `q` with `2 (w y - z x) = 1` or `= -1`
exactly, `FromEuler` applied to the roll, pitch and yaw of `q.euler_rad()` is
`q` itself. -/
theorem C27_gimbal_lock_reconstructs (q : Quaternion ℝ) (hunit : q.norm = 1)
    (hs : 2 * (q.w * q.y - q.z * q.x) = 1 ∨ 2 * (q.w * q.y - q.z * q.x) = -1) :
    FromEuler q.euler_rad.roll q.euler_rad.pitch q.euler_rad.yaw = q := by
  have hn := (norm_eq_one_iff q).1 hunit
  have hc4 : Real.sin (Real.pi / 4) = Real.cos (Real.pi / 4) := by
    rw [Real.sin_pi_div_four, Real.cos_pi_div_four]
  have hq : q = ⟨q.w, q.x, q.y, q.z⟩ := rfl
  rcases hs with hs | hs
  · have hy : q.y = q.w := by
      nlinarith [mul_self_nonneg (q.w - q.y), mul_self_nonneg (q.x + q.z)]
    have hz : q.z = -q.x := by
      nlinarith [mul_self_nonneg (q.w - q.y), mul_self_nonneg (q.x + q.z)]
    have hhalf : q.w * q.w + q.x * q.x = 1 / 2 := by
      rw [hy, hz] at hn
      linarith
    obtain ⟨p1, p2⟩ := gimbal_polar q.w q.x hhalf
    have he : q.euler_rad = ⟨0, Real.pi / 2, -2 * Libm.atan2 q.x q.w⟩ := by
      unfold euler_rad
      simp only
      rw [if_pos (by rw [hs]; norm_num)]
      rfl
    rw [he, hq]
    simp only [FromEuler, FromAxisAngle, mul, Libm.cos, Libm.sin, Quaternion.mk.injEq]
    rw [show -2 * (Libm.atan2 q.x q.w : ℝ) / 2 = -(Libm.atan2 q.x q.w : ℝ) by ring,
      show Real.pi / 2 / 2 = Real.pi / 4 by ring, Real.cos_neg, Real.sin_neg, hc4]
    simp only [zero_div, Real.cos_zero, Real.sin_zero]
    refine ⟨?_, ?_, ?_, ?_⟩
    · linear_combination p1
    · linear_combination p2
    · linear_combination p1 - hy
    · linear_combination -p2 - hz
  · have hy : q.y = -q.w := by
      nlinarith [mul_self_nonneg (q.w + q.y), mul_self_nonneg (q.x - q.z)]
    have hz : q.z = q.x := by
      nlinarith [mul_self_nonneg (q.w + q.y), mul_self_nonneg (q.x - q.z)]
    have hhalf : q.w * q.w + q.x * q.x = 1 / 2 := by
      rw [hy, hz] at hn
      linarith
    obtain ⟨p1, p2⟩ := gimbal_polar q.w q.x hhalf
    have he : q.euler_rad = ⟨0, -(Real.pi / 2), 2 * Libm.atan2 q.x q.w⟩ := by
      unfold euler_rad
      simp only
      rw [if_neg (by rw [hs]; norm_num), if_pos (by rw [hs]; norm_num)]
      rfl
    rw [he, hq]
    simp only [FromEuler, FromAxisAngle, mul, Libm.cos, Libm.sin, Quaternion.mk.injEq]
    rw [show 2 * (Libm.atan2 q.x q.w : ℝ) / 2 = (Libm.atan2 q.x q.w : ℝ) by ring,
      show -(Real.pi / 2) / 2 = -(Real.pi / 4) by ring, Real.cos_neg, Real.sin_neg, hc4]
    simp only [zero_div, Real.cos_zero, Real.sin_zero]
    refine ⟨?_, ?_, ?_, ?_⟩
    · linear_combination p1
    · linear_combination p2
    · linear_combination -p1 - hy
    · linear_combination p2 - hz

/-- C27 at the unit quaternion `(1/2, 1/2, 1/2, -1/2)`, for which
`2 (w y - z x) = 1`. -/
theorem C27_gimbal_lock_reconstructs_witness :
    FromEuler (⟨1 / 2, 1 / 2, 1 / 2, -1 / 2⟩ : Quaternion ℝ).euler_rad.roll
        (⟨1 / 2, 1 / 2, 1 / 2, -1 / 2⟩ : Quaternion ℝ).euler_rad.pitch
        (⟨1 / 2, 1 / 2, 1 / 2, -1 / 2⟩ : Quaternion ℝ).euler_rad.yaw =
      ⟨1 / 2, 1 / 2, 1 / 2, -1 / 2⟩ :=
  C27_gimbal_lock_reconstructs ⟨1 / 2, 1 / 2, 1 / 2, -1 / 2⟩
    (by rw [norm_eq_one_iff]; norm_num) (Or.inl (by norm_num))

end Quaternion

end base

namespace mech

open base

/-- What is left of a raw delta after the blended delta has been taken off it:
nothing below the cap, the excess of its norm over the cap otherwise. -/
theorem FilterCommand.delta_remaining (d : Point3D ℝ) (cap : ℝ) (hcap : 0 ≤ cap) :
    (Point3D.sub d (FilterCommand.delta d cap)).norm = max 0 (d.norm - cap) := by
  by_cases h : d.norm < cap
  · have hd : FilterCommand.delta d cap = d := by
      unfold FilterCommand.delta
      rw [if_pos h]
    rw [hd, max_eq_left (by linarith)]
    simp [Point3D.norm, Point3D.squaredNorm, Point3D.sub, Libm.sqrt]
  · have hle : cap ≤ d.norm := not_lt.1 h
    rw [FilterCommand.delta_of_not_lt d cap h, max_eq_right (by linarith)]
    have hs := d.norm_mul_self
    rcases eq_or_lt_of_le d.norm_nonneg with h0 | hpos
    · have hc0 : cap = 0 := by linarith
      have hsq : ¬ 0 < d.squaredNorm := by
        rw [← hs, ← h0]
        norm_num
      rw [← h0, hc0, Point3D.eq_zero_of_squaredNorm_nonpos d hsq]
      simp [Point3D.norm, Point3D.squaredNorm, Point3D.sub, Libm.sqrt]
    · have hne : d.norm ≠ 0 := hpos.ne'
      have hsqn : (Point3D.sub d
          ⟨d.x / d.norm * cap, d.y / d.norm * cap, d.z / d.norm * cap⟩).squaredNorm
          = (d.norm - cap) * (d.norm - cap) := by
        unfold Point3D.squaredNorm at hs ⊢
        simp only [Point3D.sub]
        field_simp
        linear_combination ((d.norm - cap) * (d.norm - cap)) * hs.symm
      exact (congrArg Real.sqrt hsqn).trans (Real.sqrt_mul_self (by linarith))

/-- The blended delta of a raw delta with zero z component has zero z
component. -/
theorem FilterCommand.delta_z_of_planar (d : Point3D ℝ) (cap : ℝ) (hz : d.z = 0) :
    (FilterCommand.delta d cap).z = 0 := by
  by_cases h : d.norm < cap
  · unfold FilterCommand.delta
    rw [if_pos h]
    exact hz
  · rw [FilterCommand.delta_of_not_lt d cap h]
    simp [hz]

/-- The blended delta of a raw delta with zero x and y components has zero x
and y components. -/
theorem FilterCommand.delta_xy_of_axial (d : Point3D ℝ) (cap : ℝ) (hx : d.x = 0)
    (hy : d.y = 0) :
    (FilterCommand.delta d cap).x = 0 ∧ (FilterCommand.delta d cap).y = 0 := by
  by_cases h : d.norm < cap
  · unfold FilterCommand.delta
    rw [if_pos h]
    exact ⟨hx, hy⟩
  · rw [FilterCommand.delta_of_not_lt d cap h]
    simp [hx, hy]

/-- C28: on planar states `FilterCommand` never overshoots and makes full
progress: for planar `current` and `desired` (`v.z = 0`, `w.x = w.y = 0`) and
caps `acceleration * delta_s >= 0`, `alpha_rad_s2 * delta_s >= 0`, the distance
left to the desired linear velocity after one step is
`max 0 (|desired.v - current.v| - cap)`, likewise for the angular velocity; and
with positive caps `FilterCommand (current, current, ...)` is `current`. -/
theorem C28_FilterCommand_remaining (current desired : FilterCommandState ℝ)
    (acceleration alpha_rad_s2 delta_s : ℝ)
    (hcv : current.v.z = 0) (hcwx : current.w.x = 0) (hcwy : current.w.y = 0)
    (hdv : desired.v.z = 0) (hdwx : desired.w.x = 0) (hdwy : desired.w.y = 0)
    (hcap : 0 ≤ acceleration * delta_s) (hcapw : 0 ≤ alpha_rad_s2 * delta_s) :
    Point3D.norm (Point3D.sub desired.v
        (FilterCommand current desired acceleration alpha_rad_s2 delta_s).v) =
      max 0 (Point3D.norm (Point3D.sub desired.v current.v) - acceleration * delta_s) ∧
    Point3D.norm (Point3D.sub desired.w
        (FilterCommand current desired acceleration alpha_rad_s2 delta_s).w) =
      max 0 (Point3D.norm (Point3D.sub desired.w current.w) - alpha_rad_s2 * delta_s) ∧
    (0 < acceleration * delta_s → 0 < alpha_rad_s2 * delta_s →
      FilterCommand current current acceleration alpha_rad_s2 delta_s = current) := by
  refine ⟨?_, ?_, ?_⟩
  · have hz : (Point3D.sub desired.v current.v).z = 0 := by
      simp [Point3D.sub, hcv, hdv]
    have hδ := FilterCommand.delta_z_of_planar _ (acceleration * delta_s) hz
    rw [← FilterCommand.delta_remaining _ _ hcap]
    congr 1
    simp only [FilterCommand, Point3D.sub, Point3D.add, Point3D.mk.injEq]
    simp only [Point3D.sub] at hδ
    refine ⟨by ring, by ring, ?_⟩
    linarith [hδ, hcv]
  · have hx : (Point3D.sub desired.w current.w).x = 0 := by
      simp [Point3D.sub, hcwx, hdwx]
    have hy : (Point3D.sub desired.w current.w).y = 0 := by
      simp [Point3D.sub, hcwy, hdwy]
    obtain ⟨hδx, hδy⟩ := FilterCommand.delta_xy_of_axial _ (alpha_rad_s2 * delta_s) hx hy
    rw [← FilterCommand.delta_remaining _ _ hcapw]
    congr 1
    simp only [FilterCommand, Point3D.sub, Point3D.add, Point3D.mk.injEq]
    simp only [Point3D.sub] at hδx hδy
    refine ⟨?_, ?_, by ring⟩
    · linarith [hδx, hcwx]
    · linarith [hδy, hcwy]
  · intro hpos hposw
    have hzero : ∀ (p : Point3D ℝ) (cap : ℝ), 0 < cap →
        FilterCommand.delta (Point3D.sub p p) cap = ⟨0, 0, 0⟩ := by
      intro p cap hc
      have hn : (Point3D.sub p p).norm < cap := by
        simp [Point3D.norm, Point3D.squaredNorm, Point3D.sub, Libm.sqrt, hc]
      unfold FilterCommand.delta
      rw [if_pos hn]
      simp [Point3D.sub]
    have hcur : current = ⟨⟨current.v.x, current.v.y, current.v.z⟩,
        ⟨current.w.x, current.w.y, current.w.z⟩⟩ := rfl
    unfold FilterCommand
    simp only [hzero current.v _ hpos, hzero current.w _ hposw, Point3D.add, add_zero]
    rw [hcur]
    simp only [hcv, hcwx, hcwy]

/-- C28 at the planar states `v = (0, 0, 0)`, `w = (0, 0, 0)` and
`v = (3, 4, 0)`, `w = (0, 0, 2)`, limits `1` and tick `1`. -/
theorem C28_FilterCommand_remaining_witness :
    Point3D.norm (Point3D.sub (⟨3, 4, 0⟩ : Point3D ℝ)
        (FilterCommand (⟨⟨0, 0, 0⟩, ⟨0, 0, 0⟩⟩ : FilterCommandState ℝ)
          ⟨⟨3, 4, 0⟩, ⟨0, 0, 2⟩⟩ 1 1 1).v) =
      max 0 (Point3D.norm (Point3D.sub (⟨3, 4, 0⟩ : Point3D ℝ) ⟨0, 0, 0⟩) - 1 * 1) :=
  (C28_FilterCommand_remaining ⟨⟨0, 0, 0⟩, ⟨0, 0, 0⟩⟩ ⟨⟨3, 4, 0⟩, ⟨0, 0, 2⟩⟩ 1 1 1
    rfl rfl rfl rfl rfl rfl (by norm_num) (by norm_num)).1

end mech

namespace mech

/-- C24: `GetLeg_R(legs, id)` returns the first element of `legs` whose
`leg_id` equals `id`: the list splits into elements with other ids, the
element returned, and the rest; and it fails fast (no value returned) exactly
when no element of `legs` has that id. -/
theorem C24_GetLeg_R_first_match {Other : Type} (legs : List (QuadrupedCommand.Leg Other))
    (id : Int) :
    (∀ leg, GetLeg_R legs id = some leg ↔
      ∃ before after, legs = before ++ leg :: after ∧ leg.leg_id = id ∧
        ∀ l ∈ before, l.leg_id ≠ id) ∧
    (GetLeg_R legs id = none ↔ ∀ l ∈ legs, l.leg_id ≠ id) := by
  induction legs with
  | nil =>
    refine ⟨fun leg => ⟨fun h => ?_, fun h => ?_⟩, ?_⟩
    · simp [GetLeg_R] at h
    · obtain ⟨before, after, h, _⟩ := h
      simp at h
    · simp [GetLeg_R]
  | cons a rest ih =>
    obtain ⟨ih1, ih2⟩ := ih
    by_cases ha : a.leg_id = id
    · refine ⟨fun leg => ⟨fun h => ?_, fun h => ?_⟩, ?_⟩
      · simp only [GetLeg_R, if_pos ha, Option.some.injEq] at h
        exact ⟨[], rest, by rw [h]; rfl, by rw [← h]; exact ha, by simp⟩
      · obtain ⟨before, after, h, _, hb⟩ := h
        cases before with
        | nil =>
          simp only [List.nil_append, List.cons.injEq] at h
          rw [← h.1]
          simp [GetLeg_R, ha]
        | cons b before =>
          simp only [List.cons_append, List.cons.injEq] at h
          exact absurd ha (h.1 ▸ hb b (List.mem_cons_self _ _))
      · simp [GetLeg_R, if_pos ha, ha]
    · refine ⟨fun leg => ⟨fun h => ?_, fun h => ?_⟩, ?_⟩
      · simp only [GetLeg_R, if_neg ha] at h
        obtain ⟨before, after, h1, h2, h3⟩ := (ih1 leg).1 h
        refine ⟨a :: before, after, by rw [h1]; rfl, h2, ?_⟩
        intro l hl
        rcases List.mem_cons.1 hl with hl | hl
        · rw [hl]; exact ha
        · exact h3 l hl
      · obtain ⟨before, after, h, h2, hb⟩ := h
        cases before with
        | nil =>
          simp only [List.nil_append, List.cons.injEq] at h
          exact absurd (h.1 ▸ h2) ha
        | cons b before =>
          simp only [List.cons_append, List.cons.injEq] at h
          simp only [GetLeg_R, if_neg ha]
          exact (ih1 leg).2 ⟨before, after, h.2, h2,
            fun l hl => hb l (List.mem_cons_of_mem _ hl)⟩
      · simp only [GetLeg_R, if_neg ha, ih2, List.mem_cons, forall_eq_or_imp]
        exact ⟨fun h => ⟨ha, h⟩, fun h => h.2⟩

/-- C24 on a list with two elements of id `1`: the first of them is returned. -/
theorem C24_GetLeg_R_first_match_witness :
    GetLeg_R [(⟨0, 10⟩ : QuadrupedCommand.Leg Nat), ⟨1, 20⟩, ⟨1, 30⟩] 1 = some ⟨1, 20⟩ :=
  ((C24_GetLeg_R_first_match [(⟨0, 10⟩ : QuadrupedCommand.Leg Nat), ⟨1, 20⟩, ⟨1, 30⟩] 1).1
    ⟨1, 20⟩).2 ⟨[⟨0, 10⟩], [⟨1, 30⟩], rfl, rfl, by simp⟩

namespace rf_command

/-- One press from a value that is `0` or in `[1024, 2048]`: the sum and the
maximum stay far inside `int16_t`, and the new value is `1024` from `0`, the
successor below `2048`, and `1024` from `2048`. -/
theorem turret_fire_sequence_press (n : Int) (h : n = 0 ∨ (1024 ≤ n ∧ n ≤ 2048)) :
    base.int16_min ≤ max 1024 (n + 1) ∧ max 1024 (n + 1) ≤ base.int16_max ∧
    to_int16 (max 1024 (n + 1)) = max 1024 (n + 1) ∧
    turret_fire_sequence_update true n =
      (if n = 0 then 1024 else if n < 2048 then n + 1 else 1024) := by
  have hmax : max 1024 (n + 1) = if n = 0 then 1024 else n + 1 := by
    split_ifs with h0
    · rw [h0]; rfl
    · exact max_eq_right (by omega)
  have hw : to_int16 (max 1024 (n + 1)) = max 1024 (n + 1) := by
    rw [hmax]
    unfold to_int16
    split_ifs <;> omega
  refine ⟨?_, ?_, hw, ?_⟩
  · rw [hmax]; unfold base.int16_min; split_ifs <;> omega
  · rw [hmax]; unfold base.int16_max; split_ifs <;> omega
  · show (if to_int16 (max 1024 (n + 1)) > 2048 then 1024
      else to_int16 (max 1024 (n + 1))) = _
    rw [hw, hmax]
    split_ifs <;> omega

/-- The value after any passes started from a value that is `0` or in
`[1024, 2048]` is again such a value, and it is in `[1024, 2048]` as soon as
the start is or one of the passes is a press. -/
theorem turret_fire_sequence_foldl (passes : List Bool) (n : Int)
    (h : n = 0 ∨ (1024 ≤ n ∧ n ≤ 2048)) :
    (passes.foldl (fun s pressed => turret_fire_sequence_update pressed s) n = 0 ∨
      (1024 ≤ passes.foldl (fun s pressed => turret_fire_sequence_update pressed s) n ∧
        passes.foldl (fun s pressed => turret_fire_sequence_update pressed s) n ≤ 2048)) ∧
    ((n ≠ 0 ∨ true ∈ passes) →
      (1024 ≤ passes.foldl (fun s pressed => turret_fire_sequence_update pressed s) n ∧
        passes.foldl (fun s pressed => turret_fire_sequence_update pressed s) n ≤ 2048)) := by
  induction passes generalizing n with
  | nil =>
    refine ⟨h, fun hp => ?_⟩
    simp only [List.foldl_nil]
    rcases hp with hp | hp
    · rcases h with h | h
      · exact absurd h hp
      · exact h
    · simp at hp
  | cons p rest ih =>
    simp only [List.foldl_cons]
    cases p
    · have hstep : turret_fire_sequence_update false n = n := rfl
      rw [hstep]
      refine ⟨(ih n h).1, fun hp => (ih n h).2 ?_⟩
      rcases hp with hp | hp
      · exact Or.inl hp
      · simp only [List.mem_cons] at hp
        rcases hp with hp | hp
        · exact absurd hp (by decide)
        · exact Or.inr hp
    · have hstep := (turret_fire_sequence_press n h).2.2.2
      have hrange : 1024 ≤ turret_fire_sequence_update true n ∧
          turret_fire_sequence_update true n ≤ 2048 := by
        rw [hstep]
        split_ifs <;> omega
      exact ⟨(ih _ (Or.inr hrange)).1, fun _ => (ih _ (Or.inr hrange)).2
        (Or.inl (by omega))⟩

/-- C30: the turret fire sequence in the RF command loop: after any passes of
the loop from the initial value `0`, a press of the right trigger changes the
value to a different one (`0 -> 1024`, `n -> n + 1` for `1024 <= n < 2048`,
`2048 -> 1024`), the value assigned is representable in `int16_t` (no
overflow), a pass without a press leaves the value alone, the value is `0`
before the first press and in `[1024, 2048]` after at least one press. -/
theorem C30_turret_fire_sequence (passes : List Bool) :
    turret_fire_sequence_after [] = 0 ∧
    turret_fire_sequence_update true (turret_fire_sequence_after passes) ≠
      turret_fire_sequence_after passes ∧
    turret_fire_sequence_update true (turret_fire_sequence_after passes) =
      (if turret_fire_sequence_after passes = 0 then 1024
        else if turret_fire_sequence_after passes < 2048
          then turret_fire_sequence_after passes + 1 else 1024) ∧
    turret_fire_sequence_update false (turret_fire_sequence_after passes) =
      turret_fire_sequence_after passes ∧
    turret_fire_sequence_after (passes ++ [true]) =
      turret_fire_sequence_update true (turret_fire_sequence_after passes) ∧
    (base.int16_min ≤ max 1024 (turret_fire_sequence_after passes + 1) ∧
      max 1024 (turret_fire_sequence_after passes + 1) ≤ base.int16_max) ∧
    (true ∉ passes → turret_fire_sequence_after passes = 0) ∧
    (true ∈ passes →
      1024 ≤ turret_fire_sequence_after passes ∧ turret_fire_sequence_after passes ≤ 2048) := by
  have hinv : (turret_fire_sequence_after passes = 0 ∨
      (1024 ≤ turret_fire_sequence_after passes ∧ turret_fire_sequence_after passes ≤ 2048)) ∧
      (((0 : Int) ≠ 0 ∨ true ∈ passes) →
        (1024 ≤ turret_fire_sequence_after passes ∧
          turret_fire_sequence_after passes ≤ 2048)) :=
    turret_fire_sequence_foldl passes 0 (Or.inl rfl)
  have hpress := turret_fire_sequence_press (turret_fire_sequence_after passes) hinv.1
  refine ⟨rfl, ?_, hpress.2.2.2, rfl, ?_, ⟨hpress.1, hpress.2.1⟩, ?_, ?_⟩
  · rw [hpress.2.2.2]
    rcases hinv.1 with h | h
    · rw [h]; decide
    · split_ifs <;> omega
  · unfold turret_fire_sequence_after
    rw [List.foldl_append]
    rfl
  · intro hno
    unfold turret_fire_sequence_after
    have hall : ∀ (l : List Bool) (n : Int), true ∉ l →
        l.foldl (fun s pressed => turret_fire_sequence_update pressed s) n = n := by
      intro l
      induction l with
      | nil => intro n _; rfl
      | cons p rest ih =>
        intro n hn
        simp only [List.mem_cons, not_or] at hn
        cases p
        · simp only [List.foldl_cons]
          exact ih _ hn.2
        · exact absurd rfl hn.1
    exact hall passes _ hno
  · intro hyes
    exact hinv.2 (Or.inr hyes)

/-- C30 after the passes press, no press, press: the value is in
`[1024, 2048]`. -/
theorem C30_turret_fire_sequence_witness :
    1024 ≤ turret_fire_sequence_after [true, false, true] ∧
      turret_fire_sequence_after [true, false, true] ≤ 2048 :=
  (C30_turret_fire_sequence [true, false, true]).2.2.2.2.2.2.2 (by decide)

end rf_command

end mech

namespace mech

open base

namespace MammalIk

/-- What `Inverse_effector` returns, when it returns: the joint angles of
`Inverse`, and the rates and torques computed at them. -/
theorem Inverse_effector_eq_some (config : Config ℝ) (effector_G : IkSolver.Effector ℝ)
    (current : Option (IkSolver.JointAngles ℝ)) (joints : IkSolver.JointAngles ℝ)
    (rates torques : IkSolver.JointValues ℝ)
    (h : Inverse_effector config effector_G current = some (joints, rates, torques)) :
    Inverse config effector_G.pose current = some joints ∧
      rates = Inverse_velocity_dps config joints effector_G.velocity ∧
      torques = Inverse_torque_Nm config joints effector_G.force_N := by
  unfold Inverse_effector at h
  cases hI : Inverse config effector_G.pose current with
  | none =>
    rw [hI] at h
    exact Option.noConfusion h
  | some j =>
    rw [hI] at h
    simp only [Option.some.injEq, Prod.mk.injEq] at h
    obtain ⟨h1, h2, h3⟩ := h
    rw [← h1]
    exact ⟨rfl, h2.symm, h3.symm⟩

/-- `Inverse_effector` succeeds where `Inverse` does. -/
theorem Inverse_effector_of_Inverse (config : Config ℝ) (effector_G : IkSolver.Effector ℝ)
    (current : Option (IkSolver.JointAngles ℝ)) (joints : IkSolver.JointAngles ℝ)
    (h : Inverse config effector_G.pose current = some joints) :
    Inverse_effector config effector_G current =
      some (joints, Inverse_velocity_dps config joints effector_G.velocity,
        Inverse_torque_Nm config joints effector_G.force_N) := by
  unfold Inverse_effector
  rw [h]

/-- The shoulder angle of a joint set returned by `Inverse`. -/
theorem Inverse_shoulder_angle (config : Config ℝ) (target : Point3D ℝ)
    (current : Option (IkSolver.JointAngles ℝ)) (joints : IkSolver.JointAngles ℝ)
    (h : Inverse config target current = some joints) :
    joints.shoulder.angle_deg = Degrees (shoulder_rad config target) := by
  have hreach : ¬ (planar_radius config target > l2 config + l3 config ∨
      planar_radius config target < |l2 config - l3 config|) := by
    intro hc
    rw [(Inverse_eq_none_iff config target current).2 hc] at h
    exact Option.noConfusion h
  rw [Inverse_of_reach config target current hreach] at h
  rw [← Option.some.inj h]

/-- The planar radius of a target at height `0.040` and lateral offset `0.030`
for a shoulder offset `(0, 0.030, sz)` with `sz <= 0.040`. -/
theorem shoulder_test_radius (sz : ℝ) (hsz : sz ≤ 0.040) :
    planar_radius (InverseShoulderTest_config 0.030 sz : Config ℝ) ⟨0, 0.030, 0.040⟩ =
      0.040 - sz := by
  have h1 : Real.sqrt ((0.030 : ℝ) * 0.030 + 0.040 * 0.040 - 0.030 * 0.030) = 0.040 := by
    rw [show (0.030 : ℝ) * 0.030 + 0.040 * 0.040 - 0.030 * 0.030 = 0.040 * 0.040 by ring]
    exact Real.sqrt_mul_self (by norm_num)
  simp only [planar_radius, planar_x, planar_z, lower_leg_distance, Libm.sqrt,
    InverseShoulderTest_config, h1]
  rw [show ((0 : ℝ) - 0) * (0 - 0) + (0.040 - sz) * (0.040 - sz) = (0.040 - sz) * (0.040 - sz)
    by ring]
  exact Real.sqrt_mul_self (by linarith)

/-- The target `(0, 0.030, 0.040)` passes the reachability check of the
`MammalInverseShoulderTest` leg with shoulder offset `(0, 0.030, 0)`. -/
theorem shoulder_test_reach :
    ¬ (planar_radius (InverseShoulderTest_config 0.030 0 : Config ℝ) ⟨0, 0.030, 0.040⟩ >
        l2 (InverseShoulderTest_config 0.030 0 : Config ℝ)
          + l3 (InverseShoulderTest_config 0.030 0 : Config ℝ) ∨
      planar_radius (InverseShoulderTest_config 0.030 0 : Config ℝ) ⟨0, 0.030, 0.040⟩ <
        |l2 (InverseShoulderTest_config 0.030 0 : Config ℝ)
          - l3 (InverseShoulderTest_config 0.030 0 : Config ℝ)|) := by
  have hl2 : l2 (InverseShoulderTest_config 0.030 0 : Config ℝ) = 0.100 := rfl
  have hl3 : l3 (InverseShoulderTest_config 0.030 0 : Config ℝ) = 0.100 := rfl
  rw [shoulder_test_radius 0 (by norm_num), hl2, hl3]
  norm_num

/-- C23: the shoulder angle returned by `Inverse` depends only on the y and z
coordinates of the target and on the lateral (y) offset of the shoulder: two
calls whose targets agree in y and z and whose configurations agree in the
shoulder's lateral offset, and which both return a joint set, return the same
shoulder angle, whatever the targets' x coordinates, the z (and x) components
of the shoulder offsets and the rest of the configurations. -/
theorem C23_Inverse_shoulder_independence (config1 config2 : Config ℝ)
    (target1 target2 : Point3D ℝ) (current1 current2 : Option (IkSolver.JointAngles ℝ))
    (joints1 joints2 : IkSolver.JointAngles ℝ)
    (hsy : config1.shoulder.pose.y = config2.shoulder.pose.y)
    (hy : target1.y = target2.y) (hz : target1.z = target2.z)
    (h1 : Inverse config1 target1 current1 = some joints1)
    (h2 : Inverse config2 target2 current2 = some joints2) :
    joints1.shoulder.angle_deg = joints2.shoulder.angle_deg := by
  rw [Inverse_shoulder_angle config1 target1 current1 joints1 h1,
    Inverse_shoulder_angle config2 target2 current2 joints2 h2]
  unfold shoulder_rad lower_leg_distance
  rw [hsy, hy, hz]

/-- C23 at the `OldMammalTest` leg (shoulder offset `(0, 0.030, 0.040)`) with
target `(0.210, 0.030, 0.040)` against the leg with shoulder offset
`(0, 0.030, 0)` and tibia `0.100` with target `(0, 0.030, 0.040)`. -/
theorem C23_Inverse_shoulder_independence_witness :
    Degrees (shoulder_rad (OldMammalTest_config : Config ℝ) ⟨0.210, 0.030, 0.040⟩) =
      Degrees (shoulder_rad (InverseShoulderTest_config 0.030 0 : Config ℝ)
        ⟨0, 0.030, 0.040⟩) :=
  C23_Inverse_shoulder_independence OldMammalTest_config (InverseShoulderTest_config 0.030 0)
    ⟨0.210, 0.030, 0.040⟩ ⟨0, 0.030, 0.040⟩ none none _ _ rfl rfl rfl
    (Inverse_of_reach _ _ none old_leg_full_extension_reach)
    (Inverse_of_reach _ _ none shoulder_test_reach)

/-- The scalar triple product may be bracketed either way. -/
theorem dot_cross_eq (a b f : Point3D ℝ) :
    Point3D.dot a (Point3D.cross b f) = Point3D.dot (Point3D.cross a b) f := by
  simp only [Point3D.dot, Point3D.cross]
  ring

/-- Cramer's rule for three columns of non-zero determinant: the combination
of the columns with the coefficients of the closed-form inverse is the vector
itself. -/
theorem cramer_sum (c1 c2 c3 v : Point3D ℝ)
    (hdet : Point3D.dot c1 (Point3D.cross c2 c3) ≠ 0) :
    Point3D.add
        (Point3D.add
          (Point3D.scale c1
            (Point3D.dot (Point3D.cross c2 c3) v / Point3D.dot c1 (Point3D.cross c2 c3)))
          (Point3D.scale c2
            (Point3D.dot (Point3D.cross c3 c1) v / Point3D.dot c1 (Point3D.cross c2 c3))))
        (Point3D.scale c3
          (Point3D.dot (Point3D.cross c1 c2) v / Point3D.dot c1 (Point3D.cross c2 c3))) = v := by
  obtain ⟨a1, a2, a3⟩ := c1
  obtain ⟨b1, b2, b3⟩ := c2
  obtain ⟨d1, d2, d3⟩ := c3
  obtain ⟨v1, v2, v3⟩ := v
  simp only [Point3D.dot, Point3D.cross] at hdet
  simp only [Point3D.add, Point3D.scale, Point3D.dot, Point3D.cross, Point3D.mk.injEq]
  refine ⟨?_, ?_, ?_⟩ <;> field_simp <;> ring

/-- At a solved pose with non-singular Jacobian the rates of `Inverse`, passed
to `Forward_G`, give back the velocity. -/
theorem Forward_G_velocity_Inverse_velocity_dps (config : Config ℝ)
    (joints : IkSolver.JointAngles ℝ) (velocity : Point3D ℝ)
    (hdet : Point3D.dot (jacobian_shoulder config joints)
      (Point3D.cross (jacobian_femur config joints) (jacobian_tibia config joints)) ≠ 0) :
    Forward_G_velocity config joints (Inverse_velocity_dps config joints velocity) =
      velocity := by
  unfold Forward_G_velocity Inverse_velocity_dps
  simp only [Radians_Degrees]
  exact cramer_sum _ _ _ _ hdet

end MammalIk

end mech

namespace mech

open base

namespace MammalIk

/-- The target `(0, 0, 0.195)` of the velocity and force tables for the leg
with zero shoulder offset: planar radius `0.195`, shoulder angle `0`, femur
angle `acos 0.975`. -/
theorem test_leg_angles :
    planar_radius (InverseVelocityTest_config : Config ℝ) ⟨0, 0, 0.195⟩ = 0.195 ∧
    shoulder_rad (InverseVelocityTest_config : Config ℝ) ⟨0, 0, 0.195⟩ = 0 ∧
    femur_rad (InverseVelocityTest_config : Config ℝ) ⟨0, 0, 0.195⟩ = Real.arccos 0.975 := by
  have h1 : Real.sqrt ((0 : ℝ) * 0 + 0.195 * 0.195 - 0 * 0) = 0.195 := by
    rw [show (0 : ℝ) * 0 + 0.195 * 0.195 - 0 * 0 = 0.195 * 0.195 by ring]
    exact Real.sqrt_mul_self (by norm_num)
  have hpx : planar_x (InverseVelocityTest_config : Config ℝ) ⟨0, 0, 0.195⟩ = 0 := by
    simp [planar_x, InverseVelocityTest_config]
  have hpz : planar_z (InverseVelocityTest_config : Config ℝ) ⟨0, 0, 0.195⟩ = 0.195 := by
    simp only [planar_z, lower_leg_distance, Libm.sqrt, InverseVelocityTest_config, h1]
    norm_num
  have hr : planar_radius (InverseVelocityTest_config : Config ℝ) ⟨0, 0, 0.195⟩ = 0.195 := by
    unfold planar_radius
    rw [hpx, hpz]
    rw [show (0 : ℝ) * 0 + 0.195 * 0.195 = 0.195 * 0.195 by ring]
    exact Real.sqrt_mul_self (by norm_num)
  have hl2 : l2 (InverseVelocityTest_config : Config ℝ) = 0.100 := rfl
  have hl3 : l3 (InverseVelocityTest_config : Config ℝ) = 0.100 := rfl
  refine ⟨hr, ?_, ?_⟩
  · simp only [shoulder_rad, lower_leg_distance, Libm.sqrt, InverseVelocityTest_config, h1,
      neg_zero]
    rw [atan2_zero_of_nonneg _ (by norm_num)]
    norm_num
  · unfold femur_rad
    simp only
    rw [hr, hpx, hpz, hl2, hl3, atan2_zero_of_nonneg _ (by norm_num)]
    have hinv : (InverseVelocityTest_config : Config ℝ).invert = false := rfl
    rw [hinv]
    simp only [Bool.false_eq_true, if_false, zero_add]
    congr 1
    norm_num

/-- The target `(0, 0, 0.195)` passes the reachability check of the leg with
zero shoulder offset. -/
theorem test_leg_reach :
    ¬ (planar_radius (InverseVelocityTest_config : Config ℝ) ⟨0, 0, 0.195⟩ >
        l2 (InverseVelocityTest_config : Config ℝ)
          + l3 (InverseVelocityTest_config : Config ℝ) ∨
      planar_radius (InverseVelocityTest_config : Config ℝ) ⟨0, 0, 0.195⟩ <
        |l2 (InverseVelocityTest_config : Config ℝ)
          - l3 (InverseVelocityTest_config : Config ℝ)|) := by
  have hl2 : l2 (InverseVelocityTest_config : Config ℝ) = 0.100 := rfl
  have hl3 : l3 (InverseVelocityTest_config : Config ℝ) = 0.100 := rfl
  rw [test_leg_angles.1, hl2, hl3]
  norm_num

/-- The sine of `acos 0.975` is `√79 / 40`. -/
theorem sin_arccos_test : Real.sin (Real.arccos 0.975) = Real.sqrt 79 / 40 := by
  rw [Real.sin_arccos]
  rw [show (1 : ℝ) - 0.975 ^ 2 = 79 / (40 * 40) by norm_num,
    Real.sqrt_div (by norm_num), Real.sqrt_mul_self (by norm_num)]

/-- The Jacobian columns at the joint set `Inverse` returns for the target
`(0, 0, 0.195)` and the leg with zero shoulder offset. -/
theorem test_leg_jacobian (joints : IkSolver.JointAngles ℝ)
    (h : Inverse (InverseVelocityTest_config : Config ℝ) ⟨0, 0, 0.195⟩ none = some joints) :
    jacobian_shoulder (InverseVelocityTest_config : Config ℝ) joints = ⟨0, -0.195, 0⟩ ∧
    jacobian_femur (InverseVelocityTest_config : Config ℝ) joints = ⟨0.195, 0, 0⟩ ∧
    jacobian_tibia (InverseVelocityTest_config : Config ℝ) joints =
      ⟨0.0975, 0, Real.sqrt 79 / 400⟩ := by
  rw [Inverse_of_reach _ _ none test_leg_reach] at h
  have hj := Option.some.inj h
  have hp := Forward_G_pose_solved (InverseVelocityTest_config : Config ℝ) ⟨0, 0, 0.195⟩
    rfl rfl rfl rfl
    (by simp only [InverseVelocityTest_config]; norm_num) test_leg_reach
  rw [hj] at hp
  have hs : Radians joints.shoulder.angle_deg = 0 := by
    rw [← hj]
    simp only [Radians_Degrees]
    exact test_leg_angles.2.1
  have hf : Radians joints.femur.angle_deg = Real.arccos 0.975 := by
    rw [← hj]
    simp only [Radians_Degrees]
    exact test_leg_angles.2.2
  have hc : Real.cos (Real.arccos 0.975) = 0.975 :=
    Real.cos_arccos (by norm_num) (by norm_num)
  refine ⟨?_, ?_, ?_⟩
  · unfold jacobian_shoulder
    rw [hp]
    simp only [shoulder_axis, shoulder_position, Point3D.cross, Point3D.sub, Point3D.mk.injEq]
    refine ⟨?_, ?_, ?_⟩ <;> norm_num
  · unfold jacobian_femur
    rw [hp]
    simp only [lateral_axis, femur_position, hs, rotate_x, InverseVelocityTest_config, Libm.cos,
      Libm.sin, Real.sin_zero, Real.cos_zero, Point3D.cross, Point3D.sub, Point3D.mk.injEq]
    refine ⟨?_, ?_, ?_⟩ <;> norm_num
  · unfold jacobian_tibia
    rw [hp]
    simp only [lateral_axis, tibia_position, hs, hf, rotate_x, rotate_y,
      InverseVelocityTest_config, Libm.cos, Libm.sin, Real.sin_zero, Real.cos_zero, hc,
      sin_arccos_test, Point3D.cross, Point3D.sub, Point3D.add, Point3D.mk.injEq]
    refine ⟨?_, ?_, ?_⟩ <;> ring

/-- The joint torques `Inverse_effector` returns for the target
`(0, 0, 0.195)` of the leg with zero shoulder offset and a force `f`. -/
theorem test_leg_torque (velocity force_N : Point3D ℝ) :
    (Inverse_effector (InverseVelocityTest_config : Config ℝ)
        ⟨⟨0, 0, 0.195⟩, velocity, force_N⟩ none).map (fun result => result.2.2) =
      some ⟨-0.195 * force_N.y, 0.195 * force_N.x,
        0.0975 * force_N.x + Real.sqrt 79 / 400 * force_N.z⟩ := by
  have hI := Inverse_of_reach (InverseVelocityTest_config : Config ℝ) ⟨0, 0, 0.195⟩ none
    test_leg_reach
  obtain ⟨j1, j2, j3⟩ := test_leg_jacobian _ hI
  rw [Inverse_effector_of_Inverse _ ⟨⟨0, 0, 0.195⟩, velocity, force_N⟩ none _ hI]
  simp only [Option.map_some', Inverse_torque_Nm, j1, j2, j3, Point3D.dot, Option.some.injEq,
    IkSolver.JointValues.mk.injEq]
  refine ⟨?_, ?_, ?_⟩ <;> ring

/-- C22: the joint torques `Inverse` returns are the transpose of the Jacobian
applied to the target force: whenever `Inverse` returns a result, each torque
is `c_i · f` for the Jacobian column `c_i` at the solved pose, which is
`a_i · ((tip - p_i) × f)` with `a_i` the joint's axis, `p_i` its position and
`tip` the pose of the solved joint set; for the leg with zero shoulder offset
and `l2 = l3 = 0.100` at target `(0, 0, 0.195)` the force `(0, 10, 0)` gives
torques `(-1.95, 0, 0)` and the force `(10, 0, 0)` gives `(0, 1.95, 0.975)`,
whose last entry is `0.98` to two decimals. -/
theorem C22_Inverse_torque_jacobian_transpose :
    (∀ (config : Config ℝ) (effector_G : IkSolver.Effector ℝ)
        (current : Option (IkSolver.JointAngles ℝ)) (joints : IkSolver.JointAngles ℝ)
        (rates torques : IkSolver.JointValues ℝ),
      Inverse_effector config effector_G current = some (joints, rates, torques) →
        Inverse config effector_G.pose current = some joints ∧
        torques.shoulder = Point3D.dot (jacobian_shoulder config joints) effector_G.force_N ∧
        torques.femur = Point3D.dot (jacobian_femur config joints) effector_G.force_N ∧
        torques.tibia = Point3D.dot (jacobian_tibia config joints) effector_G.force_N ∧
        torques.shoulder = Point3D.dot shoulder_axis
          (Point3D.cross (Point3D.sub (Forward_G_pose config joints) shoulder_position)
            effector_G.force_N) ∧
        torques.femur = Point3D.dot (lateral_axis joints)
          (Point3D.cross
            (Point3D.sub (Forward_G_pose config joints) (femur_position config joints))
            effector_G.force_N) ∧
        torques.tibia = Point3D.dot (lateral_axis joints)
          (Point3D.cross
            (Point3D.sub (Forward_G_pose config joints) (tibia_position config joints))
            effector_G.force_N)) ∧
    (Inverse_effector (InverseVelocityTest_config : Config ℝ)
        ⟨⟨0, 0, 0.195⟩, ⟨0, 0, 0⟩, ⟨0, 10, 0⟩⟩ none).map (fun result => result.2.2) =
      some ⟨-1.95, 0, 0⟩ ∧
    (Inverse_effector (InverseVelocityTest_config : Config ℝ)
        ⟨⟨0, 0, 0.195⟩, ⟨0, 0, 0⟩, ⟨10, 0, 0⟩⟩ none).map (fun result => result.2.2) =
      some ⟨0, 1.95, 0.975⟩ ∧
    |(0.975 : ℝ) - 0.98| ≤ 0.005 := by
  refine ⟨?_, ?_, ?_, ?_⟩
  · intro config effector_G current joints rates torques h
    obtain ⟨h1, _, h3⟩ := Inverse_effector_eq_some config effector_G current joints rates
      torques h
    rw [h3]
    refine ⟨h1, rfl, rfl, rfl, ?_, ?_, ?_⟩
    · rw [dot_cross_eq]; rfl
    · rw [dot_cross_eq]; rfl
    · rw [dot_cross_eq]; rfl
  · rw [test_leg_torque]
    simp only [Option.some.injEq, IkSolver.JointValues.mk.injEq]
    refine ⟨?_, ?_, ?_⟩ <;> norm_num
  · rw [test_leg_torque]
    simp only [Option.some.injEq, IkSolver.JointValues.mk.injEq]
    refine ⟨?_, ?_, ?_⟩ <;> norm_num
  · rw [abs_le]
    constructor <;> norm_num

/-- C22 at the leg with zero shoulder offset, target `(0, 0, 0.195)` and force
`(0, 10, 0)`: the result exists and its shoulder torque is the shoulder column
of the Jacobian times the force. -/
theorem C22_Inverse_torque_jacobian_transpose_witness :
    (Inverse_torque_Nm (InverseVelocityTest_config : Config ℝ)
        ⟨⟨1, Degrees (shoulder_rad (InverseVelocityTest_config : Config ℝ) ⟨0, 0, 0.195⟩)⟩,
          ⟨2, Degrees (femur_rad (InverseVelocityTest_config : Config ℝ) ⟨0, 0, 0.195⟩)⟩,
          ⟨3, Degrees (tibia_rad (InverseVelocityTest_config : Config ℝ) ⟨0, 0, 0.195⟩)⟩⟩
        ⟨0, 10, 0⟩).shoulder =
      Point3D.dot (jacobian_shoulder (InverseVelocityTest_config : Config ℝ)
        ⟨⟨1, Degrees (shoulder_rad (InverseVelocityTest_config : Config ℝ) ⟨0, 0, 0.195⟩)⟩,
          ⟨2, Degrees (femur_rad (InverseVelocityTest_config : Config ℝ) ⟨0, 0, 0.195⟩)⟩,
          ⟨3, Degrees (tibia_rad (InverseVelocityTest_config : Config ℝ) ⟨0, 0, 0.195⟩)⟩⟩)
        ⟨0, 10, 0⟩ :=
  (C22_Inverse_torque_jacobian_transpose.1 InverseVelocityTest_config
    ⟨⟨0, 0, 0.195⟩, ⟨0, 0, 0⟩, ⟨0, 10, 0⟩⟩ none _ _ _
    (Inverse_effector_of_Inverse _ ⟨⟨0, 0, 0.195⟩, ⟨0, 0, 0⟩, ⟨0, 10, 0⟩⟩ none _
      (Inverse_of_reach _ _ none test_leg_reach))).2.1

end MammalIk

end mech

namespace mech

open base

namespace MammalIk

/-- The determinant of the Jacobian of a leg with links along the leg axis:
minus the product of the link lengths, the sine of the knee angle and the
height of the foot below the shoulder axis in the leg plane. -/
theorem jacobian_det_eq (config : Config ℝ) (joints : IkSolver.JointAngles ℝ)
    (hfx : config.femur.pose.x = 0) (hfy : config.femur.pose.y = 0)
    (htx : config.tibia.pose.x = 0) (hty : config.tibia.pose.y = 0) :
    Point3D.dot (jacobian_shoulder config joints)
        (Point3D.cross (jacobian_femur config joints) (jacobian_tibia config joints)) =
      -(l2 config * l3 config * Real.sin (Radians joints.tibia.angle_deg) *
        (config.shoulder.pose.z + l2 config * Real.cos (Radians joints.femur.angle_deg)
          + l3 config * Real.cos
            (Radians joints.femur.angle_deg + Radians joints.tibia.angle_deg))) := by
  simp only [jacobian_shoulder, jacobian_femur, jacobian_tibia, Forward_G_pose, lateral_axis,
    shoulder_axis, shoulder_position, femur_position, tibia_position, rotate_x, rotate_y,
    Point3D.add, Point3D.sub, Point3D.cross, Point3D.dot, Libm.cos, Libm.sin, hfx, hfy, htx,
    hty, l2, l3, Real.cos_add]
  generalize Radians joints.shoulder.angle_deg = a
  generalize Radians joints.femur.angle_deg = b
  generalize Radians joints.tibia.angle_deg = c
  have e1 := Real.sin_sq_add_cos_sq a
  have e2 := Real.sin_sq_add_cos_sq b
  generalize config.shoulder.pose.z = sz
  generalize config.femur.pose.z = f
  generalize config.tibia.pose.z = t
  generalize config.shoulder.pose.y = sy
  generalize config.shoulder.pose.x = sx
  linear_combination
    (-(f * t * Real.sin c * (sz + (f + t * Real.cos c) * Real.cos b - t * Real.sin c * Real.sin b))
        * ((Real.sin a ^ 2 + Real.cos a ^ 2) * (Real.sin b ^ 2 + Real.cos b ^ 2)
          + (Real.sin b ^ 2 + Real.cos b ^ 2))) * e1
      + (-(f * t * Real.sin c
        * (sz + (f + t * Real.cos c) * Real.cos b - t * Real.sin c * Real.sin b))) * e2

end MammalIk

end mech

namespace mech

open base

namespace MammalIk

/-- Bounds on `√79` to six digits. -/
theorem sqrt_79_bounds : 8.88819 < Real.sqrt 79 ∧ Real.sqrt 79 < 8.8882 := by
  constructor
  · rw [Real.lt_sqrt (by norm_num)]
    norm_num
  · rw [Real.sqrt_lt' (by norm_num)]
    norm_num

/-- The joint rates `Inverse_effector` returns for the target `(0, 0, 0.195)`
of the leg with zero shoulder offset and a velocity `v`. -/
theorem test_leg_velocity_dps (velocity force_N : Point3D ℝ) :
    (Inverse_effector (InverseVelocityTest_config : Config ℝ)
        ⟨⟨0, 0, 0.195⟩, velocity, force_N⟩ none).map (fun result => result.2.1) =
      some ⟨Degrees (-velocity.y / 0.195),
        Degrees (velocity.x / 0.195 - 200 * velocity.z / Real.sqrt 79),
        Degrees (400 * velocity.z / Real.sqrt 79)⟩ := by
  have hI := Inverse_of_reach (InverseVelocityTest_config : Config ℝ) ⟨0, 0, 0.195⟩ none
    test_leg_reach
  obtain ⟨j1, j2, j3⟩ := test_leg_jacobian _ hI
  have hs : Real.sqrt 79 ≠ 0 := by
    have := sqrt_79_bounds.1
    intro h0
    rw [h0] at this
    norm_num at this
  rw [Inverse_effector_of_Inverse _ ⟨⟨0, 0, 0.195⟩, velocity, force_N⟩ none _ hI]
  simp only [Option.map_some', Inverse_velocity_dps, j1, j2, j3, Point3D.dot, Point3D.cross,
    Option.some.injEq, IkSolver.JointValues.mk.injEq]
  refine ⟨?_, ?_, ?_⟩
  · congr 1
    field_simp
    ring
  · congr 1
    field_simp
    ring
  · congr 1
    field_simp
    ring

/-- The rates of the two quoted rows, in degrees per second to two decimals. -/
theorem test_leg_rate_values :
    |(Degrees ((0.010 : ℝ) / 0.195) : ℝ) - 2.94| < 0.005 ∧
    |(Degrees (-(200 * (0.010 : ℝ) / Real.sqrt 79)) : ℝ) - (-12.89)| < 0.005 ∧
    |(Degrees (400 * (0.010 : ℝ) / Real.sqrt 79) : ℝ) - 25.79| < 0.005 := by
  obtain ⟨hs1, hs2⟩ := sqrt_79_bounds
  have hp1 := Real.pi_gt_d6
  have hp2 := Real.pi_lt_d6
  have hpos : (0 : ℝ) < Real.pi := Real.pi_pos
  have hspos : (0 : ℝ) < Real.sqrt 79 := by linarith
  have hprod1 : (8.88819 : ℝ) * 3.141592 < Real.sqrt 79 * Real.pi :=
    mul_lt_mul'' hs1 hp1 (by norm_num) (by norm_num)
  have hprod2 : Real.sqrt 79 * Real.pi < 8.8882 * 3.141593 :=
    mul_lt_mul'' hs2 hp2 hspos.le hpos.le
  have hsp : (0 : ℝ) < Real.sqrt 79 * Real.pi := mul_pos hspos hpos
  have e1 : (Degrees ((0.010 : ℝ) / 0.195) : ℝ) = 120 / 13 / Real.pi := by
    unfold Degrees
    show 180 * ((0.010 : ℝ) / 0.195) / Real.pi = 120 / 13 / Real.pi
    norm_num
  have e2 : (Degrees (-(200 * (0.010 : ℝ) / Real.sqrt 79)) : ℝ) =
      -(360 / (Real.sqrt 79 * Real.pi)) := by
    unfold Degrees
    show 180 * (-(200 * (0.010 : ℝ) / Real.sqrt 79)) / Real.pi = _
    field_simp
    ring
  have e3 : (Degrees (400 * (0.010 : ℝ) / Real.sqrt 79) : ℝ) =
      720 / (Real.sqrt 79 * Real.pi) := by
    unfold Degrees
    show 180 * (400 * (0.010 : ℝ) / Real.sqrt 79) / Real.pi = _
    field_simp
    ring
  have b1 : (25.785 : ℝ) < 720 / (Real.sqrt 79 * Real.pi) := by
    rw [lt_div_iff₀ hsp]
    nlinarith
  have b2 : 720 / (Real.sqrt 79 * Real.pi) < (25.7852 : ℝ) := by
    rw [div_lt_iff₀ hsp]
    nlinarith
  have b3 : (360 : ℝ) / (Real.sqrt 79 * Real.pi) = 720 / (Real.sqrt 79 * Real.pi) / 2 := by
    ring
  refine ⟨?_, ?_, ?_⟩
  · have c1 : (2.936 : ℝ) < 120 / 13 / Real.pi := by
      rw [lt_div_iff₀ hpos]
      nlinarith
    have c2 : 120 / 13 / Real.pi < (2.944 : ℝ) := by
      rw [div_lt_iff₀ hpos]
      nlinarith
    rw [e1, abs_lt]
    constructor <;> linarith
  · rw [e2, b3, abs_lt]
    constructor <;> linarith
  · rw [e3, abs_lt]
    constructor <;> linarith

/-- The target `(0.1, 0, 0)` on the shoulder axis of the leg with zero
shoulder offset: planar radius `0.1`, shoulder angle `0`. -/
theorem axis_target_angles :
    planar_radius (InverseVelocityTest_config : Config ℝ) ⟨0.1, 0, 0⟩ = 0.1 ∧
    shoulder_rad (InverseVelocityTest_config : Config ℝ) ⟨0.1, 0, 0⟩ = 0 := by
  have h1 : Real.sqrt ((0 : ℝ) * 0 + 0 * 0 - 0 * 0) = 0 := by
    rw [show (0 : ℝ) * 0 + 0 * 0 - 0 * 0 = 0 by ring]
    exact Real.sqrt_zero
  constructor
  · simp only [planar_radius, planar_x, planar_z, lower_leg_distance, Libm.sqrt,
      InverseVelocityTest_config, h1]
    rw [show ((0.1 : ℝ) - 0) * (0.1 - 0) + (0 - 0) * (0 - 0) = 0.1 * 0.1 by ring]
    exact Real.sqrt_mul_self (by norm_num)
  · simp only [shoulder_rad, lower_leg_distance, Libm.sqrt, InverseVelocityTest_config, h1,
      neg_zero]
    rw [atan2_zero_of_nonneg _ le_rfl]
    norm_num

/-- The target `(0.1, 0, 0)` passes the reachability check of the leg with
zero shoulder offset, strictly inside full extension. -/
theorem axis_target_reach :
    ¬ (planar_radius (InverseVelocityTest_config : Config ℝ) ⟨0.1, 0, 0⟩ >
        l2 (InverseVelocityTest_config : Config ℝ)
          + l3 (InverseVelocityTest_config : Config ℝ) ∨
      planar_radius (InverseVelocityTest_config : Config ℝ) ⟨0.1, 0, 0⟩ <
        |l2 (InverseVelocityTest_config : Config ℝ)
          - l3 (InverseVelocityTest_config : Config ℝ)|) := by
  have hl2 : l2 (InverseVelocityTest_config : Config ℝ) = 0.100 := rfl
  have hl3 : l3 (InverseVelocityTest_config : Config ℝ) = 0.100 := rfl
  rw [axis_target_angles.1, hl2, hl3]
  norm_num

/-- With the foot of the leg with zero shoulder offset on the shoulder axis at
`(0.1, 0, 0)`, no joint rates give the foot a lateral velocity. -/
theorem axis_target_velocity_y (joints : IkSolver.JointAngles ℝ)
    (h : Inverse (InverseVelocityTest_config : Config ℝ) ⟨0.1, 0, 0⟩ none = some joints)
    (rates : IkSolver.JointValues ℝ) :
    (Forward_G_velocity (InverseVelocityTest_config : Config ℝ) joints rates).y = 0 := by
  rw [Inverse_of_reach _ _ none axis_target_reach] at h
  have hj := Option.some.inj h
  have hp := Forward_G_pose_solved (InverseVelocityTest_config : Config ℝ) ⟨0.1, 0, 0⟩
    rfl rfl rfl rfl
    (by simp only [InverseVelocityTest_config]; norm_num) axis_target_reach
  rw [hj] at hp
  have hs : Radians joints.shoulder.angle_deg = 0 := by
    rw [← hj]
    simp only [Radians_Degrees]
    exact axis_target_angles.2
  unfold Forward_G_velocity jacobian_shoulder jacobian_femur jacobian_tibia
  rw [hp]
  simp only [lateral_axis, hs, rotate_x, shoulder_axis, shoulder_position, Libm.cos, Libm.sin,
    Real.sin_zero, Real.cos_zero, Point3D.cross, Point3D.sub, Point3D.add, Point3D.scale]
  ring

/-- C21 fails as stated: for the leg with zero shoulder offset and
`l2 = l3 = 0.100`, the target `(0.1, 0, 0)` with velocity `(0, 0.010, 0)` is
reachable (`Inverse` returns a joint set) and away from full extension (planar
radius `0.1 < 0.2`), yet the rates returned with it, passed to `Forward_G`, do
not reproduce the velocity, and no joint rates could: the foot lies on the
shoulder axis and all three Jacobian columns have zero lateral component. -/
theorem C21_Inverse_rates_counterexample :
    ∃ (joints : IkSolver.JointAngles ℝ) (rates torques : IkSolver.JointValues ℝ),
      Inverse_effector (InverseVelocityTest_config : Config ℝ)
        ⟨⟨0.1, 0, 0⟩, ⟨0, 0.010, 0⟩, ⟨0, 0, 0⟩⟩ none = some (joints, rates, torques) ∧
      planar_radius (InverseVelocityTest_config : Config ℝ) ⟨0.1, 0, 0⟩ <
        l2 (InverseVelocityTest_config : Config ℝ)
          + l3 (InverseVelocityTest_config : Config ℝ) ∧
      (Forward_G (InverseVelocityTest_config : Config ℝ) joints rates torques).velocity ≠
        ⟨0, 0.010, 0⟩ ∧
      ∀ other : IkSolver.JointValues ℝ,
        Forward_G_velocity (InverseVelocityTest_config : Config ℝ) joints other ≠
          ⟨0, 0.010, 0⟩ := by
  have hI := Inverse_of_reach (InverseVelocityTest_config : Config ℝ) ⟨0.1, 0, 0⟩ none
    axis_target_reach
  have hall : ∀ other : IkSolver.JointValues ℝ,
      Forward_G_velocity (InverseVelocityTest_config : Config ℝ)
        { shoulder := ⟨(InverseVelocityTest_config : Config ℝ).shoulder.id,
            Degrees (shoulder_rad (InverseVelocityTest_config : Config ℝ) ⟨0.1, 0, 0⟩)⟩
          femur := ⟨(InverseVelocityTest_config : Config ℝ).femur.id,
            Degrees (femur_rad (InverseVelocityTest_config : Config ℝ) ⟨0.1, 0, 0⟩)⟩
          tibia := ⟨(InverseVelocityTest_config : Config ℝ).tibia.id,
            Degrees (tibia_rad (InverseVelocityTest_config : Config ℝ) ⟨0.1, 0, 0⟩)⟩ } other ≠
        ⟨0, 0.010, 0⟩ := by
    intro other hc
    have hy := congrArg Point3D.y hc
    rw [axis_target_velocity_y _ hI other] at hy
    norm_num at hy
  have hl2 : l2 (InverseVelocityTest_config : Config ℝ) = 0.100 := rfl
  have hl3 : l3 (InverseVelocityTest_config : Config ℝ) = 0.100 := rfl
  refine ⟨_, _, _,
    Inverse_effector_of_Inverse _ ⟨⟨0.1, 0, 0⟩, ⟨0, 0.010, 0⟩, ⟨0, 0, 0⟩⟩ none _ hI, ?_,
    hall _, hall⟩
  rw [axis_target_angles.1, hl2, hl3]
  norm_num

/-- The determinant of the Jacobian at the joint set `Inverse` returns for the
target `(0, 0, 0.195)` and the leg with zero shoulder offset is not zero. -/
theorem test_leg_det (joints : IkSolver.JointAngles ℝ)
    (h : Inverse (InverseVelocityTest_config : Config ℝ) ⟨0, 0, 0.195⟩ none = some joints) :
    Point3D.dot (jacobian_shoulder (InverseVelocityTest_config : Config ℝ) joints)
      (Point3D.cross (jacobian_femur (InverseVelocityTest_config : Config ℝ) joints)
        (jacobian_tibia (InverseVelocityTest_config : Config ℝ) joints)) ≠ 0 := by
  obtain ⟨j1, j2, j3⟩ := test_leg_jacobian joints h
  rw [j1, j2, j3]
  simp only [Point3D.dot, Point3D.cross]
  have := sqrt_79_bounds.1
  intro hc
  nlinarith

/-- C21 (amended): whenever `Inverse` returns a result and the Jacobian of
`Forward_G` at the returned joint angles is non-singular
(`c_1 · (c_2 × c_3) ≠ 0`), the joint angles and rates returned, passed to
`Forward_G`, reproduce the target velocity.  For a leg with links along the
leg axis the determinant is minus the product of `l2`, `l3`, the sine of the
tibia angle and the height `shoulder_offset.z + l2 cos femur + l3 cos (femur +
tibia)` of the foot below the shoulder axis, so it vanishes for a straight
knee, for a fully folded knee and for a foot level with the shoulder axis.
For the leg with zero shoulder offset and `l2 = l3 = 0.100` at target
`(0, 0, 0.195)` the velocity `(0.010, 0, 0)` yields the rates `(0, 2.94, 0)`
and the velocity `(0, 0, 0.010)` yields `(0, -12.89, 25.79)` degrees per
second, to two decimals. -/
theorem C21_Inverse_rates_invert_jacobian :
    (∀ (config : Config ℝ) (effector_G : IkSolver.Effector ℝ)
        (current : Option (IkSolver.JointAngles ℝ)) (joints : IkSolver.JointAngles ℝ)
        (rates torques : IkSolver.JointValues ℝ),
      Inverse_effector config effector_G current = some (joints, rates, torques) →
      Point3D.dot (jacobian_shoulder config joints)
        (Point3D.cross (jacobian_femur config joints) (jacobian_tibia config joints)) ≠ 0 →
      (Forward_G config joints rates torques).velocity = effector_G.velocity) ∧
    (∀ (config : Config ℝ) (joints : IkSolver.JointAngles ℝ),
      config.femur.pose.x = 0 → config.femur.pose.y = 0 →
      config.tibia.pose.x = 0 → config.tibia.pose.y = 0 →
      Point3D.dot (jacobian_shoulder config joints)
          (Point3D.cross (jacobian_femur config joints) (jacobian_tibia config joints)) =
        -(l2 config * l3 config * Real.sin (Radians joints.tibia.angle_deg) *
          (config.shoulder.pose.z + l2 config * Real.cos (Radians joints.femur.angle_deg)
            + l3 config * Real.cos
              (Radians joints.femur.angle_deg + Radians joints.tibia.angle_deg)))) ∧
    (∃ femur_dps : ℝ,
      (Inverse_effector (InverseVelocityTest_config : Config ℝ)
          ⟨⟨0, 0, 0.195⟩, ⟨0.010, 0, 0⟩, ⟨0, 0, 0⟩⟩ none).map (fun result => result.2.1) =
        some ⟨0, femur_dps, 0⟩ ∧
      |femur_dps - 2.94| < 0.005) ∧
    (∃ femur_dps tibia_dps : ℝ,
      (Inverse_effector (InverseVelocityTest_config : Config ℝ)
          ⟨⟨0, 0, 0.195⟩, ⟨0, 0, 0.010⟩, ⟨0, 0, 0⟩⟩ none).map (fun result => result.2.1) =
        some ⟨0, femur_dps, tibia_dps⟩ ∧
      |femur_dps - (-12.89)| < 0.005 ∧ |tibia_dps - 25.79| < 0.005) := by
  obtain ⟨v1, v2, v3⟩ := test_leg_rate_values
  refine ⟨?_, jacobian_det_eq, ⟨Degrees ((0.010 : ℝ) / 0.195), ?_, v1⟩,
    ⟨Degrees (-(200 * (0.010 : ℝ) / Real.sqrt 79)), Degrees (400 * (0.010 : ℝ) / Real.sqrt 79),
      ?_, v2, v3⟩⟩
  · intro config effector_G current joints rates torques h hdet
    obtain ⟨_, h2, _⟩ := Inverse_effector_eq_some config effector_G current joints rates
      torques h
    rw [h2]
    exact Forward_G_velocity_Inverse_velocity_dps config joints effector_G.velocity hdet
  · rw [test_leg_velocity_dps]
    simp only [Option.some.injEq, IkSolver.JointValues.mk.injEq]
    refine ⟨?_, ?_, ?_⟩
    · simp [Degrees]
    · congr 1
      simp
    · simp [Degrees]
  · rw [test_leg_velocity_dps]
    simp only [Option.some.injEq, IkSolver.JointValues.mk.injEq]
    refine ⟨?_, ?_⟩
    · simp [Degrees]
    · simp

/-- C21 (amended) at the leg with zero shoulder offset, target `(0, 0, 0.195)`
and velocity `(0.010, 0, 0)`. -/
theorem C21_Inverse_rates_invert_jacobian_witness :
    (Forward_G (InverseVelocityTest_config : Config ℝ)
        ⟨⟨1, Degrees (shoulder_rad (InverseVelocityTest_config : Config ℝ) ⟨0, 0, 0.195⟩)⟩,
          ⟨2, Degrees (femur_rad (InverseVelocityTest_config : Config ℝ) ⟨0, 0, 0.195⟩)⟩,
          ⟨3, Degrees (tibia_rad (InverseVelocityTest_config : Config ℝ) ⟨0, 0, 0.195⟩)⟩⟩
        (Inverse_velocity_dps (InverseVelocityTest_config : Config ℝ)
          ⟨⟨1, Degrees (shoulder_rad (InverseVelocityTest_config : Config ℝ) ⟨0, 0, 0.195⟩)⟩,
            ⟨2, Degrees (femur_rad (InverseVelocityTest_config : Config ℝ) ⟨0, 0, 0.195⟩)⟩,
            ⟨3, Degrees (tibia_rad (InverseVelocityTest_config : Config ℝ) ⟨0, 0, 0.195⟩)⟩⟩
          ⟨0.010, 0, 0⟩)
        (Inverse_torque_Nm (InverseVelocityTest_config : Config ℝ)
          ⟨⟨1, Degrees (shoulder_rad (InverseVelocityTest_config : Config ℝ) ⟨0, 0, 0.195⟩)⟩,
            ⟨2, Degrees (femur_rad (InverseVelocityTest_config : Config ℝ) ⟨0, 0, 0.195⟩)⟩,
            ⟨3, Degrees (tibia_rad (InverseVelocityTest_config : Config ℝ) ⟨0, 0, 0.195⟩)⟩⟩
          ⟨0, 0, 0⟩)).velocity = ⟨0.010, 0, 0⟩ :=
  C21_Inverse_rates_invert_jacobian.1 InverseVelocityTest_config
    ⟨⟨0, 0, 0.195⟩, ⟨0.010, 0, 0⟩, ⟨0, 0, 0⟩⟩ none _ _ _
    (Inverse_effector_of_Inverse _ ⟨⟨0, 0, 0.195⟩, ⟨0.010, 0, 0⟩, ⟨0, 0, 0⟩⟩ none _
      (Inverse_of_reach _ _ none test_leg_reach))
    (test_leg_det _ (Inverse_of_reach _ _ none test_leg_reach))

end MammalIk

end mech

end mjmech
